import Mathlib

/-!
A shallow embedding of the piece-table text buffer from `src/main.rs`
(`AppendOnlyBuffer`, `Span`, `Piece`/`PieceData`, `Text`, the piece and
byte iterators), together with a reference model (edits on a plain list
of bytes) and proofs relating the two.

Machine integers (`u32`, `usize`) are modelled as `Nat`; bytes as `Nat`.
Arena indices (`Piece(u32)`) are plain `Nat` indices into a list.
-/

namespace Piece

/-- `Span { off1, off2 }`: a half-open byte range `[off1, off2)` into the
backing buffer (from `struct Span`). -/
structure Span where
  off1 : Nat
  off2 : Nat
deriving DecidableEq, Repr

/-- `Span::len`: `off2 - off1`. -/
def Span.len (s : Span) : Nat := s.off2 - s.off1

/-- `Span::empty`: the empty span `[0, 0)`. -/
def Span.emptySpan : Span := ⟨0, 0⟩

/-- `Span::is_empty`. -/
def Span.isEmpty (s : Span) : Bool := s.len = 0

/-- `Span::split`: split such that the left piece has `n` bytes;
`None` when `n == 0 || n == self.len()`. -/
def Span.split (s : Span) (n : Nat) : Option (Span × Span) :=
  if n = 0 ∨ n = s.len then none
  else some (⟨s.off1, s.off1 + n⟩, ⟨s.off1 + n, s.off2⟩)

/-- `struct AppendOnlyBuffer { buf: Vec<u8> }`. -/
structure AppendOnlyBuffer where
  buf : List Nat
deriving DecidableEq, Repr

/-- `AppendOnlyBuffer::new`. -/
def AppendOnlyBuffer.new : AppendOnlyBuffer := ⟨[]⟩

/-- `AppendOnlyBuffer::append`: push the bytes at the end, return the
covering span.  Returns the updated buffer explicitly (state passing). -/
def AppendOnlyBuffer.append (b : AppendOnlyBuffer) (bytes : List Nat) :
    AppendOnlyBuffer × Span :=
  let off1 := b.buf.length
  let buf2 := b.buf ++ bytes
  (⟨buf2⟩, ⟨off1, buf2.length⟩)

/-- `AppendOnlyBuffer::get`: the slice `buf[off1..off2]`. -/
def AppendOnlyBuffer.get (b : AppendOnlyBuffer) (s : Span) : List Nat :=
  (b.buf.drop s.off1).take (s.off2 - s.off1)

/-- `AppendOnlyBuffer::get_byte`: the byte at an absolute buffer offset. -/
def AppendOnlyBuffer.get_byte (b : AppendOnlyBuffer) (i : Nat) : Nat :=
  b.buf.getD i 0

/-- Fold a list of byte sequences into a buffer by repeated `append`
(discarding the returned spans): "arbitrarily many later appends". -/
def appendAll (b : AppendOnlyBuffer) : List (List Nat) → AppendOnlyBuffer
  | [] => b
  | bs :: rest => appendAll (b.append bs).1 rest

/-- A span read lies entirely inside the stored bytes. -/
def spanOk (b : AppendOnlyBuffer) (s : Span) : Prop :=
  s.off1 ≤ s.off2 ∧ s.off2 ≤ b.buf.length

instance (b : AppendOnlyBuffer) (s : Span) : Decidable (spanOk b s) := by
  unfold spanOk; infer_instance

/-- `const SENTINEL: Piece = Piece(0)`.  A `Piece` is an arena index,
modelled as a plain `Nat`. -/
def SENTINEL : Nat := 0

/-- `struct PieceData { span, prev, next }`; `prev`/`next` are arena
indices. -/
structure PieceData where
  span : Span
  prev : Nat
  next : Nat
deriving DecidableEq, Repr

/-- Default entry used to totalise arena indexing (all source accesses
are in bounds). -/
def pdDefault : PieceData := ⟨Span.emptySpan, SENTINEL, SENTINEL⟩

/-- `struct Text { buffer, pieces, len }`. -/
structure Text where
  buffer : AppendOnlyBuffer
  pieces : List PieceData
  len : Nat
deriving DecidableEq, Repr

/-- `Text::new`: empty buffer, the arena holding only the sentinel
(index 0, empty span, linked to itself), `len = 0`. -/
def Text.new : Text :=
  ⟨AppendOnlyBuffer.new, [⟨Span.emptySpan, SENTINEL, SENTINEL⟩], 0⟩

/-- `Text::get_piece`. -/
def Text.get_piece (t : Text) (p : Nat) : PieceData :=
  t.pieces.getD p pdDefault

/-- In-place update of one arena entry (`self.pieces[i].field = v`). -/
def modifyAt : List PieceData → Nat → (PieceData → PieceData) → List PieceData
  | [], _, _ => []
  | x :: xs, 0, f => f x :: xs
  | x :: xs, i+1, f => x :: modifyAt xs i f

/-- `Text::link`: `pieces[p1].next = piece2; pieces[p2].prev = piece1`. -/
def Text.link (t : Text) (p1 p2 : Nat) : Text :=
  let ps1 := modifyAt t.pieces p1 (fun d => { d with next := p2 })
  let ps2 := modifyAt ps1 p2 (fun d => { d with prev := p1 })
  { t with pieces := ps2 }

/-- The `Pieces` iterator (`impl Iterator for Pieces`) run to completion
from piece `p` at running text offset `off`: yields `(start, piece)`
pairs, stopping at the sentinel.  `fuel` bounds the walk so the function
is total; every consistent text finishes within `t.pieces.length` steps. -/
def piecesFrom (t : Text) : Nat → Nat → Nat → List (Nat × Nat)
  | 0, _, _ => []
  | fuel+1, p, off =>
    if p = SENTINEL then []
    else (off, p) ::
      piecesFrom t fuel (t.get_piece p).next (off + (t.get_piece p).span.len)

/-- `Text::pieces()` run to completion (never yields the sentinel). -/
def Text.piecesList (t : Text) : List (Nat × Nat) :=
  piecesFrom t t.pieces.length (t.get_piece SENTINEL).next 0

/-- The scanning loop of `Text::find_piece`: `start`/`piece` track the
previous pair; return them at the first pair whose offset exceeds `off`. -/
def findLoop : List (Nat × Nat) → Nat → Nat → Nat → Nat × Nat
  | [], _, start, piece => (start, piece)
  | (s, p) :: rest, off, start, piece =>
    if s > off then (start, piece) else findLoop rest off s p

/-- `Text::find_piece`: `(off, SENTINEL)` when `off == len`, otherwise an
ordered scan over the piece chain. -/
def Text.find_piece (t : Text) (off : Nat) : Nat × Nat :=
  if off = t.len then (off, SENTINEL)
  else findLoop t.piecesList off 0 SENTINEL

/-- `Text::add_piece`: push a fresh arena entry, return its index. -/
def Text.add_piece (t : Text) (span : Span) : Text × Nat :=
  ({ t with pieces := t.pieces ++ [⟨span, SENTINEL, SENTINEL⟩] },
    t.pieces.length)

/-- `Text::delete`: delete bytes in `[off1, off2)`; no-op when
`off2 ≤ off1`.  Each boundary piece is split (when the boundary is
strictly inside it) into a freshly added remainder piece; finally the
left splice point is linked to the right one. -/
def Text.delete (t : Text) (off1 off2 : Nat) : Text :=
  if off2 ≤ off1 then t
  else
    let fl := t.find_piece off1
    let lstart := fl.1
    let lpiece := fl.2
    let lspan := (t.get_piece lpiece).span
    let fr := t.find_piece off2
    let rstart := fr.1
    let rpiece := fr.2
    let rspan := (t.get_piece rpiece).span
    let tl : Text × Nat :=
      match lspan.split (off1 - lstart) with
      | some (left_span, _right_span) =>
        let l := (t.get_piece lpiece).prev
        let ar := t.add_piece left_span
        ((ar.1).link l ar.2, ar.2)
      | none => (t, (t.get_piece lpiece).prev)
    let t1 := tl.1
    let left := tl.2
    let tr : Text × Nat :=
      match rspan.split (off2 - rstart) with
      | some (_left_span, right_span) =>
        let r := (t1.get_piece rpiece).next
        let ar := t1.add_piece right_span
        ((ar.1).link ar.2 r, ar.2)
      | none => (t1, rpiece)
    let t2 := tr.1
    let right := tr.2
    let t3 := { t2 with len := t2.len - (off2 - off1) }
    t3.link left right

/-- `Text::insert`: insert `bytes` at `off`; no-op when `bytes` is
empty.  If `off` is strictly inside the found piece, split it into
`left`/`middle`/`right`; otherwise splice one new piece in front of the
found piece. -/
def Text.insert (t : Text) (off : Nat) (bytes : List Nat) : Text :=
  if bytes.length = 0 then t
  else
    let fp := t.find_piece off
    let start := fp.1
    let piece := fp.2
    let d := t.get_piece piece
    let span := d.span
    let prev := d.prev
    let next := d.next
    match span.split (off - start) with
    | some (left_span, right_span) =>
      let a1 := t.add_piece left_span
      let left := a1.2
      let ap := (a1.1).buffer.append bytes
      let tb := { a1.1 with buffer := ap.1 }
      let a2 := tb.add_piece ap.2
      let middle := a2.2
      let a3 := (a2.1).add_piece right_span
      let right := a3.2
      let t4 := (a3.1).link prev left
      let t5 := t4.link left middle
      let t6 := t5.link middle right
      let t7 := t6.link right next
      { t7 with len := t7.len + bytes.length }
    | none =>
      let ap := t.buffer.append bytes
      let tb := { t with buffer := ap.1 }
      let a1 := tb.add_piece ap.2
      let p := a1.2
      let t2 := (a1.1).link p piece
      let t3 := t2.link prev p
      { t3 with len := t3.len + bytes.length }

/-- `Text::to_vec`: concatenate each chain piece's buffer view. -/
def Text.to_vec (t : Text) : List Nat :=
  (t.piecesList.map (fun sp => t.buffer.get (t.get_piece sp.2).span)).flatten

/-- Sum of the span lengths of a list of arena indices. -/
def sumLens (t : Text) : List Nat → Nat
  | [] => 0
  | p :: rest => (t.get_piece p).span.len + sumLens t rest

/-- The bytes one chain piece contributes to the text. -/
def contentOf (t : Text) (p : Nat) : List Nat :=
  t.buffer.get (t.get_piece p).span

/-- Pair each chain index with its cumulative start offset. -/
def offsetsOf (t : Text) : Nat → List Nat → List (Nat × Nat)
  | _, [] => []
  | acc, p :: rest => (acc, p) :: offsetsOf t (acc + (t.get_piece p).span.len) rest

/-- `seg t a l b`: following `next` from `a` visits exactly the pieces of
`l` and then reaches `b`, with each step's `prev` pointer pointing back. -/
def seg (t : Text) : Nat → List Nat → Nat → Prop
  | a, [], b => (t.get_piece a).next = b ∧ (t.get_piece b).prev = a
  | a, x :: l, b => (t.get_piece a).next = x ∧ (t.get_piece x).prev = a ∧ seg t x l b

/-- Consistency of a text with its chain `ps`: `ps` lists the arena
indices of the visible pieces in text order, doubly linked between the
two ends of the sentinel; spans are positive and inside the buffer; the
cached `len` is the total. -/
structure WFc (t : Text) (ps : List Nat) : Prop where
  arena_pos : 0 < t.pieces.length
  links : seg t SENTINEL ps SENTINEL
  mem_lt : ∀ p ∈ ps, p < t.pieces.length
  mem_ne : ∀ p ∈ ps, p ≠ SENTINEL
  nodup : ps.Nodup
  card : ps.length < t.pieces.length
  spans_ok : ∀ p ∈ ps, spanOk t.buffer (t.get_piece p).span
  spans_pos : ∀ p ∈ ps, 0 < (t.get_piece p).span.len
  len_eq : t.len = sumLens t ps

/-- A consistent text: some chain witnesses `WFc`. -/
def WF (t : Text) : Prop := ∃ ps, WFc t ps

/-- The texts produced by `Text::new` followed by in-range mutator calls
(`delete` is also allowed its documented degenerate no-op ranges). -/
inductive Reachable : Text → Prop
  | new : Reachable Text.new
  | ins {t : Text} {off : Nat} {bytes : List Nat} :
      Reachable t → off ≤ t.len → Reachable (t.insert off bytes)
  | del {t : Text} {off1 off2 : Nat} :
      Reachable t → (off1 < off2 → off2 ≤ t.len) →
      Reachable (t.delete off1 off2)

/-- An editing operation, as invoked by a caller. -/
inductive Op where
  | ins : Nat → List Nat → Op
  | del : Nat → Nat → Op
deriving DecidableEq, Repr

/-- Reference model: the same edit performed on a plain contiguous byte
sequence. -/
def refStep (l : List Nat) : Op → List Nat
  | Op.ins off bytes => l.take off ++ bytes ++ l.drop off
  | Op.del off1 off2 => l.take off1 ++ l.drop off2

/-- Reference model: run a whole edit sequence from the empty sequence. -/
def refRun (ops : List Op) : List Nat := ops.foldl refStep []

/-- Apply one operation to a `Text`. -/
def applyOp (t : Text) : Op → Text
  | Op.ins off bytes => t.insert off bytes
  | Op.del off1 off2 => t.delete off1 off2

/-- Run a whole edit sequence from `Text::new()`. -/
def applyOps (ops : List Op) : Text := ops.foldl applyOp Text.new

/-- All offsets in range, judged against the running reference length. -/
def validFrom : Nat → List Op → Bool
  | _, [] => true
  | n, Op.ins off bytes :: rest =>
      decide (off ≤ n) && validFrom (n + bytes.length) rest
  | n, Op.del off1 off2 :: rest =>
      decide (off1 ≤ off2) && decide (off2 ≤ n) &&
        validFrom (n - (off2 - off1)) rest

/-- Fuel-bounded pointer walk (the loops of `Text::invariant`): follow
`step` from `p` until the sentinel comes around. -/
def walkFrom (step : Nat → Nat) : Nat → Nat → List Nat
  | 0, _ => []
  | fuel+1, p => if p = SENTINEL then [] else p :: walkFrom step fuel (step p)

/-- The forward chain `sentinel.next → … → sentinel` (without the
sentinel itself). -/
def Text.fwdChain (t : Text) : List Nat :=
  walkFrom (fun p => (t.get_piece p).next) t.pieces.length
    (t.get_piece SENTINEL).next

/-- The backward chain `sentinel.prev → … → sentinel`. -/
def Text.bwdChain (t : Text) : List Nat :=
  walkFrom (fun p => (t.get_piece p).prev) t.pieces.length
    (t.get_piece SENTINEL).prev

/-- The §3 consistency invariants: positive spans on the forward chain,
both chain sums equal to `len`, and `next`/`prev` mutually inverse on
every piece of the chain, the sentinel included. -/
def Invariants (t : Text) : Prop :=
  (∀ p ∈ t.fwdChain, 0 < (t.get_piece p).span.len) ∧
  sumLens t t.fwdChain = t.len ∧
  sumLens t t.bwdChain = t.len ∧
  (∀ p ∈ SENTINEL :: t.fwdChain,
    (t.get_piece (t.get_piece p).prev).next = p ∧
    (t.get_piece (t.get_piece p).next).prev = p)

instance (t : Text) : Decidable (Invariants t) := by
  unfold Invariants; infer_instance

/-- The `Pieces` iterator state (`struct Pieces`): the piece to visit
next and the running text offset. -/
structure PiecesSt where
  nxt : Nat
  off : Nat
deriving DecidableEq, Repr

/-- `Pieces::next`: `None` at the sentinel, else yield `(off, piece)` and
advance. -/
def piecesStep (t : Text) (s : PiecesSt) : Option ((Nat × Nat) × PiecesSt) :=
  if s.nxt = SENTINEL then none
  else
    let pd := t.get_piece s.nxt
    some ((s.off, s.nxt), ⟨pd.next, s.off + pd.span.len⟩)

/-- The `Bytes` iterator state (`struct Bytes`): the underlying piece
iterator, the current piece's data, and the cursor inside it. -/
structure BytesSt where
  pieces : PiecesSt
  pd : Option PieceData
  off : Nat
deriving DecidableEq, Repr

/-- `Bytes::next`: `None` once the piece data is exhausted; when the
cursor leaves the current span, reset it, pull the next piece and retry
(the source recurses; `fuel` bounds that skip recursion, and any
consistent text finishes within `t.pieces.length + 1` steps). -/
def bytesStep (t : Text) : Nat → BytesSt → Option (Nat × BytesSt)
  | 0, _ => none
  | fuel+1, s =>
    match s.pd with
    | none => none
    | some pd =>
      if pd.span.len ≤ s.off then
        match piecesStep t s.pieces with
        | none => bytesStep t fuel { s with off := 0, pd := none }
        | some (pr, ps2) =>
            bytesStep t fuel ⟨ps2, some (t.get_piece pr.2), 0⟩
      else
        some (t.buffer.get_byte (pd.span.off1 + s.off),
          { s with off := s.off + 1 })

/-- Modelled from the spec: `Text::bytes()` — the byte-iterator
constructor is missing from the active source (`struct Bytes` has no
constructor and `impl Text` has no `bytes` method); per §4.3 it composes
`Text::pieces()` with a per-piece cursor, so it starts from the first
yielded piece (or with no piece when the text is empty). -/
def Text.bytesInit (t : Text) : BytesSt :=
  let ps : PiecesSt := ⟨(t.get_piece SENTINEL).next, 0⟩
  match piecesStep t ps with
  | none => ⟨ps, none, 0⟩
  | some (pr, ps2) => ⟨ps2, some (t.get_piece pr.2), 0⟩

/-- Drain the byte iterator: collect every yielded byte in order. -/
def bytesRun (t : Text) : Nat → BytesSt → List Nat
  | 0, _ => []
  | fuel+1, s =>
    match bytesStep t (t.pieces.length + 1) s with
    | none => []
    | some (b, s2) => b :: bytesRun t fuel s2

/-- The whole lazy byte sequence of a text (enough fuel for any
consistent text: one step per byte plus the final `None`). -/
def Text.bytesList (t : Text) : List Nat :=
  bytesRun t (t.len + 1) t.bytesInit

/-- A UTF-8 continuation byte (`0x80–0xBF`). -/
def isCont (b : Nat) : Bool := if 0x80 ≤ b ∧ b ≤ 0xBF then true else false

/-- Modelled from the spec: the UTF-8 validity check performed by Rust's
`String::from_utf8` (standard library, not part of src/): ASCII; 2-byte
`C2–DF`; 3-byte `E0`/`E1–EC`/`ED` (surrogates excluded)/`EE–EF`; 4-byte
`F0`/`F1–F3`/`F4` (up to `U+10FFFF`); continuation bytes `80–BF`. -/
def validUtf8 : List Nat → Bool
  | [] => true
  | b :: rest =>
    if b ≤ 0x7F then validUtf8 rest
    else if 0xC2 ≤ b ∧ b ≤ 0xDF then
      match rest with
      | c1 :: rest2 => isCont c1 && validUtf8 rest2
      | [] => false
    else if b = 0xE0 then
      match rest with
      | c1 :: c2 :: rest2 =>
          (if 0xA0 ≤ c1 ∧ c1 ≤ 0xBF then true else false) && isCont c2 &&
            validUtf8 rest2
      | _ => false
    else if (0xE1 ≤ b ∧ b ≤ 0xEC) ∨ b = 0xEE ∨ b = 0xEF then
      match rest with
      | c1 :: c2 :: rest2 => isCont c1 && isCont c2 && validUtf8 rest2
      | _ => false
    else if b = 0xED then
      match rest with
      | c1 :: c2 :: rest2 =>
          (if 0x80 ≤ c1 ∧ c1 ≤ 0x9F then true else false) && isCont c2 &&
            validUtf8 rest2
      | _ => false
    else if b = 0xF0 then
      match rest with
      | c1 :: c2 :: c3 :: rest2 =>
          (if 0x90 ≤ c1 ∧ c1 ≤ 0xBF then true else false) && isCont c2 &&
            isCont c3 && validUtf8 rest2
      | _ => false
    else if 0xF1 ≤ b ∧ b ≤ 0xF3 then
      match rest with
      | c1 :: c2 :: c3 :: rest2 =>
          isCont c1 && isCont c2 && isCont c3 && validUtf8 rest2
      | _ => false
    else if b = 0xF4 then
      match rest with
      | c1 :: c2 :: c3 :: rest2 =>
          (if 0x80 ≤ c1 ∧ c1 ≤ 0x8F then true else false) && isCont c2 &&
            isCont c3 && validUtf8 rest2
      | _ => false
    else false

/-- `Text::to_utf8_string`: `String::from_utf8(self.to_vec())`.  A Rust
`String` is carried as its UTF-8 byte vector; the `Result` is modelled
as an `Option`, `none` being the `FromUtf8Error` case. -/
def Text.to_utf8_string (t : Text) : Option (List Nat) :=
  if validUtf8 t.to_vec then some t.to_vec else none

/-- Modelled from the spec: `Text::append` is absent from the active
source (it exists only inside a commented-out legacy block); §4.2 states
`append(bytes)` is `insert(len, bytes)`. -/
def Text.append (t : Text) (bytes : List Nat) : Text :=
  t.insert t.len bytes

theorem modifyAt_length (l : List PieceData) (i : Nat)
    (f : PieceData → PieceData) : (modifyAt l i f).length = l.length := by
  induction l generalizing i with
  | nil => rfl
  | cons x xs ih =>
    cases i with
    | zero => rfl
    | succ i => simpa [modifyAt] using ih i

theorem getD_modifyAt_ne (l : List PieceData) (i j : Nat)
    (f : PieceData → PieceData) (d : PieceData) (h : j ≠ i) :
    (modifyAt l i f).getD j d = l.getD j d := by
  induction l generalizing i j with
  | nil => rfl
  | cons x xs ih =>
    cases i with
    | zero =>
      cases j with
      | zero => exact absurd rfl h
      | succ j => rfl
    | succ i =>
      cases j with
      | zero => rfl
      | succ j => simpa [modifyAt] using ih i j (by omega)

theorem getD_modifyAt_self (l : List PieceData) (i : Nat)
    (f : PieceData → PieceData) (d : PieceData) (h : i < l.length) :
    (modifyAt l i f).getD i d = f (l.getD i d) := by
  induction l generalizing i with
  | nil => simp at h
  | cons x xs ih =>
    cases i with
    | zero => rfl
    | succ i => simpa [modifyAt] using ih i (by simpa using h)

theorem getD_append_left_pd (l l2 : List PieceData) (j : Nat) (d : PieceData)
    (h : j < l.length) : (l ++ l2).getD j d = l.getD j d := by
  induction l generalizing j with
  | nil => simp at h
  | cons x xs ih =>
    cases j with
    | zero => rfl
    | succ j => simpa using ih j (by simpa using h)

theorem getD_append_self_pd (l : List PieceData) (x d : PieceData) :
    (l ++ [x]).getD l.length d = x := by
  induction l with
  | nil => rfl
  | cons y ys ih => simp only [List.cons_append, List.length_cons,
      List.getD_cons_succ]; exact ih

theorem sumLens_append (t : Text) (l1 l2 : List Nat) :
    sumLens t (l1 ++ l2) = sumLens t l1 + sumLens t l2 := by
  induction l1 with
  | nil => simp [sumLens]
  | cons p l1 ih =>
    show (t.get_piece p).span.len + sumLens t (l1 ++ l2) = _
    rw [ih]
    show _ = (t.get_piece p).span.len + sumLens t l1 + sumLens t l2
    omega

theorem sumLens_congr (t t' : Text) (l : List Nat)
    (h : ∀ p ∈ l, (t'.get_piece p).span.len = (t.get_piece p).span.len) :
    sumLens t' l = sumLens t l := by
  induction l with
  | nil => rfl
  | cons p l ih =>
    simp only [sumLens, h p (by simp),
      ih (fun q hq => h q (List.mem_cons_of_mem _ hq))]

theorem seg_append (t : Text) (a b x : Nat) (l1 l2 : List Nat) :
    seg t a (l1 ++ x :: l2) b ↔ seg t a l1 x ∧ seg t x l2 b := by
  induction l1 generalizing a with
  | nil => simp only [List.nil_append, seg]; tauto
  | cons y l1 ih =>
    show ((t.get_piece a).next = y ∧ (t.get_piece y).prev = a ∧
      seg t y (l1 ++ x :: l2) b) ↔ _
    rw [ih y]
    show _ ↔ ((t.get_piece a).next = y ∧ (t.get_piece y).prev = a ∧
      seg t y l1 x) ∧ seg t x l2 b
    tauto

theorem seg_congr (t t' : Text) (l : List Nat) :
    ∀ (a b : Nat),
    (∀ x ∈ a :: l, (t'.get_piece x).next = (t.get_piece x).next) →
    (∀ x ∈ l ++ [b], (t'.get_piece x).prev = (t.get_piece x).prev) →
    seg t a l b → seg t' a l b := by
  induction l with
  | nil =>
    intro a b hn hp h
    exact ⟨(hn a (by simp)).trans h.1, (hp b (by simp)).trans h.2⟩
  | cons x l ih =>
    intro a b hn hp h
    refine ⟨(hn a (by simp)).trans h.1, (hp x (by simp)).trans h.2.1, ?_⟩
    refine ih x b (fun y hy => hn y ?_) (fun y hy => hp y ?_) h.2.2
    · simp only [List.mem_cons] at hy ⊢
      tauto
    · simp only [List.cons_append, List.mem_cons]
      exact Or.inr hy

theorem seg_last_prev (t : Text) (l : List Nat) :
    ∀ (a b : Nat), seg t a l b → (t.get_piece b).prev = l.getLastD a := by
  induction l with
  | nil => intro a b h; simpa using h.2
  | cons x l ih =>
    intro a b h
    rw [ih x b h.2.2]
    cases l <;> simp [List.getLastD]

theorem seg_head_next (t : Text) (l : List Nat) (a b : Nat)
    (h : seg t a l b) : (t.get_piece a).next = l.headD b := by
  cases l with
  | nil => simpa using h.1
  | cons x l => simpa using h.1

theorem piecesFrom_of_seg (t : Text) (l : List Nat) :
    ∀ (a off fuel : Nat), seg t a l SENTINEL → (∀ p ∈ l, p ≠ SENTINEL) →
    l.length < fuel →
    piecesFrom t fuel (t.get_piece a).next off = offsetsOf t off l := by
  induction l with
  | nil =>
    intro a off fuel h _ hfuel
    rcases fuel with _ | fuel
    · omega
    · rw [h.1]; rfl
  | cons x l ih =>
    intro a off fuel h hne hfuel
    rcases fuel with _ | fuel
    · omega
    · rw [h.1, piecesFrom, if_neg (hne x (by simp)), offsetsOf]
      rw [ih x _ fuel h.2.2 (fun p hp => hne p (by simp [hp]))
        (by simpa using Nat.lt_of_succ_lt_succ hfuel)]

theorem walkFrom_next_of_seg (t : Text) (l : List Nat) :
    ∀ (a fuel : Nat), seg t a l SENTINEL → (∀ p ∈ l, p ≠ SENTINEL) →
    l.length < fuel →
    walkFrom (fun p => (t.get_piece p).next) fuel (t.get_piece a).next = l := by
  induction l with
  | nil =>
    intro a fuel h _ hfuel
    rcases fuel with _ | fuel
    · omega
    · rw [h.1]; rfl
  | cons x l ih =>
    intro a fuel h hne hfuel
    rcases fuel with _ | fuel
    · omega
    · rw [h.1, walkFrom, if_neg (hne x (by simp))]
      rw [ih x fuel h.2.2 (fun p hp => hne p (by simp [hp]))
        (by simpa using Nat.lt_of_succ_lt_succ hfuel)]

theorem walkFrom_prev_of_seg (t : Text) (l : List Nat) :
    ∀ (b fuel : Nat), seg t SENTINEL l b → (∀ p ∈ l, p ≠ SENTINEL) →
    l.length < fuel →
    walkFrom (fun p => (t.get_piece p).prev) fuel (l.getLastD SENTINEL)
      = l.reverse := by
  induction l using List.reverseRecOn with
  | nil =>
    intro b fuel _ _ hfuel
    rcases fuel with _ | fuel
    · omega
    · rfl
  | append_singleton l x ih =>
    intro b fuel h hne hfuel
    rcases fuel with _ | fuel
    · simp at hfuel
    · have hx : x ≠ SENTINEL := hne x (by simp)
      have hsplit := (seg_append t SENTINEL b x l []).mp h
      rw [List.getLastD_concat, walkFrom, if_neg hx,
        seg_last_prev t l SENTINEL x hsplit.1]
      rw [ih x fuel hsplit.1 (fun p hp => hne p (by simp [hp]))
        (by simp at hfuel ⊢; omega)]
      simp

theorem get_piece_link_span (t : Text) (p1 p2 q : Nat) :
    ((t.link p1 p2).get_piece q).span = (t.get_piece q).span := by
  simp only [Text.link, Text.get_piece]
  by_cases h2 : q = p2
  · subst h2
    by_cases hq : q < t.pieces.length
    · rw [getD_modifyAt_self _ _ _ _ (by rw [modifyAt_length]; exact hq)]
      by_cases h1 : q = p1
      · subst h1; rw [getD_modifyAt_self _ _ _ _ hq]
      · rw [getD_modifyAt_ne _ _ _ _ _ h1]
    · rw [List.getD_eq_default _ _
          (by rw [modifyAt_length, modifyAt_length]; omega),
        List.getD_eq_default _ _ (by omega)]
  · rw [getD_modifyAt_ne _ _ _ _ _ h2]
    by_cases h1 : q = p1
    · subst h1
      by_cases hq : q < t.pieces.length
      · rw [getD_modifyAt_self _ _ _ _ hq]
      · rw [List.getD_eq_default _ _ (by rw [modifyAt_length]; omega),
          List.getD_eq_default _ _ (by omega)]
    · rw [getD_modifyAt_ne _ _ _ _ _ h1]

theorem get_piece_link_next (t : Text) (p1 p2 q : Nat)
    (h1 : p1 < t.pieces.length) :
    ((t.link p1 p2).get_piece q).next =
      if q = p1 then p2 else (t.get_piece q).next := by
  simp only [Text.link, Text.get_piece]
  by_cases h2 : q = p2
  · subst h2
    by_cases hq : q < t.pieces.length
    · rw [getD_modifyAt_self _ _ _ _ (by rw [modifyAt_length]; exact hq)]
      by_cases hqp1 : q = p1
      · subst hqp1; rw [getD_modifyAt_self _ _ _ _ hq]; simp
      · rw [getD_modifyAt_ne _ _ _ _ _ hqp1]; simp [hqp1]
    · have hqp1 : q ≠ p1 := by omega
      rw [List.getD_eq_default _ _
          (by rw [modifyAt_length, modifyAt_length]; omega),
        List.getD_eq_default _ _ (by omega), if_neg hqp1]
  · rw [getD_modifyAt_ne _ _ _ _ _ h2]
    by_cases hqp1 : q = p1
    · subst hqp1; rw [getD_modifyAt_self _ _ _ _ h1]; simp
    · rw [getD_modifyAt_ne _ _ _ _ _ hqp1]; simp [hqp1]

theorem get_piece_link_prev (t : Text) (p1 p2 q : Nat)
    (h2 : p2 < t.pieces.length) :
    ((t.link p1 p2).get_piece q).prev =
      if q = p2 then p1 else (t.get_piece q).prev := by
  simp only [Text.link, Text.get_piece]
  by_cases hq2 : q = p2
  · subst hq2
    rw [getD_modifyAt_self _ _ _ _ (by rw [modifyAt_length]; exact h2)]
    simp
  · rw [getD_modifyAt_ne _ _ _ _ _ hq2]
    by_cases hq1 : q = p1
    · subst hq1
      by_cases hq : q < t.pieces.length
      · rw [getD_modifyAt_self _ _ _ _ hq]; simp [hq2]
      · rw [List.getD_eq_default _ _ (by rw [modifyAt_length]; omega),
          List.getD_eq_default _ _ (by omega), if_neg hq2]
    · rw [getD_modifyAt_ne _ _ _ _ _ hq1]; simp [hq2]

theorem link_buffer (t : Text) (p1 p2 : Nat) :
    (t.link p1 p2).buffer = t.buffer := rfl

theorem link_len (t : Text) (p1 p2 : Nat) : (t.link p1 p2).len = t.len := rfl

theorem link_pieces_length (t : Text) (p1 p2 : Nat) :
    (t.link p1 p2).pieces.length = t.pieces.length := by
  simp [Text.link, modifyAt_length]

theorem add_piece_pieces_length (t : Text) (s : Span) :
    (t.add_piece s).1.pieces.length = t.pieces.length + 1 := by
  simp [Text.add_piece]

theorem add_piece_buffer (t : Text) (s : Span) :
    (t.add_piece s).1.buffer = t.buffer := rfl

theorem add_piece_len (t : Text) (s : Span) :
    (t.add_piece s).1.len = t.len := rfl

theorem get_piece_add_piece_old (t : Text) (s : Span) (q : Nat)
    (h : q < t.pieces.length) :
    (t.add_piece s).1.get_piece q = t.get_piece q := by
  simp only [Text.add_piece, Text.get_piece]
  exact getD_append_left_pd _ _ _ _ h

theorem get_piece_add_piece_new (t : Text) (s : Span) :
    (t.add_piece s).1.get_piece t.pieces.length = ⟨s, SENTINEL, SENTINEL⟩ := by
  simp only [Text.add_piece, Text.get_piece]
  exact getD_append_self_pd _ _ _

theorem get_piece_default (t : Text) (q : Nat) (h : t.pieces.length ≤ q) :
    t.get_piece q = pdDefault := by
  simp only [Text.get_piece]
  exact List.getD_eq_default _ _ h

theorem get_append_of_spanOk (b : AppendOnlyBuffer) (bytes : List Nat)
    (s : Span) (h : spanOk b s) : (b.append bytes).1.get s = b.get s := by
  rcases h with ⟨h1, h2⟩
  simp only [AppendOnlyBuffer.append, AppendOnlyBuffer.get]
  rw [List.drop_append_of_le_length (by omega),
    List.take_append_of_le_length (by rw [List.length_drop]; omega)]

theorem spanOk_append_left (b : AppendOnlyBuffer) (bytes : List Nat)
    (s : Span) (h : spanOk b s) : spanOk (b.append bytes).1 s := by
  have h2 := h.2
  refine ⟨h.1, ?_⟩
  simp only [AppendOnlyBuffer.append, List.length_append]
  omega

theorem get_appendAll_of_spanOk (rest : List (List Nat)) :
    ∀ (b : AppendOnlyBuffer) (s : Span), spanOk b s →
      (appendAll b rest).get s = b.get s := by
  induction rest with
  | nil => intro b s _; rfl
  | cons bs rest ih =>
    intro b s hs
    rw [appendAll, ih _ s (spanOk_append_left b bs s hs),
      get_append_of_spanOk _ _ _ hs]

theorem append_get_self (b : AppendOnlyBuffer) (bytes : List Nat) :
    (b.append bytes).1.get (b.append bytes).2 = bytes := by
  simp [AppendOnlyBuffer.append, AppendOnlyBuffer.get]

theorem append_spanOk (b : AppendOnlyBuffer) (bytes : List Nat) :
    spanOk (b.append bytes).1 (b.append bytes).2 := by
  simp [AppendOnlyBuffer.append, spanOk]

theorem append_span_len (b : AppendOnlyBuffer) (bytes : List Nat) :
    (b.append bytes).2.len = bytes.length := by
  simp [AppendOnlyBuffer.append, Span.len]

theorem get_length_of_spanOk (b : AppendOnlyBuffer) (s : Span)
    (h : spanOk b s) : (b.get s).length = s.len := by
  rcases h with ⟨h1, h2⟩
  simp only [AppendOnlyBuffer.get, Span.len, List.length_take,
    List.length_drop]
  omega


theorem Span.split_zero (s : Span) : s.split 0 = none := by
  simp [Span.split]

theorem Span.split_self_len (s : Span) : s.split s.len = none := by
  simp [Span.split]

theorem Span.split_some (s : Span) (n : Nat) (h1 : n ≠ 0) (h2 : n ≠ s.len) :
    s.split n = some (⟨s.off1, s.off1 + n⟩, ⟨s.off1 + n, s.off2⟩) := by
  rw [Span.split, if_neg (by tauto)]

theorem headD_mem_cons (l : List Nat) (b : Nat) : l.headD b ∈ b :: l := by
  cases l <;> simp

theorem getLastD_mem_cons (l : List Nat) (a : Nat) : l.getLastD a ∈ a :: l := by
  induction l generalizing a with
  | nil => simp [List.getLastD]
  | cons x l ih =>
    have h2 := ih x
    show (x :: l).getLastD a ∈ a :: x :: l
    have : (x :: l).getLastD a = l.getLastD x := by
      cases l <;> simp [List.getLastD]
    rw [this]
    simp only [List.mem_cons] at h2 ⊢
    tauto

theorem seg_getLast_next (t : Text) (l : List Nat) :
    ∀ a b, seg t a l b → (t.get_piece (l.getLastD a)).next = b := by
  induction l with
  | nil => intro a b h; simpa using h.1
  | cons x l ih =>
    intro a b h
    have h2 := ih x b h.2.2
    have : (x :: l).getLastD a = l.getLastD x := by
      cases l <;> simp [List.getLastD]
    rw [this]
    exact h2

theorem seg_split_left (t : Text) (a b : Nat) (l1 l2 : List Nat)
    (h : seg t a (l1 ++ l2) b) : seg t a l1 (l2.headD b) := by
  cases l2 with
  | nil => simpa using h
  | cons x l2 => exact ((seg_append t a b x l1 l2).mp h).1

theorem seg_split_right (t : Text) (a b : Nat) (l1 l2 : List Nat)
    (h : seg t a (l1 ++ l2) b) : seg t (l1.getLastD a) l2 b := by
  cases l2 with
  | nil =>
    rw [List.append_nil] at h
    exact ⟨seg_getLast_next t l1 a b h, seg_last_prev t l1 a b h⟩
  | cons x l2 =>
    have h2 := (seg_append t a b x l1 l2).mp h
    exact ⟨seg_getLast_next t l1 a x h2.1, seg_last_prev t l1 a x h2.1, h2.2⟩

theorem seg_glue (t : Text) (a b m : Nat) (l1 l2 : List Nat)
    (h1 : seg t a l1 m) (h2 : seg t m l2 b) (hm : m = l2.headD b)
    (hm2 : l2 = [] → m = b) : seg t a (l1 ++ l2) b := by
  cases l2 with
  | nil =>
    rw [List.append_nil]
    have hmb : m = b := hm2 rfl
    subst hmb
    -- seg t a l1 m and seg t m [] m: keep the l1 part, endpoints match
    exact h1
  | cons x l2 =>
    refine (seg_append t a b x l1 l2).mpr ⟨?_, h2.2.2⟩
    have hx : m = x := by simpa using hm
    subst hx
    exact h1

theorem seg_headD_prev (t : Text) (a b : Nat) (l : List Nat)
    (h : seg t a l b) : (t.get_piece (l.headD b)).prev = a := by
  cases l with
  | nil => exact h.2
  | cons x l => exact h.2.1

theorem nodup_mid (A B : List Nat) (f0 : Nat) (hnd : (A ++ B).Nodup)
    (hA : ∀ q ∈ A, q ≠ f0) (hB : ∀ q ∈ B, q ≠ f0) :
    (A ++ f0 :: B).Nodup := by
  rcases List.nodup_append.mp hnd with ⟨ndA, ndB, dAB⟩
  refine List.nodup_append.mpr ⟨ndA, ?_, ?_⟩
  · exact List.nodup_cons.mpr ⟨fun hmem => (hB _ hmem rfl).elim, ndB⟩
  · intro a haA haB
    rcases List.mem_cons.mp haB with rfl | haB2
    · exact (hA _ haA rfl).elim
    · exact dAB haA haB2

theorem piecesList_eq (t : Text) (ps : List Nat) (h : WFc t ps) :
    t.piecesList = offsetsOf t 0 ps :=
  piecesFrom_of_seg t ps SENTINEL 0 t.pieces.length h.links h.mem_ne h.card

theorem offsetsOf_map (t : Text) (g : Nat → List Nat) (l : List Nat) :
    ∀ acc, (offsetsOf t acc l).map (fun sp => g sp.2) = l.map g := by
  induction l with
  | nil => intro acc; rfl
  | cons p l ih =>
    intro acc
    show g p :: (offsetsOf t _ l).map (fun sp => g sp.2) = g p :: l.map g
    rw [ih]

theorem mem_offsetsOf (t : Text) (l : List Nat) :
    ∀ acc s p, (s, p) ∈ offsetsOf t acc l →
    ∃ A B, l = A ++ p :: B ∧ s = acc + sumLens t A := by
  induction l with
  | nil => intro acc s p h; simp [offsetsOf] at h
  | cons x l ih =>
    intro acc s p h
    rw [offsetsOf, List.mem_cons] at h
    rcases h with h | h
    · rw [Prod.mk.injEq] at h
      exact ⟨[], l, by rw [h.2, List.nil_append], by simp [sumLens, h.1]⟩
    · rcases ih _ s p h with ⟨A, B, hl, hs⟩
      refine ⟨x :: A, B, by rw [hl, List.cons_append], ?_⟩
      rw [hs]
      show _ = acc + ((t.get_piece x).span.len + sumLens t A)
      omega

theorem to_vec_eq (t : Text) (ps : List Nat) (h : WFc t ps) :
    t.to_vec = (ps.map (contentOf t)).flatten := by
  rw [Text.to_vec, piecesList_eq t ps h]
  show ((offsetsOf t 0 ps).map (fun sp => contentOf t sp.2)).flatten = _
  rw [offsetsOf_map t (contentOf t) ps 0]

theorem flatten_map_content_length (t : Text) (l : List Nat)
    (hok : ∀ p ∈ l, spanOk t.buffer (t.get_piece p).span) :
    ((l.map (contentOf t)).flatten).length = sumLens t l := by
  induction l with
  | nil => rfl
  | cons p l ih =>
    show ((contentOf t p :: l.map (contentOf t)).flatten).length = _
    rw [List.flatten_cons, List.length_append,
      ih (fun q hq => hok q (List.mem_cons_of_mem _ hq))]
    show (contentOf t p).length + sumLens t l
      = (t.get_piece p).span.len + sumLens t l
    rw [contentOf, get_length_of_spanOk _ _ (hok p (by simp))]

theorem to_vec_length (t : Text) (ps : List Nat) (h : WFc t ps) :
    t.to_vec.length = t.len := by
  rw [to_vec_eq t ps h, flatten_map_content_length t ps h.spans_ok, h.len_eq]

theorem findLoop_spec (t : Text) (l : List Nat) :
    ∀ (acc off s0 p0 : Nat),
    (∀ p ∈ l, 0 < (t.get_piece p).span.len) →
    acc ≤ off → off < acc + sumLens t l →
    ∃ A p B, l = A ++ p :: B ∧
      findLoop (offsetsOf t acc l) off s0 p0 = (acc + sumLens t A, p) ∧
      acc + sumLens t A ≤ off ∧
      off < acc + sumLens t A + (t.get_piece p).span.len := by
  induction l with
  | nil =>
    intro acc off s0 p0 _ h1 h2
    simp [sumLens] at h2
    omega
  | cons x l ih =>
    intro acc off s0 p0 hpos h1 h2
    have hx : 0 < (t.get_piece x).span.len := hpos x (by simp)
    by_cases hcase : off < acc + (t.get_piece x).span.len
    · refine ⟨[], x, l, rfl, ?_, by simp [sumLens]; omega, ?_⟩
      · show findLoop ((acc, x) :: offsetsOf t (acc + (t.get_piece x).span.len) l)
            off s0 p0 = (acc + sumLens t [], x)
        rw [findLoop, if_neg (by omega)]
        cases l with
        | nil =>
          show (acc, x) = (acc + sumLens t [], x)
          rw [sumLens, Nat.add_zero]
        | cons y l2 =>
          show findLoop ((acc + (t.get_piece x).span.len, y) :: _) off acc x
            = (acc + sumLens t [], x)
          rw [findLoop, if_pos (by omega), sumLens, Nat.add_zero]
      · show off < acc + sumLens t [] + (t.get_piece x).span.len
        rw [sumLens]
        omega
    · have h2b : off < (acc + (t.get_piece x).span.len) + sumLens t l := by
        have : sumLens t (x :: l)
            = (t.get_piece x).span.len + sumLens t l := rfl
        omega
      rcases ih (acc + (t.get_piece x).span.len) off acc x
          (fun p hp => hpos p (List.mem_cons_of_mem _ hp)) (by omega) h2b with
        ⟨A, p, B, hl, hfind, hge, hlt⟩
      refine ⟨x :: A, p, B, by rw [hl, List.cons_append], ?_, ?_, ?_⟩
      · show findLoop ((acc, x) :: offsetsOf t (acc + (t.get_piece x).span.len) l)
            off s0 p0 = (acc + sumLens t (x :: A), p)
        rw [findLoop, if_neg (by omega), hfind, Prod.mk.injEq]
        refine ⟨?_, rfl⟩
        show _ = acc + ((t.get_piece x).span.len + sumLens t A)
        omega
      · show acc + ((t.get_piece x).span.len + sumLens t A) ≤ off
        omega
      · show off < acc + ((t.get_piece x).span.len + sumLens t A)
          + (t.get_piece p).span.len
        omega

theorem find_piece_spec (t : Text) (ps : List Nat) (h : WFc t ps) (off : Nat)
    (hlt : off < t.len) :
    ∃ A p B, ps = A ++ p :: B ∧ t.find_piece off = (sumLens t A, p) ∧
      sumLens t A ≤ off ∧
      off < sumLens t A + (t.get_piece p).span.len := by
  rw [Text.find_piece, if_neg (by omega), piecesList_eq t ps h]
  rcases findLoop_spec t ps 0 off 0 SENTINEL h.spans_pos (by omega)
      (by have := h.len_eq; omega) with
    ⟨A, p, B, hl, hfind, hge, hlt2⟩
  exact ⟨A, p, B, hl, by simpa using hfind, by omega, by omega⟩

theorem find_piece_at_len (t : Text) :
    t.find_piece t.len = (t.len, SENTINEL) := by
  rw [Text.find_piece, if_pos rfl]

theorem two_decomps {α : Type} (p q : α) :
    ∀ (A C B D : List α), A ++ p :: B = C ++ q :: D →
    (A = C ∧ p = q ∧ B = D) ∨
    (∃ M, C = A ++ p :: M ∧ B = M ++ q :: D) ∨
    (∃ M, A = C ++ q :: M ∧ D = M ++ p :: B) := by
  intro A
  induction A with
  | nil =>
    intro C B D h
    cases C with
    | nil =>
      rw [List.nil_append, List.nil_append] at h
      rw [List.cons.injEq] at h
      exact Or.inl ⟨rfl, h.1, h.2⟩
    | cons c C2 =>
      rw [List.nil_append, List.cons_append, List.cons.injEq] at h
      exact Or.inr (Or.inl ⟨C2, by rw [List.nil_append, h.1], h.2⟩)
  | cons a A2 ih =>
    intro C B D h
    cases C with
    | nil =>
      rw [List.nil_append, List.cons_append, List.cons.injEq] at h
      exact Or.inr (Or.inr ⟨A2, by rw [List.nil_append, h.1], h.2.symm⟩)
    | cons c C2 =>
      rw [List.cons_append, List.cons_append, List.cons.injEq] at h
      rcases ih C2 B D h.2 with h1 | h2 | h3
      · exact Or.inl ⟨by rw [h.1, h1.1], h1.2.1, h1.2.2⟩
      · rcases h2 with ⟨M, hM1, hM2⟩
        exact Or.inr (Or.inl ⟨M, by rw [← h.1, hM1, List.cons_append], hM2⟩)
      · rcases h3 with ⟨M, hM1, hM2⟩
        exact Or.inr (Or.inr ⟨M, by rw [h.1, hM1, List.cons_append], hM2⟩)

theorem get_take_of_span (b : AppendOnlyBuffer) (s : Span) (n : Nat)
    (h : n ≤ s.len) :
    b.get ⟨s.off1, s.off1 + n⟩ = (b.get s).take n := by
  have hn : s.off1 + n - s.off1 = n := by omega
  rw [AppendOnlyBuffer.get, AppendOnlyBuffer.get, List.take_take]
  show (b.buf.drop s.off1).take (s.off1 + n - s.off1) = _
  rw [hn, Nat.min_eq_left (by rw [Span.len] at h; omega)]

theorem get_drop_of_span (b : AppendOnlyBuffer) (s : Span) (n : Nat) :
    b.get ⟨s.off1 + n, s.off2⟩ = (b.get s).drop n := by
  rw [AppendOnlyBuffer.get, AppendOnlyBuffer.get, List.drop_take,
    List.drop_drop]
  have heq : s.off2 - (s.off1 + n) = s.off2 - s.off1 - n := by omega
  rw [heq]

theorem insert_none_case (t : Text) (ps A B : List Nat) (off : Nat)
    (bytes : List Nat) (h : WFc t ps) (hb : bytes.length ≠ 0)
    (hps : ps = A ++ B) (hoff : off = sumLens t A)
    (hfind : t.find_piece off = (off, B.headD SENTINEL)) :
    WFc (t.insert off bytes) (A ++ t.pieces.length :: B) ∧
    (t.insert off bytes).to_vec
      = t.to_vec.take off ++ bytes ++ t.to_vec.drop off ∧
    (t.insert off bytes).len = t.len + bytes.length := by
  have hl := h.links
  rw [hps] at hl
  have hsegA := seg_split_left t SENTINEL SENTINEL A B hl
  have hsegB := seg_split_right t SENTINEL SENTINEL A B hl
  have hprevv : (t.get_piece (B.headD SENTINEL)).prev = A.getLastD SENTINEL :=
    seg_headD_prev t _ _ B hsegB
  have hA_lt : ∀ q ∈ A, q < t.pieces.length := fun q hq =>
    h.mem_lt q (by rw [hps]; exact List.mem_append.mpr (Or.inl hq))
  have hB_lt : ∀ q ∈ B, q < t.pieces.length := fun q hq =>
    h.mem_lt q (by rw [hps]; exact List.mem_append.mpr (Or.inr hq))
  have hA_ne : ∀ q ∈ A, q ≠ SENTINEL := fun q hq =>
    h.mem_ne q (by rw [hps]; exact List.mem_append.mpr (Or.inl hq))
  have hB_ne : ∀ q ∈ B, q ≠ SENTINEL := fun q hq =>
    h.mem_ne q (by rw [hps]; exact List.mem_append.mpr (Or.inr hq))
  have hAB_nd : (A ++ B).Nodup := by rw [← hps]; exact h.nodup
  have hdisj : List.Disjoint A B := (List.nodup_append.mp hAB_nd).2.2
  have hvlt : A.getLastD SENTINEL < t.pieces.length := by
    rcases List.mem_cons.mp (getLastD_mem_cons A SENTINEL) with h0 | hA2
    · rw [h0]; exact h.arena_pos
    · exact hA_lt _ hA2
  have hplt : B.headD SENTINEL < t.pieces.length := by
    rcases List.mem_cons.mp (headD_mem_cons B SENTINEL) with h0 | hB2
    · rw [h0]; exact h.arena_pos
    · exact hB_lt _ hB2
  have hres : t.insert off bytes =
      { (({ t with buffer := ⟨t.buffer.buf ++ bytes⟩, pieces := t.pieces ++ [⟨⟨t.buffer.buf.length, (t.buffer.buf ++ bytes).length⟩, SENTINEL, SENTINEL⟩] } : Text).link t.pieces.length (B.headD SENTINEL)).link (t.get_piece (B.headD SENTINEL)).prev t.pieces.length with len := t.len + bytes.length } := by
    simp only [Text.insert, if_neg hb, hfind, Nat.sub_self, Span.split_zero]
    rfl
  rw [hres, hprevv]
  set nspan : Span :=
    ⟨t.buffer.buf.length, (t.buffer.buf ++ bytes).length⟩ with hnspan
  set t4 : Text := { t with buffer := ⟨t.buffer.buf ++ bytes⟩, pieces := t.pieces ++ [⟨nspan, SENTINEL, SENTINEL⟩] } with ht4
  have ht4len : t4.pieces.length = t.pieces.length + 1 := by
    rw [ht4]; simp
  have ht4get_old : ∀ q, q ≠ t.pieces.length →
      t4.get_piece q = t.get_piece q := by
    intro q hq
    rw [ht4]
    show (t.pieces ++ [PieceData.mk nspan SENTINEL SENTINEL]).getD q pdDefault
      = t.pieces.getD q pdDefault
    by_cases hlt : q < t.pieces.length
    · exact getD_append_left_pd _ _ _ _ hlt
    · rw [List.getD_eq_default _ _ (by simp only [List.length_append,
        List.length_cons, List.length_nil]; omega),
        List.getD_eq_default _ _ (by omega)]
  have ht4get_new : t4.get_piece t.pieces.length
      = ⟨nspan, SENTINEL, SENTINEL⟩ := by
    rw [ht4]
    show (t.pieces ++ [PieceData.mk nspan SENTINEL SENTINEL]).getD
      t.pieces.length pdDefault = _
    exact getD_append_self_pd _ _ _
  have ht4buf : t4.buffer = ⟨t.buffer.buf ++ bytes⟩ := by rw [ht4]
  set w : Text := (t4.link t.pieces.length (B.headD SENTINEL)).link
    (A.getLastD SENTINEL) t.pieces.length with hw
  set tF : Text := { w with len := t.len + bytes.length } with htF
  have hwlen : tF.pieces.length = t.pieces.length + 1 := by
    rw [htF]
    show w.pieces.length = _
    rw [hw, link_pieces_length, link_pieces_length, ht4len]
  have hbufF : tF.buffer = ⟨t.buffer.buf ++ bytes⟩ := by
    rw [htF]
    show w.buffer = _
    rw [hw, link_buffer, link_buffer, ht4buf]
  have hlenF : tF.len = t.len + bytes.length := by rw [htF]
  have hspanF : ∀ q, (tF.get_piece q).span =
      if q = t.pieces.length then nspan else (t.get_piece q).span := by
    intro q
    rw [htF]
    show (w.get_piece q).span = _
    rw [hw, get_piece_link_span, get_piece_link_span]
    by_cases h2 : q = t.pieces.length
    · rw [if_pos h2, h2, ht4get_new]
    · rw [if_neg h2, ht4get_old q h2]
  have hnextF : ∀ q, (tF.get_piece q).next =
      if q = A.getLastD SENTINEL then t.pieces.length
      else if q = t.pieces.length then B.headD SENTINEL
      else (t.get_piece q).next := by
    intro q
    rw [htF]
    show (w.get_piece q).next = _
    rw [hw,
      get_piece_link_next _ _ _ _ (by rw [link_pieces_length, ht4len]; omega),
      get_piece_link_next _ _ _ _ (by rw [ht4len]; omega)]
    by_cases h1 : q = A.getLastD SENTINEL
    · rw [if_pos h1, if_pos h1]
    · rw [if_neg h1, if_neg h1]
      by_cases h2 : q = t.pieces.length
      · rw [if_pos h2, if_pos h2]
      · rw [if_neg h2, if_neg h2, ht4get_old q h2]
  have hprevF : ∀ q, (tF.get_piece q).prev =
      if q = t.pieces.length then A.getLastD SENTINEL
      else if q = B.headD SENTINEL then t.pieces.length
      else (t.get_piece q).prev := by
    intro q
    rw [htF]
    show (w.get_piece q).prev = _
    rw [hw,
      get_piece_link_prev _ _ _ _ (by rw [link_pieces_length, ht4len]; omega),
      get_piece_link_prev _ _ _ _ (by rw [ht4len]; omega)]
    by_cases h1 : q = t.pieces.length
    · rw [if_pos h1, if_pos h1]
    · rw [if_neg h1, if_neg h1]
      by_cases h2 : q = B.headD SENTINEL
      · rw [if_pos h2, if_pos h2]
      · rw [if_neg h2, if_neg h2, ht4get_old q h1]
  have hwf : WFc tF (A ++ t.pieces.length :: B) := by
    refine ⟨?_, ?_, ?_, ?_, ?_, ?_, ?_, ?_, ?_⟩
    · rw [hwlen]; omega
    · refine (seg_append tF SENTINEL SENTINEL t.pieces.length A B).mpr ⟨?_, ?_⟩
      · rcases List.eq_nil_or_concat A with hAnil | ⟨A2, la, hAeq⟩
        · subst hAnil
          refine And.intro ?_ ?_
          · rw [hnextF SENTINEL]
            simp [List.getLastD]
          · rw [hprevF t.pieces.length]
            simp [List.getLastD]
        · rw [List.concat_eq_append] at hAeq
          subst hAeq
          have hla_mem : la ∈ A2 ++ [la] := by simp
          have hla_ne : la ≠ SENTINEL := hA_ne la hla_mem
          have hla_lt : la < t.pieces.length := hA_lt la hla_mem
          have hla_last : (A2 ++ [la]).getLastD SENTINEL = la :=
            List.getLastD_concat _ _ _
          have hla_nmem : la ∉ A2 := by
            have hndA : (A2 ++ [la]).Nodup := (List.nodup_append.mp hAB_nd).1
            rcases List.nodup_append.mp hndA with ⟨_, _, dA⟩
            intro hmem
            exact dA hmem (by simp)
          have hsegA2 := (seg_append t SENTINEL (B.headD SENTINEL) la A2 []).mp hsegA
          refine (seg_append tF SENTINEL t.pieces.length la A2 []).mpr
            ⟨?_, And.intro ?_ ?_⟩
          · refine seg_congr t tF A2 SENTINEL la ?_ ?_ hsegA2.1
            · intro x hx
              have hx_ne_la : x ≠ la := by
                rcases List.mem_cons.mp hx with rfl | hx2
                · exact fun hh => hla_ne hh.symm
                · intro hh; exact hla_nmem (hh ▸ hx2)
              have hx_ne_f0 : x ≠ t.pieces.length := by
                rcases List.mem_cons.mp hx with rfl | hx2
                · show SENTINEL ≠ _
                  have := h.arena_pos
                  simp only [SENTINEL]
                  omega
                · have := hA_lt x (List.mem_append.mpr (Or.inl hx2))
                  omega
              rw [hnextF x, hla_last, if_neg hx_ne_la, if_neg hx_ne_f0]
            · intro x hx
              have hxA : x ∈ A2 ++ [la] := by
                rcases List.mem_append.mp hx with hh | hh
                · exact List.mem_append.mpr (Or.inl hh)
                · have : x = la := by simpa using hh
                  rw [this]; exact hla_mem
              have hx_ne_f0 : x ≠ t.pieces.length := by
                have := hA_lt x hxA; omega
              have hx_ne_piece : x ≠ B.headD SENTINEL := by
                rcases List.mem_cons.mp (headD_mem_cons B SENTINEL) with hh | hh
                · rw [hh]; exact hA_ne x hxA
                · intro heq; exact hdisj hxA (heq ▸ hh)
              rw [hprevF x, if_neg hx_ne_f0, if_neg hx_ne_piece]
          · rw [hnextF la, hla_last, if_pos rfl]
          · rw [hprevF t.pieces.length, if_pos rfl, hla_last]
      · cases B with
        | nil =>
          refine And.intro ?_ ?_
          · rw [hnextF t.pieces.length, if_neg (by have := hvlt; omega),
              if_pos rfl]
            simp
          · rw [hprevF SENTINEL,
              if_neg (by have := h.arena_pos; simp only [SENTINEL]; omega),
              if_pos (by simp)]
        | cons x B2 =>
          have hx_mem : x ∈ x :: B2 := by simp
          have hx_lt : x < t.pieces.length := hB_lt x hx_mem
          have hx_ne : x ≠ SENTINEL := hB_ne x hx_mem
          have hhead : (x :: B2).headD SENTINEL = x := rfl
          refine And.intro ?_ (And.intro ?_ ?_)
          · rw [hnextF t.pieces.length, if_neg (by have := hvlt; omega),
              if_pos rfl, hhead]
          · rw [hprevF x, if_neg (by omega), hhead, if_pos rfl]
          · have hsegB2 : seg t x B2 SENTINEL := hsegB.2.2
            refine seg_congr t tF B2 x SENTINEL ?_ ?_ hsegB2
            · intro y hy
              have hyB : y ∈ x :: B2 := hy
              have hy_lt : y < t.pieces.length := hB_lt y hyB
              have hy_ne_last : y ≠ A.getLastD SENTINEL := by
                rcases List.mem_cons.mp (getLastD_mem_cons A SENTINEL) with hh | hh
                · rw [hh]; exact hB_ne y hyB
                · intro heq; exact hdisj (heq ▸ hh) hyB
              rw [hnextF y, if_neg hy_ne_last, if_neg (by omega)]
            · intro y hy
              have hy_ne_f0 : y ≠ t.pieces.length := by
                rcases List.mem_append.mp hy with hh | hh
                · have := hB_lt y (List.mem_cons_of_mem _ hh); omega
                · have hy0 : y = SENTINEL := by simpa using hh
                  rw [hy0]; have := h.arena_pos; simp only [SENTINEL]; omega
              have hy_ne_piece : y ≠ (x :: B2).headD SENTINEL := by
                rw [hhead]
                rcases List.mem_append.mp hy with hh | hh
                · intro heq
                  have hndB : (x :: B2).Nodup := (List.nodup_append.mp hAB_nd).2.1
                  exact (List.nodup_cons.mp hndB).1 (heq ▸ hh)
                · have hy0 : y = SENTINEL := by simpa using hh
                  rw [hy0]; exact fun heq => hx_ne heq.symm
              rw [hprevF y, if_neg hy_ne_f0, if_neg hy_ne_piece]
    · intro q hq
      rw [hwlen]
      rcases List.mem_append.mp hq with hh | hh
      · have := hA_lt q hh; omega
      · rcases List.mem_cons.mp hh with rfl | hh2
        · omega
        · have := hB_lt q hh2; omega
    · intro q hq
      rcases List.mem_append.mp hq with hh | hh
      · exact hA_ne q hh
      · rcases List.mem_cons.mp hh with rfl | hh2
        · have := h.arena_pos; simp only [SENTINEL]; omega
        · exact hB_ne q hh2
    · refine nodup_mid A B t.pieces.length hAB_nd ?_ ?_
      · intro q hq; have := hA_lt q hq; omega
      · intro q hq; have := hB_lt q hq; omega
    · rw [hwlen]
      have hlen2 : ps.length = A.length + B.length := by rw [hps]; simp
      have := h.card
      simp only [List.length_append, List.length_cons]
      omega
    · intro q hq
      have hok : spanOk tF.buffer ((tF.get_piece q).span) → True := fun _ => trivial
      rw [show spanOk tF.buffer ((tF.get_piece q).span)
        = spanOk tF.buffer ((tF.get_piece q).span) from rfl]
      rw [hspanF q]
      rcases List.mem_append.mp hq with hh | hh
      · rw [if_neg (by have := hA_lt q hh; omega)]
        rcases h.spans_ok q (by rw [hps]; exact List.mem_append.mpr (Or.inl hh))
          with ⟨h1, h2⟩
        refine ⟨h1, ?_⟩
        rw [hbufF]
        show _ ≤ (t.buffer.buf ++ bytes).length
        simp only [List.length_append]
        omega
      · rcases List.mem_cons.mp hh with rfl | hh2
        · rw [if_pos rfl, hnspan, hbufF]
          refine ⟨?_, ?_⟩
          · show t.buffer.buf.length ≤ (t.buffer.buf ++ bytes).length
            simp
          · show (t.buffer.buf ++ bytes).length ≤ (t.buffer.buf ++ bytes).length
            exact le_refl _
        · rw [if_neg (by have := hB_lt q hh2; omega)]
          rcases h.spans_ok q (by rw [hps]; exact List.mem_append.mpr (Or.inr hh2))
            with ⟨h1, h2⟩
          refine ⟨h1, ?_⟩
          rw [hbufF]
          show _ ≤ (t.buffer.buf ++ bytes).length
          simp only [List.length_append]
          omega
    · intro q hq
      rw [hspanF q]
      rcases List.mem_append.mp hq with hh | hh
      · rw [if_neg (by have := hA_lt q hh; omega)]
        exact h.spans_pos q (by rw [hps]; exact List.mem_append.mpr (Or.inl hh))
      · rcases List.mem_cons.mp hh with rfl | hh2
        · rw [if_pos rfl, hnspan]
          show 0 < (Span.mk t.buffer.buf.length (t.buffer.buf ++ bytes).length).len
          simp only [Span.len, List.length_append]
          omega
        · rw [if_neg (by have := hB_lt q hh2; omega)]
          exact h.spans_pos q (by rw [hps]; exact List.mem_append.mpr (Or.inr hh2))
    · rw [hlenF, sumLens_append]
      have e2 : sumLens tF (t.pieces.length :: B)
          = (tF.get_piece t.pieces.length).span.len + sumLens tF B := rfl
      rw [e2]
      have eA : sumLens tF A = sumLens t A :=
        sumLens_congr t tF A (fun p hp => by
          rw [hspanF p, if_neg (by have := hA_lt p hp; omega)])
      have eB : sumLens tF B = sumLens t B :=
        sumLens_congr t tF B (fun p hp => by
          rw [hspanF p, if_neg (by have := hB_lt p hp; omega)])
      have ef0 : (tF.get_piece t.pieces.length).span.len = bytes.length := by
        rw [hspanF, if_pos rfl, hnspan]
        simp only [Span.len, List.length_append]
        omega
      have hle : t.len = sumLens t A + sumLens t B := by
        rw [h.len_eq, hps, sumLens_append]
      rw [eA, eB, ef0]
      omega
  refine ⟨hwf, ?_, hlenF⟩
  rw [to_vec_eq tF _ hwf, to_vec_eq t ps h, hps]
  have hcA : A.map (contentOf tF) = A.map (contentOf t) :=
    List.map_congr_left (fun q hq => by
      rw [contentOf, contentOf, hspanF q,
        if_neg (by have := hA_lt q hq; omega), hbufF]
      exact get_append_of_spanOk t.buffer bytes _
        (h.spans_ok q (by rw [hps]; exact List.mem_append.mpr (Or.inl hq))))
  have hcB : B.map (contentOf tF) = B.map (contentOf t) :=
    List.map_congr_left (fun q hq => by
      rw [contentOf, contentOf, hspanF q,
        if_neg (by have := hB_lt q hq; omega), hbufF]
      exact get_append_of_spanOk t.buffer bytes _
        (h.spans_ok q (by rw [hps]; exact List.mem_append.mpr (Or.inr hq))))
  have hf0c : contentOf tF t.pieces.length = bytes := by
    rw [contentOf, hspanF _, if_pos rfl, hbufF, hnspan]
    exact append_get_self t.buffer bytes
  have hlenA : ((A.map (contentOf t)).flatten).length = sumLens t A :=
    flatten_map_content_length t A (fun q hq =>
      h.spans_ok q (by rw [hps]; exact List.mem_append.mpr (Or.inl hq)))
  rw [List.map_append, List.flatten_append, List.map_cons, List.flatten_cons,
    List.map_append, List.flatten_append, hcA, hcB, hf0c]
  rw [List.take_left' (by rw [hlenA, hoff]), List.drop_left' (by rw [hlenA, hoff]),
    List.append_assoc]

theorem take_append_add (l1 l2 : List Nat) (i : Nat) :
    (l1 ++ l2).take (l1.length + i) = l1 ++ l2.take i := by
  induction l1 with
  | nil => simp
  | cons x l1 ih =>
    have hn : (x :: l1).length + i = (l1.length + i) + 1 := by
      simp only [List.length_cons]; omega
    rw [hn, List.cons_append, List.take_succ_cons, ih, List.cons_append]

theorem drop_append_add (l1 l2 : List Nat) (i : Nat) :
    (l1 ++ l2).drop (l1.length + i) = l2.drop i := by
  induction l1 with
  | nil => simp
  | cons x l1 ih =>
    have hn : (x :: l1).length + i = (l1.length + i) + 1 := by
      simp only [List.length_cons]; omega
    rw [hn, List.cons_append, List.drop_succ_cons, ih]

theorem insert_split_case (t : Text) (ps A B : List Nat) (p off : Nat)
    (bytes : List Nat) (h : WFc t ps) (hb : bytes.length ≠ 0)
    (hps : ps = A ++ p :: B)
    (hfind : t.find_piece off = (sumLens t A, p))
    (hlt1 : sumLens t A < off)
    (hlt2 : off < sumLens t A + (t.get_piece p).span.len) :
    WFc (t.insert off bytes)
      (A ++ t.pieces.length :: (t.pieces.length + 1) ::
        (t.pieces.length + 2) :: B) ∧
    (t.insert off bytes).to_vec
      = t.to_vec.take off ++ bytes ++ t.to_vec.drop off ∧
    (t.insert off bytes).len = t.len + bytes.length := by
  have hl := h.links
  rw [hps] at hl
  have hsegAp := (seg_append t SENTINEL SENTINEL p A B).mp hl
  have hsegA : seg t SENTINEL A p := hsegAp.1
  have hsegB : seg t p B SENTINEL := hsegAp.2
  have hprevv : (t.get_piece p).prev = A.getLastD SENTINEL :=
    seg_last_prev t A SENTINEL p hsegA
  have hnextv : (t.get_piece p).next = B.headD SENTINEL :=
    seg_head_next t B p SENTINEL hsegB
  have hA_lt : ∀ q ∈ A, q < t.pieces.length := fun q hq =>
    h.mem_lt q (by rw [hps]; exact List.mem_append.mpr (Or.inl hq))
  have hB_lt : ∀ q ∈ B, q < t.pieces.length := fun q hq =>
    h.mem_lt q (by rw [hps]; exact List.mem_append.mpr (Or.inr (List.mem_cons_of_mem _ hq)))
  have hA_ne : ∀ q ∈ A, q ≠ SENTINEL := fun q hq =>
    h.mem_ne q (by rw [hps]; exact List.mem_append.mpr (Or.inl hq))
  have hB_ne : ∀ q ∈ B, q ≠ SENTINEL := fun q hq =>
    h.mem_ne q (by rw [hps]; exact List.mem_append.mpr (Or.inr (List.mem_cons_of_mem _ hq)))
  have hp_lt : p < t.pieces.length :=
    h.mem_lt p (by rw [hps]; exact List.mem_append.mpr (Or.inr (by simp)))
  have hnd : (A ++ p :: B).Nodup := by rw [← hps]; exact h.nodup
  have hndA : A.Nodup := (List.nodup_append.mp hnd).1
  have hndpB : (p :: B).Nodup := (List.nodup_append.mp hnd).2.1
  have hndB : B.Nodup := (List.nodup_cons.mp hndpB).2
  have hdisjApB : List.Disjoint A (p :: B) := (List.nodup_append.mp hnd).2.2
  have hdisj : List.Disjoint A B := fun a ha hb =>
    hdisjApB ha (List.mem_cons_of_mem _ hb)
  have hvlt : A.getLastD SENTINEL < t.pieces.length := by
    rcases List.mem_cons.mp (getLastD_mem_cons A SENTINEL) with h0 | hA2
    · rw [h0]; exact h.arena_pos
    · exact hA_lt _ hA2
  have hnlt : B.headD SENTINEL < t.pieces.length := by
    rcases List.mem_cons.mp (headD_mem_cons B SENTINEL) with h0 | hB2
    · rw [h0]; exact h.arena_pos
    · exact hB_lt _ hB2
  have hspok := h.spans_ok p (by rw [hps]; exact List.mem_append.mpr (Or.inr (by simp)))
  have hsplit : (t.get_piece p).span.split (off - sumLens t A)
      = some (⟨(t.get_piece p).span.off1,
          (t.get_piece p).span.off1 + (off - sumLens t A)⟩,
        ⟨(t.get_piece p).span.off1 + (off - sumLens t A),
          (t.get_piece p).span.off2⟩) :=
    Span.split_some _ _ (by omega) (by omega)
  have hres : t.insert off bytes =
      { (((({ t with buffer := ⟨t.buffer.buf ++ bytes⟩, pieces := ((t.pieces ++ [PieceData.mk ⟨(t.get_piece p).span.off1, (t.get_piece p).span.off1 + (off - sumLens t A)⟩ SENTINEL SENTINEL]) ++ [PieceData.mk ⟨t.buffer.buf.length, (t.buffer.buf ++ bytes).length⟩ SENTINEL SENTINEL]) ++ [PieceData.mk ⟨(t.get_piece p).span.off1 + (off - sumLens t A), (t.get_piece p).span.off2⟩ SENTINEL SENTINEL] } : Text).link (t.get_piece p).prev t.pieces.length).link t.pieces.length (t.pieces ++ [PieceData.mk ⟨(t.get_piece p).span.off1, (t.get_piece p).span.off1 + (off - sumLens t A)⟩ SENTINEL SENTINEL]).length).link (t.pieces ++ [PieceData.mk ⟨(t.get_piece p).span.off1, (t.get_piece p).span.off1 + (off - sumLens t A)⟩ SENTINEL SENTINEL]).length ((t.pieces ++ [PieceData.mk ⟨(t.get_piece p).span.off1, (t.get_piece p).span.off1 + (off - sumLens t A)⟩ SENTINEL SENTINEL]) ++ [PieceData.mk ⟨t.buffer.buf.length, (t.buffer.buf ++ bytes).length⟩ SENTINEL SENTINEL]).length).link ((t.pieces ++ [PieceData.mk ⟨(t.get_piece p).span.off1, (t.get_piece p).span.off1 + (off - sumLens t A)⟩ SENTINEL SENTINEL]) ++ [PieceData.mk ⟨t.buffer.buf.length, (t.buffer.buf ++ bytes).length⟩ SENTINEL SENTINEL]).length (t.get_piece p).next with len := t.len + bytes.length } := by
    simp only [Text.insert, if_neg hb, hfind, hsplit]
    rfl
  have hf1e : (t.pieces ++ [PieceData.mk ⟨(t.get_piece p).span.off1, (t.get_piece p).span.off1 + (off - sumLens t A)⟩ SENTINEL SENTINEL]).length = t.pieces.length + 1 := by simp
  have hf2e : ((t.pieces ++ [PieceData.mk ⟨(t.get_piece p).span.off1, (t.get_piece p).span.off1 + (off - sumLens t A)⟩ SENTINEL SENTINEL]) ++ [PieceData.mk ⟨t.buffer.buf.length, (t.buffer.buf ++ bytes).length⟩ SENTINEL SENTINEL]).length = t.pieces.length + 2 := by simp
  rw [hres, hf1e, hf2e, hprevv, hnextv]
  set ls : Span := ⟨(t.get_piece p).span.off1,
    (t.get_piece p).span.off1 + (off - sumLens t A)⟩ with hls
  set nspan : Span :=
    ⟨t.buffer.buf.length, (t.buffer.buf ++ bytes).length⟩ with hnspan
  set rs : Span := ⟨(t.get_piece p).span.off1 + (off - sumLens t A),
    (t.get_piece p).span.off2⟩ with hrs
  set t4 : Text := { t with buffer := ⟨t.buffer.buf ++ bytes⟩, pieces := ((t.pieces ++ [PieceData.mk ls SENTINEL SENTINEL]) ++ [PieceData.mk nspan SENTINEL SENTINEL]) ++ [PieceData.mk rs SENTINEL SENTINEL] } with ht4
  have ht4len : t4.pieces.length = t.pieces.length + 3 := by
    rw [ht4]
    show (((t.pieces ++ _) ++ _) ++ _).length = _
    simp only [List.length_append, List.length_cons, List.length_nil]
  have ht4get_old : ∀ q, q < t.pieces.length ∨ t.pieces.length + 3 ≤ q →
      t4.get_piece q = t.get_piece q := by
    intro q hq
    rw [ht4]
    show ((((t.pieces ++ [PieceData.mk ls SENTINEL SENTINEL]) ++ [PieceData.mk nspan SENTINEL SENTINEL]) ++ [PieceData.mk rs SENTINEL SENTINEL])).getD q pdDefault = t.pieces.getD q pdDefault
    rcases hq with hq | hq
    · rw [getD_append_left_pd _ _ _ _ (by simp only [List.length_append,
        List.length_cons, List.length_nil]; omega),
        getD_append_left_pd _ _ _ _ (by simp only [List.length_append,
        List.length_cons, List.length_nil]; omega),
        getD_append_left_pd _ _ _ _ hq]
    · rw [List.getD_eq_default _ _ (by simp only [List.length_append,
        List.length_cons, List.length_nil]; omega),
        List.getD_eq_default _ _ (by omega)]
  have ht4get_f0 : t4.get_piece t.pieces.length
      = PieceData.mk ls SENTINEL SENTINEL := by
    rw [ht4]
    show ((((t.pieces ++ [PieceData.mk ls SENTINEL SENTINEL]) ++ [PieceData.mk nspan SENTINEL SENTINEL]) ++ [PieceData.mk rs SENTINEL SENTINEL])).getD t.pieces.length pdDefault = _
    rw [getD_append_left_pd _ _ _ _ (by simp only [List.length_append,
        List.length_cons, List.length_nil]; omega),
      getD_append_left_pd _ _ _ _ (by simp only [List.length_append,
        List.length_cons, List.length_nil]; omega)]
    exact getD_append_self_pd _ _ _
  have ht4get_f1 : t4.get_piece (t.pieces.length + 1)
      = PieceData.mk nspan SENTINEL SENTINEL := by
    rw [ht4]
    show ((((t.pieces ++ [PieceData.mk ls SENTINEL SENTINEL]) ++ [PieceData.mk nspan SENTINEL SENTINEL]) ++ [PieceData.mk rs SENTINEL SENTINEL])).getD (t.pieces.length + 1) pdDefault = _
    rw [getD_append_left_pd _ _ _ _ (by simp only [List.length_append,
        List.length_cons, List.length_nil]; omega)]
    rw [show t.pieces.length + 1
      = (t.pieces ++ [PieceData.mk ls SENTINEL SENTINEL]).length from by simp]
    exact getD_append_self_pd _ _ _
  have ht4get_f2 : t4.get_piece (t.pieces.length + 2)
      = PieceData.mk rs SENTINEL SENTINEL := by
    rw [ht4]
    show ((((t.pieces ++ [PieceData.mk ls SENTINEL SENTINEL]) ++ [PieceData.mk nspan SENTINEL SENTINEL]) ++ [PieceData.mk rs SENTINEL SENTINEL])).getD (t.pieces.length + 2) pdDefault = _
    rw [show t.pieces.length + 2
      = ((t.pieces ++ [PieceData.mk ls SENTINEL SENTINEL]) ++ [PieceData.mk nspan SENTINEL SENTINEL]).length from by simp]
    exact getD_append_self_pd _ _ _
  have ht4buf : t4.buffer = ⟨t.buffer.buf ++ bytes⟩ := by rw [ht4]
  set w : Text := (((t4.link (A.getLastD SENTINEL) t.pieces.length).link
    t.pieces.length (t.pieces.length + 1)).link (t.pieces.length + 1)
    (t.pieces.length + 2)).link (t.pieces.length + 2) (B.headD SENTINEL) with hw
  set tF : Text := { w with len := t.len + bytes.length } with htF
  have hwlen : tF.pieces.length = t.pieces.length + 3 := by
    rw [htF]
    show w.pieces.length = _
    rw [hw, link_pieces_length, link_pieces_length, link_pieces_length,
      link_pieces_length, ht4len]
  have hbufF : tF.buffer = ⟨t.buffer.buf ++ bytes⟩ := by
    rw [htF]
    show w.buffer = _
    rw [hw, link_buffer, link_buffer, link_buffer, link_buffer, ht4buf]
  have hlenF : tF.len = t.len + bytes.length := by rw [htF]
  have hspanF : ∀ q, (tF.get_piece q).span =
      if q = t.pieces.length then ls
      else if q = t.pieces.length + 1 then nspan
      else if q = t.pieces.length + 2 then rs
      else (t.get_piece q).span := by
    intro q
    rw [htF]
    show (w.get_piece q).span = _
    rw [hw, get_piece_link_span, get_piece_link_span, get_piece_link_span,
      get_piece_link_span]
    by_cases h0 : q = t.pieces.length
    · rw [if_pos h0, h0, ht4get_f0]
    · rw [if_neg h0]
      by_cases h1 : q = t.pieces.length + 1
      · rw [if_pos h1, h1, ht4get_f1]
      · rw [if_neg h1]
        by_cases h2 : q = t.pieces.length + 2
        · rw [if_pos h2, h2, ht4get_f2]
        · rw [if_neg h2]
          by_cases h3 : q < t.pieces.length
          · rw [ht4get_old q (Or.inl h3)]
          · rw [ht4get_old q (Or.inr (by omega))]
  have hnextF : ∀ q, (tF.get_piece q).next =
      if q = t.pieces.length + 2 then B.headD SENTINEL
      else if q = t.pieces.length + 1 then t.pieces.length + 2
      else if q = t.pieces.length then t.pieces.length + 1
      else if q = A.getLastD SENTINEL then t.pieces.length
      else (t.get_piece q).next := by
    intro q
    rw [htF]
    show (w.get_piece q).next = _
    rw [hw,
      get_piece_link_next _ _ _ _ (by rw [link_pieces_length, link_pieces_length, link_pieces_length, ht4len]; omega),
      get_piece_link_next _ _ _ _ (by rw [link_pieces_length, link_pieces_length, ht4len]; omega),
      get_piece_link_next _ _ _ _ (by rw [link_pieces_length, ht4len]; omega),
      get_piece_link_next _ _ _ _ (by rw [ht4len]; omega)]
    by_cases h2 : q = t.pieces.length + 2
    · rw [if_pos h2, if_pos h2]
    · rw [if_neg h2, if_neg h2]
      by_cases h1 : q = t.pieces.length + 1
      · rw [if_pos h1, if_pos h1]
      · rw [if_neg h1, if_neg h1]
        by_cases h0 : q = t.pieces.length
        · rw [if_pos h0, if_pos h0]
        · rw [if_neg h0, if_neg h0]
          by_cases hv : q = A.getLastD SENTINEL
          · rw [if_pos hv, if_pos hv]
          · rw [if_neg hv, if_neg hv]
            by_cases h3 : q < t.pieces.length
            · rw [ht4get_old q (Or.inl h3)]
            · rw [ht4get_old q (Or.inr (by omega))]
  have hprevF : ∀ q, (tF.get_piece q).prev =
      if q = B.headD SENTINEL then t.pieces.length + 2
      else if q = t.pieces.length + 2 then t.pieces.length + 1
      else if q = t.pieces.length + 1 then t.pieces.length
      else if q = t.pieces.length then A.getLastD SENTINEL
      else (t.get_piece q).prev := by
    intro q
    rw [htF]
    show (w.get_piece q).prev = _
    rw [hw,
      get_piece_link_prev _ _ _ _ (by rw [link_pieces_length, link_pieces_length, link_pieces_length, ht4len]; omega),
      get_piece_link_prev _ _ _ _ (by rw [link_pieces_length, link_pieces_length, ht4len]; omega),
      get_piece_link_prev _ _ _ _ (by rw [link_pieces_length, ht4len]; omega),
      get_piece_link_prev _ _ _ _ (by rw [ht4len]; omega)]
    by_cases hv : q = B.headD SENTINEL
    · rw [if_pos hv, if_pos hv]
    · rw [if_neg hv, if_neg hv]
      by_cases h2 : q = t.pieces.length + 2
      · rw [if_pos h2, if_pos h2]
      · rw [if_neg h2, if_neg h2]
        by_cases h1 : q = t.pieces.length + 1
        · rw [if_pos h1, if_pos h1]
        · rw [if_neg h1, if_neg h1]
          by_cases h0 : q = t.pieces.length
          · rw [if_pos h0, if_pos h0]
          · rw [if_neg h0, if_neg h0]
            by_cases h3 : q < t.pieces.length
            · rw [ht4get_old q (Or.inl h3)]
            · rw [ht4get_old q (Or.inr (by omega))]
  have hwf : WFc tF (A ++ t.pieces.length :: (t.pieces.length + 1) ::
      (t.pieces.length + 2) :: B) := by
    refine ⟨?_, ?_, ?_, ?_, ?_, ?_, ?_, ?_, ?_⟩
    · rw [hwlen]; omega
    · refine (seg_append tF SENTINEL SENTINEL t.pieces.length A
        ((t.pieces.length + 1) :: (t.pieces.length + 2) :: B)).mpr ⟨?_, ?_⟩
      · rcases List.eq_nil_or_concat A with hAnil | ⟨A2, la, hAeq⟩
        · subst hAnil
          refine And.intro ?_ ?_
          · rw [hnextF SENTINEL]
            have hz := h.arena_pos
            rw [if_neg (by simp only [SENTINEL]; omega),
              if_neg (by simp only [SENTINEL]; omega),
              if_neg (by simp only [SENTINEL]; omega),
              if_pos (by simp [List.getLastD])]
          · rw [hprevF t.pieces.length]
            have hz := h.arena_pos
            rw [if_neg (by have := hnlt; omega),
              if_neg (by omega), if_neg (by omega), if_pos rfl]
            simp [List.getLastD]
        · rw [List.concat_eq_append] at hAeq
          subst hAeq
          have hla_mem : la ∈ A2 ++ [la] := by simp
          have hla_ne : la ≠ SENTINEL := hA_ne la hla_mem
          have hla_lt : la < t.pieces.length := hA_lt la hla_mem
          have hla_last : (A2 ++ [la]).getLastD SENTINEL = la :=
            List.getLastD_concat _ _ _
          have hla_nmem : la ∉ A2 := by
            rcases List.nodup_append.mp hndA with ⟨_, _, dA⟩
            intro hmem
            exact dA hmem (by simp)
          have hsegA2 := (seg_append t SENTINEL p la A2 []).mp hsegA
          refine (seg_append tF SENTINEL t.pieces.length la A2 []).mpr
            ⟨?_, And.intro ?_ ?_⟩
          · refine seg_congr t tF A2 SENTINEL la ?_ ?_ hsegA2.1
            · intro x hx
              have hx_ne_la : x ≠ la := by
                rcases List.mem_cons.mp hx with rfl | hx2
                · exact fun hh => hla_ne hh.symm
                · intro hh; exact hla_nmem (hh ▸ hx2)
              have hx_lt : x < t.pieces.length := by
                rcases List.mem_cons.mp hx with rfl | hx2
                · show SENTINEL < _
                  have := h.arena_pos
                  simp only [SENTINEL]
                  omega
                · exact hA_lt x (List.mem_append.mpr (Or.inl hx2))
              rw [hnextF x, hla_last, if_neg (by omega), if_neg (by omega),
                if_neg (by omega), if_neg hx_ne_la]
            · intro x hx
              have hxA : x ∈ A2 ++ [la] := by
                rcases List.mem_append.mp hx with hh | hh
                · exact List.mem_append.mpr (Or.inl hh)
                · have hxla : x = la := by simpa using hh
                  rw [hxla]; exact hla_mem
              have hx_lt : x < t.pieces.length := hA_lt x hxA
              have hx_ne_nv : x ≠ B.headD SENTINEL := by
                rcases List.mem_cons.mp (headD_mem_cons B SENTINEL) with hh | hh
                · rw [hh]; exact hA_ne x hxA
                · intro heq; exact hdisj hxA (heq ▸ hh)
              rw [hprevF x, if_neg hx_ne_nv, if_neg (by omega),
                if_neg (by omega), if_neg (by omega)]
          · rw [hnextF la, hla_last, if_neg (by omega), if_neg (by omega),
              if_neg (by omega), if_pos rfl]
          · rw [hprevF t.pieces.length, hla_last,
              if_neg (by have := hnlt; omega), if_neg (by omega),
              if_neg (by omega), if_pos rfl]
      · refine And.intro ?_ (And.intro ?_ (And.intro ?_ (And.intro ?_ ?_)))
        · rw [hnextF t.pieces.length, if_neg (by omega), if_neg (by omega),
            if_pos rfl]
        · rw [hprevF (t.pieces.length + 1),
            if_neg (by have := hnlt; omega), if_neg (by omega), if_pos rfl]
        · rw [hnextF (t.pieces.length + 1), if_neg (by omega), if_pos rfl]
        · rw [hprevF (t.pieces.length + 2),
            if_neg (by have := hnlt; omega), if_pos rfl]
        · cases B with
          | nil =>
            refine And.intro ?_ ?_
            · rw [hnextF (t.pieces.length + 2), if_pos rfl]
              simp
            · rw [hprevF SENTINEL]
              have hz := h.arena_pos
              rw [if_pos (by simp)]
          | cons x B2 =>
            have hx_mem : x ∈ x :: B2 := by simp
            have hx_lt : x < t.pieces.length := hB_lt x hx_mem
            have hx_ne : x ≠ SENTINEL := hB_ne x hx_mem
            have hhead : (x :: B2).headD SENTINEL = x := rfl
            refine And.intro ?_ (And.intro ?_ ?_)
            · rw [hnextF (t.pieces.length + 2), if_pos rfl, hhead]
            · rw [hprevF x, hhead, if_pos rfl]
            · have hsegB2 : seg t x B2 SENTINEL := hsegB.2.2
              refine seg_congr t tF B2 x SENTINEL ?_ ?_ hsegB2
              · intro y hy
                have hyB : y ∈ x :: B2 := hy
                have hy_lt : y < t.pieces.length := hB_lt y hyB
                have hy_ne_last : y ≠ A.getLastD SENTINEL := by
                  rcases List.mem_cons.mp (getLastD_mem_cons A SENTINEL)
                    with hh | hh
                  · rw [hh]; exact hB_ne y hyB
                  · intro heq; exact hdisj (heq ▸ hh) hyB
                rw [hnextF y, if_neg (by omega), if_neg (by omega),
                  if_neg (by omega), if_neg hy_ne_last]
              · intro y hy
                have hy_lt : y < t.pieces.length := by
                  rcases List.mem_append.mp hy with hh | hh
                  · exact hB_lt y (List.mem_cons_of_mem _ hh)
                  · have hy0 : y = SENTINEL := by simpa using hh
                    rw [hy0]
                    show SENTINEL < _
                    have := h.arena_pos
                    simp only [SENTINEL]
                    omega
                have hy_ne_x : y ≠ (x :: B2).headD SENTINEL := by
                  rw [hhead]
                  rcases List.mem_append.mp hy with hh | hh
                  · intro heq
                    exact (List.nodup_cons.mp hndB).1 (heq ▸ hh)
                  · have hy0 : y = SENTINEL := by simpa using hh
                    rw [hy0]; exact fun heq => hx_ne heq.symm
                rw [hprevF y, if_neg hy_ne_x, if_neg (by omega),
                  if_neg (by omega), if_neg (by omega)]
    · intro q hq
      rw [hwlen]
      rcases List.mem_append.mp hq with hh | hh
      · have := hA_lt q hh; omega
      · rcases List.mem_cons.mp hh with rfl | hh2
        · omega
        · rcases List.mem_cons.mp hh2 with rfl | hh3
          · omega
          · rcases List.mem_cons.mp hh3 with rfl | hh4
            · omega
            · have := hB_lt q hh4; omega
    · intro q hq
      have hz := h.arena_pos
      rcases List.mem_append.mp hq with hh | hh
      · exact hA_ne q hh
      · rcases List.mem_cons.mp hh with rfl | hh2
        · simp only [SENTINEL]; omega
        · rcases List.mem_cons.mp hh2 with rfl | hh3
          · simp only [SENTINEL]; omega
          · rcases List.mem_cons.mp hh3 with rfl | hh4
            · simp only [SENTINEL]; omega
            · exact hB_ne q hh4
    · have hABnd : (A ++ B).Nodup := by
        rcases List.nodup_append.mp hnd with ⟨n1, n2, d⟩
        exact List.nodup_append.mpr ⟨n1, hndB, hdisj⟩
      refine List.nodup_append.mpr ⟨hndA, ?_, ?_⟩
      · refine List.nodup_cons.mpr ⟨?_, ?_⟩
        · intro hmem
          rcases List.mem_cons.mp hmem with hh | hh
          · omega
          · rcases List.mem_cons.mp hh with hh2 | hh2
            · omega
            · have := hB_lt _ hh2; omega
        · refine List.nodup_cons.mpr ⟨?_, ?_⟩
          · intro hmem
            rcases List.mem_cons.mp hmem with hh | hh
            · omega
            · have := hB_lt _ hh; omega
          · refine List.nodup_cons.mpr ⟨?_, hndB⟩
            intro hmem
            have := hB_lt _ hmem; omega
      · intro a haA haB
        have halt := hA_lt a haA
        rcases List.mem_cons.mp haB with rfl | hh
        · omega
        · rcases List.mem_cons.mp hh with rfl | hh2
          · omega
          · rcases List.mem_cons.mp hh2 with rfl | hh3
            · omega
            · exact hdisj haA hh3
    · rw [hwlen]
      have hlen2 : ps.length = A.length + 1 + B.length := by
        rw [hps]; simp only [List.length_append, List.length_cons]; omega
      have := h.card
      simp only [List.length_append, List.length_cons]
      omega
    · intro q hq
      rw [hspanF q, hbufF]
      rcases List.mem_append.mp hq with hh | hh
      · have hqlt := hA_lt q hh
        rw [if_neg (by omega), if_neg (by omega), if_neg (by omega)]
        rcases h.spans_ok q (by rw [hps]; exact List.mem_append.mpr (Or.inl hh))
          with ⟨h1, h2⟩
        refine ⟨h1, ?_⟩
        show _ ≤ (t.buffer.buf ++ bytes).length
        simp only [List.length_append]
        omega
      · rcases List.mem_cons.mp hh with rfl | hh2
        · rw [if_pos rfl, hls]
          rcases hspok with ⟨hs1, hs2⟩
          refine ⟨?_, ?_⟩
          · show (t.get_piece p).span.off1
              ≤ (t.get_piece p).span.off1 + (off - sumLens t A)
            omega
          show (t.get_piece p).span.off1 + (off - sumLens t A)
            ≤ (t.buffer.buf ++ bytes).length
          simp only [List.length_append]
          have : (t.get_piece p).span.len
            = (t.get_piece p).span.off2 - (t.get_piece p).span.off1 := rfl
          omega
        · rcases List.mem_cons.mp hh2 with rfl | hh3
          · rw [if_neg (by omega), if_pos rfl, hnspan]
            refine ⟨?_, ?_⟩
            · show t.buffer.buf.length ≤ (t.buffer.buf ++ bytes).length
              simp
            · show (t.buffer.buf ++ bytes).length
                ≤ (t.buffer.buf ++ bytes).length
              exact le_refl _
          · rcases List.mem_cons.mp hh3 with rfl | hh4
            · rw [if_neg (by omega), if_neg (by omega), if_pos rfl, hrs]
              rcases hspok with ⟨hs1, hs2⟩
              have hLd2 : (t.get_piece p).span.len
                = (t.get_piece p).span.off2 - (t.get_piece p).span.off1 := rfl
              refine ⟨?_, ?_⟩
              · show (t.get_piece p).span.off1 + (off - sumLens t A)
                  ≤ (t.get_piece p).span.off2
                omega
              show (t.get_piece p).span.off2 ≤ (t.buffer.buf ++ bytes).length
              simp only [List.length_append]
              omega
            · have hqlt := hB_lt q hh4
              rw [if_neg (by omega), if_neg (by omega), if_neg (by omega)]
              rcases h.spans_ok q (by rw [hps]; exact List.mem_append.mpr (Or.inr (List.mem_cons_of_mem _ hh4)))
                with ⟨h1, h2⟩
              refine ⟨h1, ?_⟩
              show _ ≤ (t.buffer.buf ++ bytes).length
              simp only [List.length_append]
              omega
    · intro q hq
      rw [hspanF q]
      have hLdef : (t.get_piece p).span.len
        = (t.get_piece p).span.off2 - (t.get_piece p).span.off1 := rfl
      rcases hspok with ⟨hs1, hs2⟩
      rcases List.mem_append.mp hq with hh | hh
      · have hqlt := hA_lt q hh
        rw [if_neg (by omega), if_neg (by omega), if_neg (by omega)]
        exact h.spans_pos q (by rw [hps]; exact List.mem_append.mpr (Or.inl hh))
      · rcases List.mem_cons.mp hh with rfl | hh2
        · rw [if_pos rfl, hls]
          show 0 < Span.len ⟨(t.get_piece p).span.off1,
            (t.get_piece p).span.off1 + (off - sumLens t A)⟩
          simp only [Span.len]
          omega
        · rcases List.mem_cons.mp hh2 with rfl | hh3
          · rw [if_neg (by omega), if_pos rfl, hnspan]
            show 0 < Span.len ⟨t.buffer.buf.length,
              (t.buffer.buf ++ bytes).length⟩
            simp only [Span.len, List.length_append]
            omega
          · rcases List.mem_cons.mp hh3 with rfl | hh4
            · rw [if_neg (by omega), if_neg (by omega), if_pos rfl, hrs]
              show 0 < Span.len ⟨(t.get_piece p).span.off1 + (off - sumLens t A),
                (t.get_piece p).span.off2⟩
              simp only [Span.len]
              omega
            · have hqlt := hB_lt q hh4
              rw [if_neg (by omega), if_neg (by omega), if_neg (by omega)]
              exact h.spans_pos q (by rw [hps]; exact List.mem_append.mpr (Or.inr (List.mem_cons_of_mem _ hh4)))
    · rw [hlenF, sumLens_append]
      have e2 : sumLens tF (t.pieces.length :: (t.pieces.length + 1) ::
          (t.pieces.length + 2) :: B)
          = (tF.get_piece t.pieces.length).span.len
            + ((tF.get_piece (t.pieces.length + 1)).span.len
            + ((tF.get_piece (t.pieces.length + 2)).span.len
            + sumLens tF B)) := rfl
      rw [e2]
      have eA : sumLens tF A = sumLens t A :=
        sumLens_congr t tF A (fun q hq => by
          have := hA_lt q hq
          rw [hspanF q, if_neg (by omega), if_neg (by omega),
            if_neg (by omega)])
      have eB : sumLens tF B = sumLens t B :=
        sumLens_congr t tF B (fun q hq => by
          have := hB_lt q hq
          rw [hspanF q, if_neg (by omega), if_neg (by omega),
            if_neg (by omega)])
      have ef0 : (tF.get_piece t.pieces.length).span.len
          = off - sumLens t A := by
        rw [hspanF, if_pos rfl, hls]
        simp only [Span.len]
        omega
      have ef1 : (tF.get_piece (t.pieces.length + 1)).span.len
          = bytes.length := by
        rw [hspanF, if_neg (by omega), if_pos rfl, hnspan]
        simp only [Span.len, List.length_append]
        omega
      have ef2 : (tF.get_piece (t.pieces.length + 2)).span.len
          = (t.get_piece p).span.len - (off - sumLens t A) := by
        rw [hspanF, if_neg (by omega), if_neg (by omega), if_pos rfl, hrs]
        simp only [Span.len]
        have hLdef : (t.get_piece p).span.len
          = (t.get_piece p).span.off2 - (t.get_piece p).span.off1 := rfl
        omega
      have hle : t.len = sumLens t A + ((t.get_piece p).span.len
          + sumLens t B) := by
        rw [h.len_eq, hps, sumLens_append]
        rfl
      rw [eA, eB, ef0, ef1, ef2]
      omega
  refine ⟨hwf, ?_, hlenF⟩
  rw [to_vec_eq tF _ hwf, to_vec_eq t ps h, hps]
  have hcA : A.map (contentOf tF) = A.map (contentOf t) :=
    List.map_congr_left (fun q hq => by
      have := hA_lt q hq
      rw [contentOf, contentOf, hspanF q, if_neg (by omega),
        if_neg (by omega), if_neg (by omega), hbufF]
      exact get_append_of_spanOk t.buffer bytes _
        (h.spans_ok q (by rw [hps]; exact List.mem_append.mpr (Or.inl hq))))
  have hcB : B.map (contentOf tF) = B.map (contentOf t) :=
    List.map_congr_left (fun q hq => by
      have := hB_lt q hq
      rw [contentOf, contentOf, hspanF q, if_neg (by omega),
        if_neg (by omega), if_neg (by omega), hbufF]
      exact get_append_of_spanOk t.buffer bytes _
        (h.spans_ok q (by rw [hps]; exact List.mem_append.mpr (Or.inr (List.mem_cons_of_mem _ hq)))))
  have hLdef : (t.get_piece p).span.len
    = (t.get_piece p).span.off2 - (t.get_piece p).span.off1 := rfl
  rcases hspok with ⟨hs1, hs2⟩
  have hcf0 : contentOf tF t.pieces.length
      = (contentOf t p).take (off - sumLens t A) := by
    rw [contentOf, hspanF _, if_pos rfl, hbufF, hls, contentOf]
    have hg : (AppendOnlyBuffer.mk (t.buffer.buf ++ bytes)).get
        (Span.mk (t.get_piece p).span.off1
          ((t.get_piece p).span.off1 + (off - sumLens t A)))
        = t.buffer.get (Span.mk (t.get_piece p).span.off1
          ((t.get_piece p).span.off1 + (off - sumLens t A))) :=
      get_append_of_spanOk t.buffer bytes _ (by
        refine ⟨?_, ?_⟩
        · show (t.get_piece p).span.off1
            ≤ (t.get_piece p).span.off1 + (off - sumLens t A)
          omega
        · show (t.get_piece p).span.off1 + (off - sumLens t A)
            ≤ t.buffer.buf.length
          omega)
    rw [hg]
    exact get_take_of_span t.buffer (t.get_piece p).span _ (by omega)
  have hcf1 : contentOf tF (t.pieces.length + 1) = bytes := by
    rw [contentOf, hspanF _, if_neg (by omega), if_pos rfl, hbufF, hnspan]
    exact append_get_self t.buffer bytes
  have hcf2 : contentOf tF (t.pieces.length + 2)
      = (contentOf t p).drop (off - sumLens t A) := by
    rw [contentOf, hspanF _, if_neg (by omega), if_neg (by omega),
      if_pos rfl, hbufF, hrs, contentOf]
    have hg : (AppendOnlyBuffer.mk (t.buffer.buf ++ bytes)).get
        (Span.mk ((t.get_piece p).span.off1 + (off - sumLens t A))
          (t.get_piece p).span.off2)
        = t.buffer.get (Span.mk ((t.get_piece p).span.off1 + (off - sumLens t A))
          (t.get_piece p).span.off2) :=
      get_append_of_spanOk t.buffer bytes _ (by
        refine ⟨?_, ?_⟩
        · show (t.get_piece p).span.off1 + (off - sumLens t A)
            ≤ (t.get_piece p).span.off2
          omega
        · show (t.get_piece p).span.off2 ≤ t.buffer.buf.length
          omega)
    rw [hg]
    exact get_drop_of_span t.buffer (t.get_piece p).span _
  have hlenA : ((A.map (contentOf t)).flatten).length = sumLens t A :=
    flatten_map_content_length t A (fun q hq =>
      h.spans_ok q (by rw [hps]; exact List.mem_append.mpr (Or.inl hq)))
  have hlenCp : (contentOf t p).length = (t.get_piece p).span.len := by
    rw [contentOf]
    exact get_length_of_spanOk t.buffer _ ⟨hs1, hs2⟩
  rw [List.map_append, List.flatten_append, List.map_cons, List.flatten_cons,
    List.map_cons, List.flatten_cons, List.map_cons, List.flatten_cons,
    List.map_append, List.flatten_append, List.map_cons, List.flatten_cons,
    hcA, hcB, hcf0, hcf1, hcf2]
  have hoffsplit : off = (A.map (contentOf t)).flatten.length
      + (off - sumLens t A) := by
    rw [hlenA]; omega
  conv_rhs => rw [hoffsplit]
  rw [take_append_add, drop_append_add,
    List.take_append_of_le_length (by rw [hlenCp]; omega),
    List.drop_append_of_le_length (by rw [hlenCp]; omega)]
  simp only [List.append_assoc]

theorem WF_new : WFc Text.new [] := by
  refine ⟨?_, ?_, ?_, ?_, ?_, ?_, ?_, ?_, ?_⟩
  · show 0 < 1; omega
  · exact ⟨rfl, rfl⟩
  · intro p hp; simp at hp
  · intro p hp; simp at hp
  · exact List.nodup_nil
  · show 0 < 1; omega
  · intro p hp; simp at hp
  · intro p hp; simp at hp
  · rfl

theorem insert_sim (t : Text) (ps : List Nat) (h : WFc t ps) (off : Nat)
    (bytes : List Nat) (hoff : off ≤ t.len) :
    ∃ ps2, WFc (t.insert off bytes) ps2 ∧
      (t.insert off bytes).to_vec
        = t.to_vec.take off ++ bytes ++ t.to_vec.drop off ∧
      (t.insert off bytes).len = t.len + bytes.length := by
  by_cases hb : bytes.length = 0
  · have hbe : bytes = [] := List.length_eq_zero.mp hb
    have hres : t.insert off bytes = t := by
      simp only [Text.insert, if_pos hb]
    rw [hres, hbe]
    refine ⟨ps, h, ?_, by simp⟩
    simp [List.take_append_drop]
  · by_cases hoff2 : off = t.len
    · have hfind : t.find_piece off = (off, ([] : List Nat).headD SENTINEL) := by
        rw [hoff2, find_piece_at_len]
        rfl
      have hoffA : off = sumLens t ps := by rw [hoff2, h.len_eq]
      have hmain := insert_none_case t ps ps [] off bytes h hb (by simp)
        hoffA hfind
      exact ⟨ps ++ [t.pieces.length], hmain.1, hmain.2.1, hmain.2.2⟩
    · have hlt : off < t.len := by omega
      obtain ⟨A, p, B, hps, hfind, hge, hlt2⟩ := find_piece_spec t ps h off hlt
      by_cases hstart : off = sumLens t A
      · have hfind2 : t.find_piece off = (off, (p :: B).headD SENTINEL) := by
          rw [hfind, hstart]
          rfl
        have hmain := insert_none_case t ps A (p :: B) off bytes h hb hps
          hstart hfind2
        exact ⟨A ++ t.pieces.length :: p :: B, hmain.1, hmain.2.1, hmain.2.2⟩
      · have hmain := insert_split_case t ps A B p off bytes h hb hps hfind
          (by omega) hlt2
        exact ⟨_, hmain.1, hmain.2.1, hmain.2.2⟩

theorem delete_nn (t : Text) (ps A M RL : List Nat) (off1 off2 : Nat)
    (h : WFc t ps) (h12 : off1 < off2)
    (hps : ps = A ++ (M ++ RL))
    (hoff1 : off1 = sumLens t A)
    (hoff2 : off2 = sumLens t A + sumLens t M)
    (hfind1 : t.find_piece off1 = (off1, (M ++ RL).headD SENTINEL))
    (hfind2 : t.find_piece off2 = (off2, RL.headD SENTINEL)) :
    WFc (t.delete off1 off2) (A ++ RL) ∧
    (t.delete off1 off2).to_vec = t.to_vec.take off1 ++ t.to_vec.drop off2 ∧
    (t.delete off1 off2).len = t.len - (off2 - off1) := by
  have hl := h.links
  rw [hps] at hl
  have hsegA := seg_split_left t SENTINEL SENTINEL A (M ++ RL) hl
  have hsegMRL := seg_split_right t SENTINEL SENTINEL A (M ++ RL) hl
  have hprevlp : (t.get_piece ((M ++ RL).headD SENTINEL)).prev
      = A.getLastD SENTINEL := seg_headD_prev t _ _ _ hsegMRL
  have hA_lt : ∀ q ∈ A, q < t.pieces.length := fun q hq =>
    h.mem_lt q (by rw [hps]; exact List.mem_append.mpr (Or.inl hq))
  have hRL_lt : ∀ q ∈ RL, q < t.pieces.length := fun q hq =>
    h.mem_lt q (by rw [hps]; exact List.mem_append.mpr (Or.inr (List.mem_append.mpr (Or.inr hq))))
  have hA_ne : ∀ q ∈ A, q ≠ SENTINEL := fun q hq =>
    h.mem_ne q (by rw [hps]; exact List.mem_append.mpr (Or.inl hq))
  have hRL_ne : ∀ q ∈ RL, q ≠ SENTINEL := fun q hq =>
    h.mem_ne q (by rw [hps]; exact List.mem_append.mpr (Or.inr (List.mem_append.mpr (Or.inr hq))))
  have hnd : (A ++ (M ++ RL)).Nodup := by rw [← hps]; exact h.nodup
  have hndA : A.Nodup := (List.nodup_append.mp hnd).1
  have hndMRL : (M ++ RL).Nodup := (List.nodup_append.mp hnd).2.1
  have hndRL : RL.Nodup := (List.nodup_append.mp hndMRL).2.1
  have hdisjAMRL : List.Disjoint A (M ++ RL) := (List.nodup_append.mp hnd).2.2
  have hdisjARL : List.Disjoint A RL := fun a ha hb =>
    hdisjAMRL ha (List.mem_append.mpr (Or.inr hb))
  have hvlt : A.getLastD SENTINEL < t.pieces.length := by
    rcases List.mem_cons.mp (getLastD_mem_cons A SENTINEL) with h0 | hA2
    · rw [h0]; exact h.arena_pos
    · exact hA_lt _ hA2
  have hplt : RL.headD SENTINEL < t.pieces.length := by
    rcases List.mem_cons.mp (headD_mem_cons RL SENTINEL) with h0 | hB2
    · rw [h0]; exact h.arena_pos
    · exact hRL_lt _ hB2
  have hres : t.delete off1 off2 =
      ({ t with len := t.len - (off2 - off1) } : Text).link
        (t.get_piece ((M ++ RL).headD SENTINEL)).prev (RL.headD SENTINEL) := by
    simp only [Text.delete, if_neg (show ¬ off2 ≤ off1 by omega), hfind1,
      hfind2, Nat.sub_self, Span.split_zero]
  rw [hres, hprevlp]
  set tF : Text := ({ t with len := t.len - (off2 - off1) } : Text).link
    (A.getLastD SENTINEL) (RL.headD SENTINEL) with htF
  have hwlen : tF.pieces.length = t.pieces.length := by
    rw [htF, link_pieces_length]
  have hbufF : tF.buffer = t.buffer := by rw [htF, link_buffer]
  have hlenF : tF.len = t.len - (off2 - off1) := by rw [htF, link_len]
  have hspanF : ∀ q, (tF.get_piece q).span = (t.get_piece q).span := by
    intro q
    rw [htF, get_piece_link_span]
    rfl
  have hnextF : ∀ q, (tF.get_piece q).next =
      if q = A.getLastD SENTINEL then RL.headD SENTINEL
      else (t.get_piece q).next := by
    intro q
    rw [htF, get_piece_link_next _ _ _ _
      (show A.getLastD SENTINEL < ({ t with len := t.len - (off2 - off1) } : Text).pieces.length from hvlt)]
    by_cases h1 : q = A.getLastD SENTINEL
    · rw [if_pos h1, if_pos h1]
    · rw [if_neg h1, if_neg h1]
      rfl
  have hprevF : ∀ q, (tF.get_piece q).prev =
      if q = RL.headD SENTINEL then A.getLastD SENTINEL
      else (t.get_piece q).prev := by
    intro q
    rw [htF, get_piece_link_prev _ _ _ _
      (show RL.headD SENTINEL < ({ t with len := t.len - (off2 - off1) } : Text).pieces.length from hplt)]
    by_cases h1 : q = RL.headD SENTINEL
    · rw [if_pos h1, if_pos h1]
    · rw [if_neg h1, if_neg h1]
      rfl
  have hcont : ∀ q, contentOf tF q = contentOf t q := by
    intro q
    rw [contentOf, contentOf, hspanF, hbufF]
  have hwf : WFc tF (A ++ RL) := by
    refine ⟨?_, ?_, ?_, ?_, ?_, ?_, ?_, ?_, ?_⟩
    · rw [hwlen]; exact h.arena_pos
    · cases RL with
      | nil =>
        rw [List.append_nil]
        rcases List.eq_nil_or_concat A with hAnil | ⟨A2, la, hAeq⟩
        · subst hAnil
          refine And.intro ?_ ?_
          · rw [hnextF SENTINEL, if_pos (by simp [List.getLastD])]
            simp
          · rw [hprevF SENTINEL, if_pos (by simp)]
            simp [List.getLastD]
        · rw [List.concat_eq_append] at hAeq
          subst hAeq
          have hla_mem : la ∈ A2 ++ [la] := by simp
          have hla_ne : la ≠ SENTINEL := hA_ne la hla_mem
          have hla_last : (A2 ++ [la]).getLastD SENTINEL = la :=
            List.getLastD_concat _ _ _
          have hla_nmem : la ∉ A2 := by
            rcases List.nodup_append.mp hndA with ⟨_, _, dA⟩
            intro hmem
            exact dA hmem (by simp)
          have hsegA2 := (seg_append t SENTINEL ((M ++ []).headD SENTINEL)
            la A2 []).mp hsegA
          refine (seg_append tF SENTINEL SENTINEL la A2 []).mpr
            ⟨?_, And.intro ?_ ?_⟩
          · refine seg_congr t tF A2 SENTINEL la ?_ ?_ hsegA2.1
            · intro x hx
              have hx_ne_la : x ≠ la := by
                rcases List.mem_cons.mp hx with rfl | hx2
                · exact fun hh => hla_ne hh.symm
                · intro hh; exact hla_nmem (hh ▸ hx2)
              rw [hnextF x, hla_last, if_neg hx_ne_la]
            · intro x hx
              have hxA : x ∈ A2 ++ [la] := by
                rcases List.mem_append.mp hx with hh | hh
                · exact List.mem_append.mpr (Or.inl hh)
                · have hxla : x = la := by simpa using hh
                  rw [hxla]; exact hla_mem
              have hx_ne : x ≠ ([] : List Nat).headD SENTINEL := by
                show x ≠ SENTINEL
                exact hA_ne x hxA
              rw [hprevF x, if_neg hx_ne]
          · rw [hnextF la, hla_last, if_pos rfl]
            simp
          · rw [hprevF SENTINEL, if_pos (by simp), hla_last]
      | cons r RL2 =>
        have hr_mem : r ∈ r :: RL2 := by simp
        have hr_lt : r < t.pieces.length := hRL_lt r hr_mem
        have hr_ne : r ≠ SENTINEL := hRL_ne r hr_mem
        have hhead : (r :: RL2).headD SENTINEL = r := rfl
        have hsegMr := (seg_append t (A.getLastD SENTINEL) SENTINEL r M
          RL2).mp hsegMRL
        refine (seg_append tF SENTINEL SENTINEL r A RL2).mpr ⟨?_, ?_⟩
        · rcases List.eq_nil_or_concat A with hAnil | ⟨A2, la, hAeq⟩
          · subst hAnil
            refine And.intro ?_ ?_
            · rw [hnextF SENTINEL, if_pos (by simp [List.getLastD]), hhead]
            · rw [hprevF r, hhead, if_pos rfl]
              simp [List.getLastD]
          · rw [List.concat_eq_append] at hAeq
            subst hAeq
            have hla_mem : la ∈ A2 ++ [la] := by simp
            have hla_ne : la ≠ SENTINEL := hA_ne la hla_mem
            have hla_last : (A2 ++ [la]).getLastD SENTINEL = la :=
              List.getLastD_concat _ _ _
            have hla_nmem : la ∉ A2 := by
              rcases List.nodup_append.mp hndA with ⟨_, _, dA⟩
              intro hmem
              exact dA hmem (by simp)
            have hsegA2 := (seg_append t SENTINEL
              ((M ++ r :: RL2).headD SENTINEL) la A2 []).mp hsegA
            refine (seg_append tF SENTINEL r la A2 []).mpr
              ⟨?_, And.intro ?_ ?_⟩
            · refine seg_congr t tF A2 SENTINEL la ?_ ?_ hsegA2.1
              · intro x hx
                have hx_ne_la : x ≠ la := by
                  rcases List.mem_cons.mp hx with rfl | hx2
                  · exact fun hh => hla_ne hh.symm
                  · intro hh; exact hla_nmem (hh ▸ hx2)
                rw [hnextF x, hla_last, if_neg hx_ne_la]
              · intro x hx
                have hxA : x ∈ A2 ++ [la] := by
                  rcases List.mem_append.mp hx with hh | hh
                  · exact List.mem_append.mpr (Or.inl hh)
                  · have hxla : x = la := by simpa using hh
                    rw [hxla]; exact hla_mem
                have hx_ne : x ≠ (r :: RL2).headD SENTINEL := by
                  rw [hhead]
                  intro heq
                  exact hdisjARL hxA (heq ▸ hr_mem)
                rw [hprevF x, if_neg hx_ne]
            · rw [hnextF la, hla_last, if_pos rfl, hhead]
            · rw [hprevF r, hhead, if_pos rfl, hla_last]
        · refine seg_congr t tF RL2 r SENTINEL ?_ ?_ hsegMr.2
          · intro y hy
            have hyRL : y ∈ r :: RL2 := hy
            have hy_ne_last : y ≠ A.getLastD SENTINEL := by
              rcases List.mem_cons.mp (getLastD_mem_cons A SENTINEL)
                with hh | hh
              · rw [hh]; exact hRL_ne y hyRL
              · intro heq; exact hdisjARL (heq ▸ hh) hyRL
            rw [hnextF y, if_neg hy_ne_last]
          · intro y hy
            have hy_ne_r : y ≠ (r :: RL2).headD SENTINEL := by
              rw [hhead]
              rcases List.mem_append.mp hy with hh | hh
              · intro heq
                exact (List.nodup_cons.mp hndRL).1 (heq ▸ hh)
              · have hy0 : y = SENTINEL := by simpa using hh
                rw [hy0]; exact fun heq => hr_ne heq.symm
            rw [hprevF y, if_neg hy_ne_r]
    · intro q hq
      rw [hwlen]
      rcases List.mem_append.mp hq with hh | hh
      · exact hA_lt q hh
      · exact hRL_lt q hh
    · intro q hq
      rcases List.mem_append.mp hq with hh | hh
      · exact hA_ne q hh
      · exact hRL_ne q hh
    · refine List.nodup_append.mpr ⟨hndA, hndRL, hdisjARL⟩
    · rw [hwlen]
      have hc := h.card
      have hlen2 : ps.length = A.length + (M.length + RL.length) := by
        rw [hps]; simp
      simp only [List.length_append]
      omega
    · intro q hq
      rw [hspanF q, hbufF]
      rcases List.mem_append.mp hq with hh | hh
      · exact h.spans_ok q (by rw [hps]; exact List.mem_append.mpr (Or.inl hh))
      · exact h.spans_ok q (by rw [hps]; exact List.mem_append.mpr (Or.inr (List.mem_append.mpr (Or.inr hh))))
    · intro q hq
      rw [hspanF q]
      rcases List.mem_append.mp hq with hh | hh
      · exact h.spans_pos q (by rw [hps]; exact List.mem_append.mpr (Or.inl hh))
      · exact h.spans_pos q (by rw [hps]; exact List.mem_append.mpr (Or.inr (List.mem_append.mpr (Or.inr hh))))
    · rw [hlenF, sumLens_append]
      have eA : sumLens tF A = sumLens t A :=
        sumLens_congr t tF A (fun q _ => by rw [hspanF q])
      have eRL : sumLens tF RL = sumLens t RL :=
        sumLens_congr t tF RL (fun q _ => by rw [hspanF q])
      have hle : t.len = sumLens t A + (sumLens t M + sumLens t RL) := by
        rw [h.len_eq, hps, sumLens_append, sumLens_append]
      rw [eA, eRL]
      omega
  refine ⟨hwf, ?_, hlenF⟩
  rw [to_vec_eq tF _ hwf, to_vec_eq t ps h, hps]
  have hcA : A.map (contentOf tF) = A.map (contentOf t) :=
    List.map_congr_left (fun q _ => hcont q)
  have hcRL : RL.map (contentOf tF) = RL.map (contentOf t) :=
    List.map_congr_left (fun q _ => hcont q)
  have hlenA : ((A.map (contentOf t)).flatten).length = sumLens t A :=
    flatten_map_content_length t A (fun q hq =>
      h.spans_ok q (by rw [hps]; exact List.mem_append.mpr (Or.inl hq)))
  have hlenM : ((M.map (contentOf t)).flatten).length = sumLens t M :=
    flatten_map_content_length t M (fun q hq =>
      h.spans_ok q (by rw [hps]; exact List.mem_append.mpr (Or.inr (List.mem_append.mpr (Or.inl hq)))))
  rw [List.map_append, List.flatten_append, hcA, hcRL,
    List.map_append, List.flatten_append, List.map_append,
    List.flatten_append]
  rw [List.take_left' (by rw [hlenA, hoff1]), ← List.append_assoc,
    List.drop_left' (by rw [List.length_append, hlenA, hlenM, hoff2])]

theorem delete_sn (t : Text) (ps A M RL : List Nat) (lp off1 off2 : Nat)
    (h : WFc t ps) (h12 : off1 < off2)
    (hps : ps = A ++ lp :: (M ++ RL))
    (hlt1 : sumLens t A < off1)
    (hlt2 : off1 < sumLens t A + (t.get_piece lp).span.len)
    (hoff2 : off2 = sumLens t A + (t.get_piece lp).span.len + sumLens t M)
    (hfind1 : t.find_piece off1 = (sumLens t A, lp))
    (hfind2 : t.find_piece off2 = (off2, RL.headD SENTINEL)) :
    WFc (t.delete off1 off2) (A ++ t.pieces.length :: RL) ∧
    (t.delete off1 off2).to_vec = t.to_vec.take off1 ++ t.to_vec.drop off2 ∧
    (t.delete off1 off2).len = t.len - (off2 - off1) := by
  have hl := h.links
  rw [hps] at hl
  have hsegAp := (seg_append t SENTINEL SENTINEL lp A (M ++ RL)).mp hl
  have hsegA : seg t SENTINEL A lp := hsegAp.1
  have hsegMRL : seg t lp (M ++ RL) SENTINEL := hsegAp.2
  have hprevv : (t.get_piece lp).prev = A.getLastD SENTINEL :=
    seg_last_prev t A SENTINEL lp hsegA
  have hA_lt : ∀ q ∈ A, q < t.pieces.length := fun q hq =>
    h.mem_lt q (by rw [hps]; exact List.mem_append.mpr (Or.inl hq))
  have hRL_lt : ∀ q ∈ RL, q < t.pieces.length := fun q hq =>
    h.mem_lt q (by rw [hps]; exact List.mem_append.mpr (Or.inr
      (List.mem_cons_of_mem _ (List.mem_append.mpr (Or.inr hq)))))
  have hA_ne : ∀ q ∈ A, q ≠ SENTINEL := fun q hq =>
    h.mem_ne q (by rw [hps]; exact List.mem_append.mpr (Or.inl hq))
  have hRL_ne : ∀ q ∈ RL, q ≠ SENTINEL := fun q hq =>
    h.mem_ne q (by rw [hps]; exact List.mem_append.mpr (Or.inr
      (List.mem_cons_of_mem _ (List.mem_append.mpr (Or.inr hq)))))
  have hlp_lt : lp < t.pieces.length :=
    h.mem_lt lp (by rw [hps]; exact List.mem_append.mpr (Or.inr (by simp)))
  have hnd : (A ++ lp :: (M ++ RL)).Nodup := by rw [← hps]; exact h.nodup
  have hndA : A.Nodup := (List.nodup_append.mp hnd).1
  have hndMRL : (M ++ RL).Nodup :=
    (List.nodup_cons.mp ((List.nodup_append.mp hnd).2.1)).2
  have hndRL : RL.Nodup := (List.nodup_append.mp hndMRL).2.1
  have hdisjA : List.Disjoint A (lp :: (M ++ RL)) :=
    (List.nodup_append.mp hnd).2.2
  have hdisjARL : List.Disjoint A RL := fun a ha hb =>
    hdisjA ha (List.mem_cons_of_mem _ (List.mem_append.mpr (Or.inr hb)))
  have hvlt : A.getLastD SENTINEL < t.pieces.length := by
    rcases List.mem_cons.mp (getLastD_mem_cons A SENTINEL) with h0 | hA2
    · rw [h0]; exact h.arena_pos
    · exact hA_lt _ hA2
  have hplt : RL.headD SENTINEL < t.pieces.length := by
    rcases List.mem_cons.mp (headD_mem_cons RL SENTINEL) with h0 | hB2
    · rw [h0]; exact h.arena_pos
    · exact hRL_lt _ hB2
  have hspok := h.spans_ok lp (by rw [hps]; exact List.mem_append.mpr (Or.inr (by simp)))
  have hLdef : (t.get_piece lp).span.len
    = (t.get_piece lp).span.off2 - (t.get_piece lp).span.off1 := rfl
  have hsplit : (t.get_piece lp).span.split (off1 - sumLens t A)
      = some (⟨(t.get_piece lp).span.off1,
          (t.get_piece lp).span.off1 + (off1 - sumLens t A)⟩,
        ⟨(t.get_piece lp).span.off1 + (off1 - sumLens t A),
          (t.get_piece lp).span.off2⟩) :=
    Span.split_some _ _ (by omega) (by omega)
  have hres : t.delete off1 off2 =
      ({ ((t.add_piece ⟨(t.get_piece lp).span.off1, (t.get_piece lp).span.off1 + (off1 - sumLens t A)⟩).1.link (t.get_piece lp).prev t.pieces.length) with len := t.len - (off2 - off1) } : Text).link t.pieces.length (RL.headD SENTINEL) := by
    simp only [Text.delete, if_neg (show ¬ off2 ≤ off1 by omega), hfind1,
      hfind2, hsplit, Nat.sub_self, Span.split_zero]
    rfl
  rw [hres, hprevv]
  set ls : Span := ⟨(t.get_piece lp).span.off1,
    (t.get_piece lp).span.off1 + (off1 - sumLens t A)⟩ with hls
  set t4 : Text := (t.add_piece ls).1 with ht4
  have ht4len : t4.pieces.length = t.pieces.length + 1 := by
    rw [ht4, add_piece_pieces_length]
  have ht4get_old : ∀ q, q ≠ t.pieces.length →
      t4.get_piece q = t.get_piece q := by
    intro q hq
    rw [ht4]
    by_cases hlt : q < t.pieces.length
    · exact get_piece_add_piece_old t ls q hlt
    · rw [get_piece_default _ _ (by rw [add_piece_pieces_length]; omega),
        get_piece_default t q (by omega)]
  have ht4get_new : t4.get_piece t.pieces.length
      = ⟨ls, SENTINEL, SENTINEL⟩ := by
    rw [ht4]
    exact get_piece_add_piece_new t ls
  have ht4buf : t4.buffer = t.buffer := by rw [ht4, add_piece_buffer]
  set tF : Text := ({ t4.link (A.getLastD SENTINEL) t.pieces.length with len := t.len - (off2 - off1) } : Text).link t.pieces.length (RL.headD SENTINEL) with htF
  have hwlen : tF.pieces.length = t.pieces.length + 1 := by
    rw [htF, link_pieces_length]
    show (t4.link (A.getLastD SENTINEL) t.pieces.length).pieces.length = _
    rw [link_pieces_length, ht4len]
  have hbufF : tF.buffer = t.buffer := by
    rw [htF, link_buffer]
    show (t4.link (A.getLastD SENTINEL) t.pieces.length).buffer = t.buffer
    rw [link_buffer, ht4buf]
  have hlenF : tF.len = t.len - (off2 - off1) := by
    rw [htF, link_len]
  have hspanF : ∀ q, (tF.get_piece q).span =
      if q = t.pieces.length then ls else (t.get_piece q).span := by
    intro q
    rw [htF, get_piece_link_span]
    show (((t4.link (A.getLastD SENTINEL) t.pieces.length)).get_piece q).span
      = if q = t.pieces.length then ls else (t.get_piece q).span
    rw [get_piece_link_span]
    by_cases h2 : q = t.pieces.length
    · rw [if_pos h2, h2, ht4get_new]
    · rw [if_neg h2, ht4get_old q h2]
  have hnextF : ∀ q, (tF.get_piece q).next =
      if q = t.pieces.length then RL.headD SENTINEL
      else if q = A.getLastD SENTINEL then t.pieces.length
      else (t.get_piece q).next := by
    intro q
    rw [htF, get_piece_link_next _ _ _ _
      (show t.pieces.length < ({ t4.link (A.getLastD SENTINEL) t.pieces.length with len := t.len - (off2 - off1) } : Text).pieces.length from by
        show t.pieces.length < (t4.link _ _).pieces.length
        rw [link_pieces_length, ht4len]; omega)]
    by_cases h1 : q = t.pieces.length
    · rw [if_pos h1, if_pos h1]
    · rw [if_neg h1, if_neg h1]
      show (((t4.link (A.getLastD SENTINEL) t.pieces.length)).get_piece q).next
        = if q = A.getLastD SENTINEL then t.pieces.length
          else (t.get_piece q).next
      rw [get_piece_link_next _ _ _ _ (by rw [ht4len]; omega)]
      by_cases h2 : q = A.getLastD SENTINEL
      · rw [if_pos h2, if_pos h2]
      · rw [if_neg h2, if_neg h2, ht4get_old q h1]
  have hprevF : ∀ q, (tF.get_piece q).prev =
      if q = RL.headD SENTINEL then t.pieces.length
      else if q = t.pieces.length then A.getLastD SENTINEL
      else (t.get_piece q).prev := by
    intro q
    rw [htF, get_piece_link_prev _ _ _ _
      (show RL.headD SENTINEL < ({ t4.link (A.getLastD SENTINEL) t.pieces.length with len := t.len - (off2 - off1) } : Text).pieces.length from by
        show RL.headD SENTINEL < (t4.link _ _).pieces.length
        rw [link_pieces_length, ht4len]; omega)]
    by_cases h1 : q = RL.headD SENTINEL
    · rw [if_pos h1, if_pos h1]
    · rw [if_neg h1, if_neg h1]
      show (((t4.link (A.getLastD SENTINEL) t.pieces.length)).get_piece q).prev
        = if q = t.pieces.length then A.getLastD SENTINEL
          else (t.get_piece q).prev
      rw [get_piece_link_prev _ _ _ _ (by rw [ht4len]; omega)]
      by_cases h2 : q = t.pieces.length
      · rw [if_pos h2, if_pos h2]
      · rw [if_neg h2, if_neg h2, ht4get_old q h2]
  have hwf : WFc tF (A ++ t.pieces.length :: RL) := by
    refine ⟨?_, ?_, ?_, ?_, ?_, ?_, ?_, ?_, ?_⟩
    · rw [hwlen]; omega
    · refine (seg_append tF SENTINEL SENTINEL t.pieces.length A RL).mpr
        ⟨?_, ?_⟩
      · rcases List.eq_nil_or_concat A with hAnil | ⟨A2, la, hAeq⟩
        · subst hAnil
          refine And.intro ?_ ?_
          · rw [hnextF SENTINEL,
              if_neg (by have := h.arena_pos; simp only [SENTINEL]; omega),
              if_pos (by simp [List.getLastD])]
          · rw [hprevF t.pieces.length, if_neg (by have := hplt; omega),
              if_pos rfl]
            simp [List.getLastD]
        · rw [List.concat_eq_append] at hAeq
          subst hAeq
          have hla_mem : la ∈ A2 ++ [la] := by simp
          have hla_ne : la ≠ SENTINEL := hA_ne la hla_mem
          have hla_lt : la < t.pieces.length := hA_lt la hla_mem
          have hla_last : (A2 ++ [la]).getLastD SENTINEL = la :=
            List.getLastD_concat _ _ _
          have hla_nmem : la ∉ A2 := by
            rcases List.nodup_append.mp hndA with ⟨_, _, dA⟩
            intro hmem
            exact dA hmem (by simp)
          have hsegA2 := (seg_append t SENTINEL lp la A2 []).mp hsegA
          refine (seg_append tF SENTINEL t.pieces.length la A2 []).mpr
            ⟨?_, And.intro ?_ ?_⟩
          · refine seg_congr t tF A2 SENTINEL la ?_ ?_ hsegA2.1
            · intro x hx
              have hx_ne_la : x ≠ la := by
                rcases List.mem_cons.mp hx with rfl | hx2
                · exact fun hh => hla_ne hh.symm
                · intro hh; exact hla_nmem (hh ▸ hx2)
              have hx_lt : x < t.pieces.length := by
                rcases List.mem_cons.mp hx with rfl | hx2
                · show SENTINEL < _
                  have := h.arena_pos
                  simp only [SENTINEL]
                  omega
                · exact hA_lt x (List.mem_append.mpr (Or.inl hx2))
              rw [hnextF x, hla_last, if_neg (by omega), if_neg hx_ne_la]
            · intro x hx
              have hxA : x ∈ A2 ++ [la] := by
                rcases List.mem_append.mp hx with hh | hh
                · exact List.mem_append.mpr (Or.inl hh)
                · have hxla : x = la := by simpa using hh
                  rw [hxla]; exact hla_mem
              have hx_lt : x < t.pieces.length := hA_lt x hxA
              have hx_ne : x ≠ RL.headD SENTINEL := by
                rcases List.mem_cons.mp (headD_mem_cons RL SENTINEL)
                  with hh | hh
                · rw [hh]; exact hA_ne x hxA
                · intro heq; exact hdisjARL hxA (heq ▸ hh)
              rw [hprevF x, if_neg hx_ne, if_neg (by omega)]
          · rw [hnextF la, hla_last, if_neg (by omega), if_pos rfl]
          · rw [hprevF t.pieces.length, if_neg (by have := hplt; omega),
              if_pos rfl, hla_last]
      · cases RL with
        | nil =>
          refine And.intro ?_ ?_
          · rw [hnextF t.pieces.length, if_pos rfl]
            simp
          · rw [hprevF SENTINEL, if_pos (by simp)]
        | cons r RL2 =>
          have hr_mem : r ∈ r :: RL2 := by simp
          have hr_lt : r < t.pieces.length := hRL_lt r hr_mem
          have hr_ne : r ≠ SENTINEL := hRL_ne r hr_mem
          have hhead : (r :: RL2).headD SENTINEL = r := rfl
          have hsegMr := (seg_append t lp SENTINEL r M RL2).mp hsegMRL
          refine And.intro ?_ (And.intro ?_ ?_)
          · rw [hnextF t.pieces.length, if_pos rfl, hhead]
          · rw [hprevF r, hhead, if_pos rfl]
          · refine seg_congr t tF RL2 r SENTINEL ?_ ?_ hsegMr.2
            · intro y hy
              have hyRL : y ∈ r :: RL2 := hy
              have hy_lt : y < t.pieces.length := hRL_lt y hyRL
              have hy_ne_last : y ≠ A.getLastD SENTINEL := by
                rcases List.mem_cons.mp (getLastD_mem_cons A SENTINEL)
                  with hh | hh
                · rw [hh]; exact hRL_ne y hyRL
                · intro heq; exact hdisjARL (heq ▸ hh) hyRL
              rw [hnextF y, if_neg (by omega), if_neg hy_ne_last]
            · intro y hy
              have hy_lt : y < t.pieces.length := by
                rcases List.mem_append.mp hy with hh | hh
                · exact hRL_lt y (List.mem_cons_of_mem _ hh)
                · have hy0 : y = SENTINEL := by simpa using hh
                  rw [hy0]
                  show SENTINEL < _
                  have := h.arena_pos
                  simp only [SENTINEL]
                  omega
              have hy_ne_r : y ≠ (r :: RL2).headD SENTINEL := by
                rw [hhead]
                rcases List.mem_append.mp hy with hh | hh
                · intro heq
                  exact (List.nodup_cons.mp hndRL).1 (heq ▸ hh)
                · have hy0 : y = SENTINEL := by simpa using hh
                  rw [hy0]; exact fun heq => hr_ne heq.symm
              rw [hprevF y, if_neg hy_ne_r, if_neg (by omega)]
    · intro q hq
      rw [hwlen]
      rcases List.mem_append.mp hq with hh | hh
      · have := hA_lt q hh; omega
      · rcases List.mem_cons.mp hh with rfl | hh2
        · omega
        · have := hRL_lt q hh2; omega
    · intro q hq
      rcases List.mem_append.mp hq with hh | hh
      · exact hA_ne q hh
      · rcases List.mem_cons.mp hh with rfl | hh2
        · have := h.arena_pos; simp only [SENTINEL]; omega
        · exact hRL_ne q hh2
    · refine nodup_mid A RL t.pieces.length
        (List.nodup_append.mpr ⟨hndA, hndRL, hdisjARL⟩) ?_ ?_
      · intro q hq; have := hA_lt q hq; omega
      · intro q hq; have := hRL_lt q hq; omega
    · rw [hwlen]
      have hc := h.card
      have hlen2 : ps.length = A.length + (1 + (M.length + RL.length)) := by
        rw [hps]; simp only [List.length_append, List.length_cons]; omega
      simp only [List.length_append, List.length_cons]
      omega
    · intro q hq
      rw [hspanF q, hbufF]
      rcases hspok with ⟨hs1, hs2⟩
      rcases List.mem_append.mp hq with hh | hh
      · have := hA_lt q hh
        rw [if_neg (by omega)]
        exact h.spans_ok q (by rw [hps]; exact List.mem_append.mpr (Or.inl hh))
      · rcases List.mem_cons.mp hh with rfl | hh2
        · rw [if_pos rfl, hls]
          refine ⟨?_, ?_⟩
          · show (t.get_piece lp).span.off1
              ≤ (t.get_piece lp).span.off1 + (off1 - sumLens t A)
            omega
          · show (t.get_piece lp).span.off1 + (off1 - sumLens t A)
              ≤ t.buffer.buf.length
            omega
        · have := hRL_lt q hh2
          rw [if_neg (by omega)]
          exact h.spans_ok q (by rw [hps]; exact List.mem_append.mpr (Or.inr
            (List.mem_cons_of_mem _ (List.mem_append.mpr (Or.inr hh2)))))
    · intro q hq
      rw [hspanF q]
      rcases List.mem_append.mp hq with hh | hh
      · have := hA_lt q hh
        rw [if_neg (by omega)]
        exact h.spans_pos q (by rw [hps]; exact List.mem_append.mpr (Or.inl hh))
      · rcases List.mem_cons.mp hh with rfl | hh2
        · rw [if_pos rfl, hls]
          show 0 < Span.len ⟨(t.get_piece lp).span.off1,
            (t.get_piece lp).span.off1 + (off1 - sumLens t A)⟩
          simp only [Span.len]
          omega
        · have := hRL_lt q hh2
          rw [if_neg (by omega)]
          exact h.spans_pos q (by rw [hps]; exact List.mem_append.mpr (Or.inr
            (List.mem_cons_of_mem _ (List.mem_append.mpr (Or.inr hh2)))))
    · rw [hlenF, sumLens_append]
      have e2 : sumLens tF (t.pieces.length :: RL)
          = (tF.get_piece t.pieces.length).span.len + sumLens tF RL := rfl
      rw [e2]
      have eA : sumLens tF A = sumLens t A :=
        sumLens_congr t tF A (fun q hq => by
          have := hA_lt q hq
          rw [hspanF q, if_neg (by omega)])
      have eRL : sumLens tF RL = sumLens t RL :=
        sumLens_congr t tF RL (fun q hq => by
          have := hRL_lt q hq
          rw [hspanF q, if_neg (by omega)])
      have ef0 : (tF.get_piece t.pieces.length).span.len
          = off1 - sumLens t A := by
        rw [hspanF, if_pos rfl, hls]
        simp only [Span.len]
        omega
      have hle : t.len = sumLens t A + ((t.get_piece lp).span.len
          + (sumLens t M + sumLens t RL)) := by
        rw [h.len_eq, hps, sumLens_append]
        have e3 : sumLens t (lp :: (M ++ RL))
            = (t.get_piece lp).span.len + sumLens t (M ++ RL) := rfl
        rw [e3, sumLens_append]
      rw [eA, eRL, ef0]
      omega
  refine ⟨hwf, ?_, hlenF⟩
  rw [to_vec_eq tF _ hwf, to_vec_eq t ps h, hps]
  have hcA : A.map (contentOf tF) = A.map (contentOf t) :=
    List.map_congr_left (fun q hq => by
      have := hA_lt q hq
      rw [contentOf, contentOf, hspanF q, if_neg (by omega), hbufF])
  have hcRL : RL.map (contentOf tF) = RL.map (contentOf t) :=
    List.map_congr_left (fun q hq => by
      have := hRL_lt q hq
      rw [contentOf, contentOf, hspanF q, if_neg (by omega), hbufF])
  rcases hspok with ⟨hs1, hs2⟩
  have hcf0 : contentOf tF t.pieces.length
      = (contentOf t lp).take (off1 - sumLens t A) := by
    rw [contentOf, hspanF _, if_pos rfl, hbufF, hls, contentOf]
    exact get_take_of_span t.buffer (t.get_piece lp).span _ (by omega)
  have hlenA : ((A.map (contentOf t)).flatten).length = sumLens t A :=
    flatten_map_content_length t A (fun q hq =>
      h.spans_ok q (by rw [hps]; exact List.mem_append.mpr (Or.inl hq)))
  have hlenM : ((M.map (contentOf t)).flatten).length = sumLens t M :=
    flatten_map_content_length t M (fun q hq =>
      h.spans_ok q (by rw [hps]; exact List.mem_append.mpr (Or.inr
        (List.mem_cons_of_mem _ (List.mem_append.mpr (Or.inl hq))))))
  have hlenCp : (contentOf t lp).length = (t.get_piece lp).span.len := by
    rw [contentOf]
    exact get_length_of_spanOk t.buffer _ ⟨hs1, hs2⟩
  rw [List.map_append, List.flatten_append, List.map_cons, List.flatten_cons,
    hcA, hcRL, hcf0, List.map_append, List.flatten_append, List.map_cons,
    List.flatten_cons, List.map_append, List.flatten_append]
  have hoffsplit : off1 = (A.map (contentOf t)).flatten.length
      + (off1 - sumLens t A) := by
    rw [hlenA]; omega
  have hoff2split : off2 = ((A.map (contentOf t)).flatten
      ++ (contentOf t lp ++ (M.map (contentOf t)).flatten)).length + 0 := by
    simp only [List.length_append, hlenA, hlenM, hlenCp]
    omega
  conv_rhs => rw [hoffsplit]
  rw [take_append_add, List.take_append_of_le_length (by rw [hlenCp]; omega)]
  have hdroparr : ((A.map (contentOf t)).flatten ++ (contentOf t lp
      ++ ((M.map (contentOf t)).flatten ++ (RL.map (contentOf t)).flatten)))
      = (((A.map (contentOf t)).flatten ++ (contentOf t lp
        ++ (M.map (contentOf t)).flatten)) ++ (RL.map (contentOf t)).flatten) := by
    simp only [List.append_assoc]
  conv_rhs => rw [hdroparr, hoff2split]
  rw [drop_append_add]
  simp only [List.append_assoc, List.drop_zero]

theorem delete_ns (t : Text) (ps A M D : List Nat) (rp off1 off2 : Nat)
    (h : WFc t ps) (h12 : off1 < off2)
    (hps : ps = A ++ (M ++ rp :: D))
    (hoff1 : off1 = sumLens t A)
    (hlt1 : sumLens t A + sumLens t M < off2)
    (hlt2 : off2 < sumLens t A + sumLens t M + (t.get_piece rp).span.len)
    (hfind1 : t.find_piece off1 = (off1, (M ++ rp :: D).headD SENTINEL))
    (hfind2 : t.find_piece off2 = (sumLens t A + sumLens t M, rp)) :
    WFc (t.delete off1 off2) (A ++ t.pieces.length :: D) ∧
    (t.delete off1 off2).to_vec = t.to_vec.take off1 ++ t.to_vec.drop off2 ∧
    (t.delete off1 off2).len = t.len - (off2 - off1) := by
  have hl := h.links
  rw [hps] at hl
  have hsegA := seg_split_left t SENTINEL SENTINEL A (M ++ rp :: D) hl
  have hsegMRD := seg_split_right t SENTINEL SENTINEL A (M ++ rp :: D) hl
  have hprevlp : (t.get_piece ((M ++ rp :: D).headD SENTINEL)).prev
      = A.getLastD SENTINEL := seg_headD_prev t _ _ _ hsegMRD
  have hsegMr := (seg_append t (A.getLastD SENTINEL) SENTINEL rp M D).mp hsegMRD
  have hsegD : seg t rp D SENTINEL := hsegMr.2
  have hnextv : (t.get_piece rp).next = D.headD SENTINEL :=
    seg_head_next t D rp SENTINEL hsegD
  have hA_lt : ∀ q ∈ A, q < t.pieces.length := fun q hq =>
    h.mem_lt q (by rw [hps]; exact List.mem_append.mpr (Or.inl hq))
  have hD_lt : ∀ q ∈ D, q < t.pieces.length := fun q hq =>
    h.mem_lt q (by rw [hps]; exact List.mem_append.mpr (Or.inr
      (List.mem_append.mpr (Or.inr (List.mem_cons_of_mem _ hq)))))
  have hA_ne : ∀ q ∈ A, q ≠ SENTINEL := fun q hq =>
    h.mem_ne q (by rw [hps]; exact List.mem_append.mpr (Or.inl hq))
  have hD_ne : ∀ q ∈ D, q ≠ SENTINEL := fun q hq =>
    h.mem_ne q (by rw [hps]; exact List.mem_append.mpr (Or.inr
      (List.mem_append.mpr (Or.inr (List.mem_cons_of_mem _ hq)))))
  have hrp_lt : rp < t.pieces.length :=
    h.mem_lt rp (by rw [hps]; exact List.mem_append.mpr (Or.inr
      (List.mem_append.mpr (Or.inr (by simp)))))
  have hnd : (A ++ (M ++ rp :: D)).Nodup := by rw [← hps]; exact h.nodup
  have hndA : A.Nodup := (List.nodup_append.mp hnd).1
  have hndMRD : (M ++ rp :: D).Nodup := (List.nodup_append.mp hnd).2.1
  have hndrpD : (rp :: D).Nodup := (List.nodup_append.mp hndMRD).2.1
  have hndD : D.Nodup := (List.nodup_cons.mp hndrpD).2
  have hdisjA : List.Disjoint A (M ++ rp :: D) := (List.nodup_append.mp hnd).2.2
  have hdisjAD : List.Disjoint A D := fun a ha hb =>
    hdisjA ha (List.mem_append.mpr (Or.inr (List.mem_cons_of_mem _ hb)))
  have hvlt : A.getLastD SENTINEL < t.pieces.length := by
    rcases List.mem_cons.mp (getLastD_mem_cons A SENTINEL) with h0 | hA2
    · rw [h0]; exact h.arena_pos
    · exact hA_lt _ hA2
  have hplt : D.headD SENTINEL < t.pieces.length := by
    rcases List.mem_cons.mp (headD_mem_cons D SENTINEL) with h0 | hB2
    · rw [h0]; exact h.arena_pos
    · exact hD_lt _ hB2
  have hspok := h.spans_ok rp (by rw [hps]; exact List.mem_append.mpr (Or.inr
    (List.mem_append.mpr (Or.inr (by simp)))))
  have hLdef : (t.get_piece rp).span.len
    = (t.get_piece rp).span.off2 - (t.get_piece rp).span.off1 := rfl
  have hsplit : (t.get_piece rp).span.split
      (off2 - (sumLens t A + sumLens t M))
      = some (⟨(t.get_piece rp).span.off1,
          (t.get_piece rp).span.off1 + (off2 - (sumLens t A + sumLens t M))⟩,
        ⟨(t.get_piece rp).span.off1 + (off2 - (sumLens t A + sumLens t M)),
          (t.get_piece rp).span.off2⟩) :=
    Span.split_some _ _ (by omega) (by omega)
  have hres : t.delete off1 off2 =
      ({ ((t.add_piece ⟨(t.get_piece rp).span.off1 + (off2 - (sumLens t A + sumLens t M)), (t.get_piece rp).span.off2⟩).1.link t.pieces.length (t.get_piece rp).next) with len := t.len - (off2 - off1) } : Text).link (t.get_piece ((M ++ rp :: D).headD SENTINEL)).prev t.pieces.length := by
    simp only [Text.delete, if_neg (show ¬ off2 ≤ off1 by omega), hfind1,
      hfind2, hsplit, Nat.sub_self, Span.split_zero]
    rfl
  rw [hres, hprevlp, hnextv]
  set rs : Span := ⟨(t.get_piece rp).span.off1
      + (off2 - (sumLens t A + sumLens t M)), (t.get_piece rp).span.off2⟩
    with hrs
  set t4 : Text := (t.add_piece rs).1 with ht4
  have ht4len : t4.pieces.length = t.pieces.length + 1 := by
    rw [ht4, add_piece_pieces_length]
  have ht4get_old : ∀ q, q ≠ t.pieces.length →
      t4.get_piece q = t.get_piece q := by
    intro q hq
    rw [ht4]
    by_cases hlt : q < t.pieces.length
    · exact get_piece_add_piece_old t rs q hlt
    · rw [get_piece_default _ _ (by rw [add_piece_pieces_length]; omega),
        get_piece_default t q (by omega)]
  have ht4get_new : t4.get_piece t.pieces.length
      = ⟨rs, SENTINEL, SENTINEL⟩ := by
    rw [ht4]
    exact get_piece_add_piece_new t rs
  have ht4buf : t4.buffer = t.buffer := by rw [ht4, add_piece_buffer]
  set tF : Text := ({ t4.link t.pieces.length (D.headD SENTINEL) with len := t.len - (off2 - off1) } : Text).link (A.getLastD SENTINEL) t.pieces.length with htF
  have hwlen : tF.pieces.length = t.pieces.length + 1 := by
    rw [htF, link_pieces_length]
    show (t4.link t.pieces.length (D.headD SENTINEL)).pieces.length = _
    rw [link_pieces_length, ht4len]
  have hbufF : tF.buffer = t.buffer := by
    rw [htF, link_buffer]
    show (t4.link t.pieces.length (D.headD SENTINEL)).buffer = t.buffer
    rw [link_buffer, ht4buf]
  have hlenF : tF.len = t.len - (off2 - off1) := by
    rw [htF, link_len]
  have hspanF : ∀ q, (tF.get_piece q).span =
      if q = t.pieces.length then rs else (t.get_piece q).span := by
    intro q
    rw [htF, get_piece_link_span]
    show (((t4.link t.pieces.length (D.headD SENTINEL))).get_piece q).span
      = if q = t.pieces.length then rs else (t.get_piece q).span
    rw [get_piece_link_span]
    by_cases h2 : q = t.pieces.length
    · rw [if_pos h2, h2, ht4get_new]
    · rw [if_neg h2, ht4get_old q h2]
  have hnextF : ∀ q, (tF.get_piece q).next =
      if q = A.getLastD SENTINEL then t.pieces.length
      else if q = t.pieces.length then D.headD SENTINEL
      else (t.get_piece q).next := by
    intro q
    rw [htF, get_piece_link_next _ _ _ _
      (show A.getLastD SENTINEL < ({ t4.link t.pieces.length (D.headD SENTINEL) with len := t.len - (off2 - off1) } : Text).pieces.length from by
        show A.getLastD SENTINEL
          < (t4.link t.pieces.length (D.headD SENTINEL)).pieces.length
        rw [link_pieces_length, ht4len]; omega)]
    by_cases h1 : q = A.getLastD SENTINEL
    · rw [if_pos h1, if_pos h1]
    · rw [if_neg h1, if_neg h1]
      show (((t4.link t.pieces.length (D.headD SENTINEL))).get_piece q).next
        = if q = t.pieces.length then D.headD SENTINEL
          else (t.get_piece q).next
      rw [get_piece_link_next _ _ _ _ (by rw [ht4len]; omega)]
      by_cases h2 : q = t.pieces.length
      · rw [if_pos h2, if_pos h2]
      · rw [if_neg h2, if_neg h2, ht4get_old q h2]
  have hprevF : ∀ q, (tF.get_piece q).prev =
      if q = t.pieces.length then A.getLastD SENTINEL
      else if q = D.headD SENTINEL then t.pieces.length
      else (t.get_piece q).prev := by
    intro q
    rw [htF, get_piece_link_prev _ _ _ _
      (show t.pieces.length < ({ t4.link t.pieces.length (D.headD SENTINEL) with len := t.len - (off2 - off1) } : Text).pieces.length from by
        show t.pieces.length
          < (t4.link t.pieces.length (D.headD SENTINEL)).pieces.length
        rw [link_pieces_length, ht4len]; omega)]
    by_cases h1 : q = t.pieces.length
    · rw [if_pos h1, if_pos h1]
    · rw [if_neg h1, if_neg h1]
      show (((t4.link t.pieces.length (D.headD SENTINEL))).get_piece q).prev
        = if q = D.headD SENTINEL then t.pieces.length
          else (t.get_piece q).prev
      rw [get_piece_link_prev _ _ _ _ (by rw [ht4len]; omega)]
      by_cases h2 : q = D.headD SENTINEL
      · rw [if_pos h2, if_pos h2]
      · rw [if_neg h2, if_neg h2, ht4get_old q h1]
  have hwf : WFc tF (A ++ t.pieces.length :: D) := by
    refine ⟨?_, ?_, ?_, ?_, ?_, ?_, ?_, ?_, ?_⟩
    · rw [hwlen]; omega
    · refine (seg_append tF SENTINEL SENTINEL t.pieces.length A D).mpr
        ⟨?_, ?_⟩
      · rcases List.eq_nil_or_concat A with hAnil | ⟨A2, la, hAeq⟩
        · subst hAnil
          refine And.intro ?_ ?_
          · rw [hnextF SENTINEL, if_pos (by simp [List.getLastD])]
          · rw [hprevF t.pieces.length, if_pos rfl]
            simp [List.getLastD]
        · rw [List.concat_eq_append] at hAeq
          subst hAeq
          have hla_mem : la ∈ A2 ++ [la] := by simp
          have hla_ne : la ≠ SENTINEL := hA_ne la hla_mem
          have hla_lt : la < t.pieces.length := hA_lt la hla_mem
          have hla_last : (A2 ++ [la]).getLastD SENTINEL = la :=
            List.getLastD_concat _ _ _
          have hla_nmem : la ∉ A2 := by
            rcases List.nodup_append.mp hndA with ⟨_, _, dA⟩
            intro hmem
            exact dA hmem (by simp)
          have hsegA2 := (seg_append t SENTINEL
            ((M ++ rp :: D).headD SENTINEL) la A2 []).mp hsegA
          refine (seg_append tF SENTINEL t.pieces.length la A2 []).mpr
            ⟨?_, And.intro ?_ ?_⟩
          · refine seg_congr t tF A2 SENTINEL la ?_ ?_ hsegA2.1
            · intro x hx
              have hx_ne_la : x ≠ la := by
                rcases List.mem_cons.mp hx with rfl | hx2
                · exact fun hh => hla_ne hh.symm
                · intro hh; exact hla_nmem (hh ▸ hx2)
              have hx_lt : x < t.pieces.length := by
                rcases List.mem_cons.mp hx with rfl | hx2
                · show SENTINEL < _
                  have := h.arena_pos
                  simp only [SENTINEL]
                  omega
                · exact hA_lt x (List.mem_append.mpr (Or.inl hx2))
              rw [hnextF x, hla_last, if_neg hx_ne_la, if_neg (by omega)]
            · intro x hx
              have hxA : x ∈ A2 ++ [la] := by
                rcases List.mem_append.mp hx with hh | hh
                · exact List.mem_append.mpr (Or.inl hh)
                · have hxla : x = la := by simpa using hh
                  rw [hxla]; exact hla_mem
              have hx_lt : x < t.pieces.length := hA_lt x hxA
              have hx_ne : x ≠ D.headD SENTINEL := by
                rcases List.mem_cons.mp (headD_mem_cons D SENTINEL)
                  with hh | hh
                · rw [hh]; exact hA_ne x hxA
                · intro heq; exact hdisjAD hxA (heq ▸ hh)
              rw [hprevF x, if_neg (by omega), if_neg hx_ne]
          · rw [hnextF la, hla_last, if_pos rfl]
          · rw [hprevF t.pieces.length, if_pos rfl, hla_last]
      · cases D with
        | nil =>
          refine And.intro ?_ ?_
          · rw [hnextF t.pieces.length, if_neg (by have := hvlt; omega),
              if_pos rfl]
            simp
          · rw [hprevF SENTINEL,
              if_neg (by have := h.arena_pos; simp only [SENTINEL]; omega),
              if_pos (by simp)]
        | cons d D2 =>
          have hd_mem : d ∈ d :: D2 := by simp
          have hd_lt : d < t.pieces.length := hD_lt d hd_mem
          have hd_ne : d ≠ SENTINEL := hD_ne d hd_mem
          have hhead : (d :: D2).headD SENTINEL = d := rfl
          refine And.intro ?_ (And.intro ?_ ?_)
          · rw [hnextF t.pieces.length, if_neg (by have := hvlt; omega),
              if_pos rfl, hhead]
          · rw [hprevF d, if_neg (by omega), hhead, if_pos rfl]
          · have hsegD2 : seg t d D2 SENTINEL := hsegD.2.2
            refine seg_congr t tF D2 d SENTINEL ?_ ?_ hsegD2
            · intro y hy
              have hyD : y ∈ d :: D2 := hy
              have hy_lt : y < t.pieces.length := hD_lt y hyD
              have hy_ne_last : y ≠ A.getLastD SENTINEL := by
                rcases List.mem_cons.mp (getLastD_mem_cons A SENTINEL)
                  with hh | hh
                · rw [hh]; exact hD_ne y hyD
                · intro heq; exact hdisjAD (heq ▸ hh) hyD
              rw [hnextF y, if_neg hy_ne_last, if_neg (by omega)]
            · intro y hy
              have hy_lt : y < t.pieces.length := by
                rcases List.mem_append.mp hy with hh | hh
                · exact hD_lt y (List.mem_cons_of_mem _ hh)
                · have hy0 : y = SENTINEL := by simpa using hh
                  rw [hy0]
                  show SENTINEL < _
                  have := h.arena_pos
                  simp only [SENTINEL]
                  omega
              have hy_ne_d : y ≠ (d :: D2).headD SENTINEL := by
                rw [hhead]
                rcases List.mem_append.mp hy with hh | hh
                · intro heq
                  exact (List.nodup_cons.mp hndD).1 (heq ▸ hh)
                · have hy0 : y = SENTINEL := by simpa using hh
                  rw [hy0]; exact fun heq => hd_ne heq.symm
              rw [hprevF y, if_neg (by omega), if_neg hy_ne_d]
    · intro q hq
      rw [hwlen]
      rcases List.mem_append.mp hq with hh | hh
      · have := hA_lt q hh; omega
      · rcases List.mem_cons.mp hh with rfl | hh2
        · omega
        · have := hD_lt q hh2; omega
    · intro q hq
      rcases List.mem_append.mp hq with hh | hh
      · exact hA_ne q hh
      · rcases List.mem_cons.mp hh with rfl | hh2
        · have := h.arena_pos; simp only [SENTINEL]; omega
        · exact hD_ne q hh2
    · refine nodup_mid A D t.pieces.length
        (List.nodup_append.mpr ⟨hndA, hndD, hdisjAD⟩) ?_ ?_
      · intro q hq; have := hA_lt q hq; omega
      · intro q hq; have := hD_lt q hq; omega
    · rw [hwlen]
      have hc := h.card
      have hlen2 : ps.length = A.length + (M.length + (1 + D.length)) := by
        rw [hps]; simp only [List.length_append, List.length_cons]; omega
      simp only [List.length_append, List.length_cons]
      omega
    · intro q hq
      rw [hspanF q, hbufF]
      rcases hspok with ⟨hs1, hs2⟩
      rcases List.mem_append.mp hq with hh | hh
      · have := hA_lt q hh
        rw [if_neg (by omega)]
        exact h.spans_ok q (by rw [hps]; exact List.mem_append.mpr (Or.inl hh))
      · rcases List.mem_cons.mp hh with rfl | hh2
        · rw [if_pos rfl, hrs]
          refine ⟨?_, ?_⟩
          · show (t.get_piece rp).span.off1
              + (off2 - (sumLens t A + sumLens t M)) ≤ (t.get_piece rp).span.off2
            omega
          · show (t.get_piece rp).span.off2 ≤ t.buffer.buf.length
            omega
        · have := hD_lt q hh2
          rw [if_neg (by omega)]
          exact h.spans_ok q (by rw [hps]; exact List.mem_append.mpr (Or.inr
            (List.mem_append.mpr (Or.inr (List.mem_cons_of_mem _ hh2)))))
    · intro q hq
      rw [hspanF q]
      rcases hspok with ⟨hs1, hs2⟩
      rcases List.mem_append.mp hq with hh | hh
      · have := hA_lt q hh
        rw [if_neg (by omega)]
        exact h.spans_pos q (by rw [hps]; exact List.mem_append.mpr (Or.inl hh))
      · rcases List.mem_cons.mp hh with rfl | hh2
        · rw [if_pos rfl, hrs]
          show 0 < Span.len ⟨(t.get_piece rp).span.off1
            + (off2 - (sumLens t A + sumLens t M)), (t.get_piece rp).span.off2⟩
          simp only [Span.len]
          omega
        · have := hD_lt q hh2
          rw [if_neg (by omega)]
          exact h.spans_pos q (by rw [hps]; exact List.mem_append.mpr (Or.inr
            (List.mem_append.mpr (Or.inr (List.mem_cons_of_mem _ hh2)))))
    · rw [hlenF, sumLens_append]
      have e2 : sumLens tF (t.pieces.length :: D)
          = (tF.get_piece t.pieces.length).span.len + sumLens tF D := rfl
      rw [e2]
      have eA : sumLens tF A = sumLens t A :=
        sumLens_congr t tF A (fun q hq => by
          have := hA_lt q hq
          rw [hspanF q, if_neg (by omega)])
      have eD : sumLens tF D = sumLens t D :=
        sumLens_congr t tF D (fun q hq => by
          have := hD_lt q hq
          rw [hspanF q, if_neg (by omega)])
      have ef0 : (tF.get_piece t.pieces.length).span.len
          = (t.get_piece rp).span.len
            - (off2 - (sumLens t A + sumLens t M)) := by
        rw [hspanF, if_pos rfl, hrs]
        simp only [Span.len]
        omega
      have hle : t.len = sumLens t A + (sumLens t M
          + ((t.get_piece rp).span.len + sumLens t D)) := by
        rw [h.len_eq, hps, sumLens_append, sumLens_append]
        have e3 : sumLens t (rp :: D)
            = (t.get_piece rp).span.len + sumLens t D := rfl
        rw [e3]
      rw [eA, eD, ef0]
      omega
  refine ⟨hwf, ?_, hlenF⟩
  rw [to_vec_eq tF _ hwf, to_vec_eq t ps h, hps]
  have hcA : A.map (contentOf tF) = A.map (contentOf t) :=
    List.map_congr_left (fun q hq => by
      have := hA_lt q hq
      rw [contentOf, contentOf, hspanF q, if_neg (by omega), hbufF])
  have hcD : D.map (contentOf tF) = D.map (contentOf t) :=
    List.map_congr_left (fun q hq => by
      have := hD_lt q hq
      rw [contentOf, contentOf, hspanF q, if_neg (by omega), hbufF])
  rcases hspok with ⟨hs1, hs2⟩
  have hcf0 : contentOf tF t.pieces.length
      = (contentOf t rp).drop (off2 - (sumLens t A + sumLens t M)) := by
    rw [contentOf, hspanF _, if_pos rfl, hbufF, hrs, contentOf]
    exact get_drop_of_span t.buffer (t.get_piece rp).span _
  have hlenA : ((A.map (contentOf t)).flatten).length = sumLens t A :=
    flatten_map_content_length t A (fun q hq =>
      h.spans_ok q (by rw [hps]; exact List.mem_append.mpr (Or.inl hq)))
  have hlenM : ((M.map (contentOf t)).flatten).length = sumLens t M :=
    flatten_map_content_length t M (fun q hq =>
      h.spans_ok q (by rw [hps]; exact List.mem_append.mpr (Or.inr
        (List.mem_append.mpr (Or.inl hq)))))
  have hlenCp : (contentOf t rp).length = (t.get_piece rp).span.len := by
    rw [contentOf]
    exact get_length_of_spanOk t.buffer _ ⟨hs1, hs2⟩
  rw [List.map_append, List.flatten_append, List.map_cons, List.flatten_cons,
    hcA, hcD, hcf0, List.map_append, List.flatten_append, List.map_append,
    List.flatten_append, List.map_cons, List.flatten_cons]
  rw [List.take_left' (by rw [hlenA, hoff1])]
  have hrearr : ((A.map (contentOf t)).flatten ++ ((M.map (contentOf t)).flatten
      ++ (contentOf t rp ++ (D.map (contentOf t)).flatten)))
      = (((A.map (contentOf t)).flatten ++ (M.map (contentOf t)).flatten)
        ++ (contentOf t rp ++ (D.map (contentOf t)).flatten)) := by
    simp only [List.append_assoc]
  conv_rhs => rw [hrearr]
  have hoff2split : off2 = ((A.map (contentOf t)).flatten
      ++ (M.map (contentOf t)).flatten).length
      + (off2 - (sumLens t A + sumLens t M)) := by
    simp only [List.length_append, hlenA, hlenM]
    omega
  conv_rhs => rw [hoff2split]
  rw [drop_append_add,
    List.drop_append_of_le_length (by rw [hlenCp]; omega)]

theorem delete_ss_distinct (t : Text) (ps A M D : List Nat)
    (lp rp off1 off2 : Nat)
    (h : WFc t ps) (h12 : off1 < off2)
    (hps : ps = A ++ lp :: (M ++ rp :: D))
    (hlt1 : sumLens t A < off1)
    (hlt2 : off1 < sumLens t A + (t.get_piece lp).span.len)
    (hlt3 : sumLens t A + (t.get_piece lp).span.len + sumLens t M < off2)
    (hlt4 : off2 < sumLens t A + (t.get_piece lp).span.len + sumLens t M
      + (t.get_piece rp).span.len)
    (hfind1 : t.find_piece off1 = (sumLens t A, lp))
    (hfind2 : t.find_piece off2
      = (sumLens t A + (t.get_piece lp).span.len + sumLens t M, rp)) :
    WFc (t.delete off1 off2)
      (A ++ t.pieces.length :: (t.pieces.length + 1) :: D) ∧
    (t.delete off1 off2).to_vec = t.to_vec.take off1 ++ t.to_vec.drop off2 ∧
    (t.delete off1 off2).len = t.len - (off2 - off1) := by
  have hl := h.links
  rw [hps] at hl
  have hsegAp := (seg_append t SENTINEL SENTINEL lp A (M ++ rp :: D)).mp hl
  have hsegA : seg t SENTINEL A lp := hsegAp.1
  have hsegMRD : seg t lp (M ++ rp :: D) SENTINEL := hsegAp.2
  have hprevv : (t.get_piece lp).prev = A.getLastD SENTINEL :=
    seg_last_prev t A SENTINEL lp hsegA
  have hsegMr := (seg_append t lp SENTINEL rp M D).mp hsegMRD
  have hsegD : seg t rp D SENTINEL := hsegMr.2
  have hnextv : (t.get_piece rp).next = D.headD SENTINEL :=
    seg_head_next t D rp SENTINEL hsegD
  have hA_lt : ∀ q ∈ A, q < t.pieces.length := fun q hq =>
    h.mem_lt q (by rw [hps]; exact List.mem_append.mpr (Or.inl hq))
  have hD_lt : ∀ q ∈ D, q < t.pieces.length := fun q hq =>
    h.mem_lt q (by rw [hps]; exact List.mem_append.mpr (Or.inr
      (List.mem_cons_of_mem _ (List.mem_append.mpr (Or.inr
        (List.mem_cons_of_mem _ hq))))))
  have hA_ne : ∀ q ∈ A, q ≠ SENTINEL := fun q hq =>
    h.mem_ne q (by rw [hps]; exact List.mem_append.mpr (Or.inl hq))
  have hD_ne : ∀ q ∈ D, q ≠ SENTINEL := fun q hq =>
    h.mem_ne q (by rw [hps]; exact List.mem_append.mpr (Or.inr
      (List.mem_cons_of_mem _ (List.mem_append.mpr (Or.inr
        (List.mem_cons_of_mem _ hq))))))
  have hlp_lt : lp < t.pieces.length :=
    h.mem_lt lp (by rw [hps]; exact List.mem_append.mpr (Or.inr (by simp)))
  have hrp_mem : rp ∈ ps := by
    rw [hps]
    exact List.mem_append.mpr (Or.inr (List.mem_cons_of_mem _
      (List.mem_append.mpr (Or.inr (by simp)))))
  have hrp_lt : rp < t.pieces.length := h.mem_lt rp hrp_mem
  have hrp_ne : rp ≠ SENTINEL := h.mem_ne rp hrp_mem
  have hnd : (A ++ lp :: (M ++ rp :: D)).Nodup := by
    rw [← hps]; exact h.nodup
  have hndA : A.Nodup := (List.nodup_append.mp hnd).1
  have hndMRD : (M ++ rp :: D).Nodup :=
    (List.nodup_cons.mp ((List.nodup_append.mp hnd).2.1)).2
  have hndrpD : (rp :: D).Nodup := (List.nodup_append.mp hndMRD).2.1
  have hndD : D.Nodup := (List.nodup_cons.mp hndrpD).2
  have hdisjA : List.Disjoint A (lp :: (M ++ rp :: D)) :=
    (List.nodup_append.mp hnd).2.2
  have hdisjAD : List.Disjoint A D := fun a ha hb =>
    hdisjA ha (List.mem_cons_of_mem _ (List.mem_append.mpr (Or.inr
      (List.mem_cons_of_mem _ hb))))
  have hvlt : A.getLastD SENTINEL < t.pieces.length := by
    rcases List.mem_cons.mp (getLastD_mem_cons A SENTINEL) with h0 | hA2
    · rw [h0]; exact h.arena_pos
    · exact hA_lt _ hA2
  have hplt : D.headD SENTINEL < t.pieces.length := by
    rcases List.mem_cons.mp (headD_mem_cons D SENTINEL) with h0 | hB2
    · rw [h0]; exact h.arena_pos
    · exact hD_lt _ hB2
  have hrp_ne_la : rp ≠ A.getLastD SENTINEL := by
    rcases List.mem_cons.mp (getLastD_mem_cons A SENTINEL) with hh | hh
    · rw [hh]; exact hrp_ne
    · intro heq
      exact hdisjA (heq ▸ hh) (List.mem_cons_of_mem _
        (List.mem_append.mpr (Or.inr (by simp))))
  have hspokl := h.spans_ok lp
    (by rw [hps]; exact List.mem_append.mpr (Or.inr (by simp)))
  have hspokr := h.spans_ok rp hrp_mem
  obtain ⟨hs1l, hs2l⟩ := hspokl
  obtain ⟨hs1r, hs2r⟩ := hspokr
  have hLl : (t.get_piece lp).span.len
    = (t.get_piece lp).span.off2 - (t.get_piece lp).span.off1 := rfl
  have hLr : (t.get_piece rp).span.len
    = (t.get_piece rp).span.off2 - (t.get_piece rp).span.off1 := rfl
  have hsplitl : (t.get_piece lp).span.split (off1 - sumLens t A)
      = some (⟨(t.get_piece lp).span.off1,
          (t.get_piece lp).span.off1 + (off1 - sumLens t A)⟩,
        ⟨(t.get_piece lp).span.off1 + (off1 - sumLens t A),
          (t.get_piece lp).span.off2⟩) :=
    Span.split_some _ _ (by omega) (by omega)
  have hsplitr : (t.get_piece rp).span.split
      (off2 - (sumLens t A + (t.get_piece lp).span.len + sumLens t M))
      = some (⟨(t.get_piece rp).span.off1,
          (t.get_piece rp).span.off1 + (off2 - (sumLens t A
            + (t.get_piece lp).span.len + sumLens t M))⟩,
        ⟨(t.get_piece rp).span.off1 + (off2 - (sumLens t A
            + (t.get_piece lp).span.len + sumLens t M)),
          (t.get_piece rp).span.off2⟩) :=
    Span.split_some _ _ (by omega) (by omega)
  have hres : t.delete off1 off2 =
      ({ ((((t.add_piece ⟨(t.get_piece lp).span.off1, (t.get_piece lp).span.off1 + (off1 - sumLens t A)⟩).1.link (t.get_piece lp).prev t.pieces.length).add_piece ⟨(t.get_piece rp).span.off1 + (off2 - (sumLens t A + (t.get_piece lp).span.len + sumLens t M)), (t.get_piece rp).span.off2⟩).1.link ((t.add_piece ⟨(t.get_piece lp).span.off1, (t.get_piece lp).span.off1 + (off1 - sumLens t A)⟩).1.link (t.get_piece lp).prev t.pieces.length).pieces.length (((t.add_piece ⟨(t.get_piece lp).span.off1, (t.get_piece lp).span.off1 + (off1 - sumLens t A)⟩).1.link (t.get_piece lp).prev t.pieces.length).get_piece rp).next) with len := t.len - (off2 - off1) } : Text).link t.pieces.length ((t.add_piece ⟨(t.get_piece lp).span.off1, (t.get_piece lp).span.off1 + (off1 - sumLens t A)⟩).1.link (t.get_piece lp).prev t.pieces.length).pieces.length := by
    simp only [Text.delete, if_neg (show ¬ off2 ≤ off1 by omega), hfind1,
      hfind2, hsplitl, hsplitr]
    rfl
  rw [hres, hprevv]
  set ls : Span := ⟨(t.get_piece lp).span.off1,
    (t.get_piece lp).span.off1 + (off1 - sumLens t A)⟩ with hls
  set rs : Span := ⟨(t.get_piece rp).span.off1 + (off2 - (sumLens t A
      + (t.get_piece lp).span.len + sumLens t M)),
    (t.get_piece rp).span.off2⟩ with hrs
  set t4 : Text := (t.add_piece ls).1 with ht4
  set t1 : Text := t4.link (A.getLastD SENTINEL) t.pieces.length with ht1
  have ht4len : t4.pieces.length = t.pieces.length + 1 := by
    rw [ht4, add_piece_pieces_length]
  have ht4get_old : ∀ q, q ≠ t.pieces.length →
      t4.get_piece q = t.get_piece q := by
    intro q hq
    rw [ht4]
    by_cases hlt : q < t.pieces.length
    · exact get_piece_add_piece_old t ls q hlt
    · rw [get_piece_default _ _ (by rw [add_piece_pieces_length]; omega),
        get_piece_default t q (by omega)]
  have ht4get_new : t4.get_piece t.pieces.length
      = ⟨ls, SENTINEL, SENTINEL⟩ := by
    rw [ht4]
    exact get_piece_add_piece_new t ls
  have ht1len : t1.pieces.length = t.pieces.length + 1 := by
    rw [ht1, link_pieces_length, ht4len]
  have hnext_rp1 : (t1.get_piece rp).next = D.headD SENTINEL := by
    rw [ht1, get_piece_link_next _ _ _ _ (by rw [ht4len]; have := hvlt; omega),
      if_neg hrp_ne_la, ht4get_old rp (by have := hrp_lt; omega), hnextv]
  rw [ht1len, hnext_rp1]
  set t5 : Text := (t1.add_piece rs).1 with ht5
  have ht5len : t5.pieces.length = t.pieces.length + 2 := by
    rw [ht5, add_piece_pieces_length, ht1len]
  have ht5buf : t5.buffer = t.buffer := by
    rw [ht5, add_piece_buffer, ht1, link_buffer, ht4, add_piece_buffer]
  have ht5get_old : ∀ q, q ≠ t.pieces.length + 1 →
      t5.get_piece q = t1.get_piece q := by
    intro q hq
    rw [ht5]
    by_cases hlt : q < t1.pieces.length
    · exact get_piece_add_piece_old t1 rs q hlt
    · rw [ht1len] at hlt
      rw [get_piece_default _ q
          (by rw [add_piece_pieces_length, ht1len]; omega),
        get_piece_default t1 q (by rw [ht1len]; omega)]
  have ht5get_new : t5.get_piece (t.pieces.length + 1)
      = ⟨rs, SENTINEL, SENTINEL⟩ := by
    have e := get_piece_add_piece_new t1 rs
    rw [ht1len] at e
    rw [ht5]
    exact e
  set tF : Text := ({ t5.link (t.pieces.length + 1) (D.headD SENTINEL) with len := t.len - (off2 - off1) } : Text).link t.pieces.length (t.pieces.length + 1) with htF
  have hwlen : tF.pieces.length = t.pieces.length + 2 := by
    rw [htF, link_pieces_length]
    show (t5.link (t.pieces.length + 1) (D.headD SENTINEL)).pieces.length = _
    rw [link_pieces_length, ht5len]
  have hbufF : tF.buffer = t.buffer := by
    rw [htF, link_buffer]
    show (t5.link (t.pieces.length + 1) (D.headD SENTINEL)).buffer = t.buffer
    rw [link_buffer, ht5buf]
  have hlenF : tF.len = t.len - (off2 - off1) := by
    rw [htF, link_len]
  have hspanF : ∀ q, (tF.get_piece q).span =
      if q = t.pieces.length then ls
      else if q = t.pieces.length + 1 then rs
      else (t.get_piece q).span := by
    intro q
    rw [htF, get_piece_link_span]
    show ((t5.link (t.pieces.length + 1) (D.headD SENTINEL)).get_piece q).span
      = if q = t.pieces.length then ls
        else if q = t.pieces.length + 1 then rs
        else (t.get_piece q).span
    rw [get_piece_link_span]
    by_cases h2 : q = t.pieces.length + 1
    · rw [if_neg (by omega), if_pos h2, h2, ht5get_new]
    · rw [ht5get_old q h2]
      by_cases h1 : q = t.pieces.length
      · rw [if_pos h1, ht1, get_piece_link_span, h1, ht4get_new]
      · rw [if_neg h1, if_neg h2, ht1, get_piece_link_span, ht4get_old q h1]
  have hnextF : ∀ q, (tF.get_piece q).next =
      if q = t.pieces.length then t.pieces.length + 1
      else if q = t.pieces.length + 1 then D.headD SENTINEL
      else if q = A.getLastD SENTINEL then t.pieces.length
      else (t.get_piece q).next := by
    intro q
    rw [htF, get_piece_link_next _ _ _ _
      (show t.pieces.length < ({ t5.link (t.pieces.length + 1) (D.headD SENTINEL) with len := t.len - (off2 - off1) } : Text).pieces.length from by
        show t.pieces.length
          < (t5.link (t.pieces.length + 1) (D.headD SENTINEL)).pieces.length
        rw [link_pieces_length, ht5len]; omega)]
    by_cases h1 : q = t.pieces.length
    · rw [if_pos h1, if_pos h1]
    · rw [if_neg h1, if_neg h1]
      show ((t5.link (t.pieces.length + 1) (D.headD SENTINEL)).get_piece q).next
        = if q = t.pieces.length + 1 then D.headD SENTINEL
          else if q = A.getLastD SENTINEL then t.pieces.length
          else (t.get_piece q).next
      rw [get_piece_link_next _ _ _ _ (by rw [ht5len]; omega)]
      by_cases h2 : q = t.pieces.length + 1
      · rw [if_pos h2, if_pos h2]
      · rw [if_neg h2, if_neg h2, ht5get_old q h2, ht1,
          get_piece_link_next _ _ _ _ (by rw [ht4len]; have := hvlt; omega)]
        by_cases h3 : q = A.getLastD SENTINEL
        · rw [if_pos h3, if_pos h3]
        · rw [if_neg h3, if_neg h3, ht4get_old q h1]
  have hprevF : ∀ q, (tF.get_piece q).prev =
      if q = t.pieces.length + 1 then t.pieces.length
      else if q = D.headD SENTINEL then t.pieces.length + 1
      else if q = t.pieces.length then A.getLastD SENTINEL
      else (t.get_piece q).prev := by
    intro q
    rw [htF, get_piece_link_prev _ _ _ _
      (show t.pieces.length + 1 < ({ t5.link (t.pieces.length + 1) (D.headD SENTINEL) with len := t.len - (off2 - off1) } : Text).pieces.length from by
        show t.pieces.length + 1
          < (t5.link (t.pieces.length + 1) (D.headD SENTINEL)).pieces.length
        rw [link_pieces_length, ht5len]; omega)]
    by_cases h1 : q = t.pieces.length + 1
    · rw [if_pos h1, if_pos h1]
    · rw [if_neg h1, if_neg h1]
      show ((t5.link (t.pieces.length + 1) (D.headD SENTINEL)).get_piece q).prev
        = if q = D.headD SENTINEL then t.pieces.length + 1
          else if q = t.pieces.length then A.getLastD SENTINEL
          else (t.get_piece q).prev
      rw [get_piece_link_prev _ _ _ _ (by rw [ht5len]; have := hplt; omega)]
      by_cases h2 : q = D.headD SENTINEL
      · rw [if_pos h2, if_pos h2]
      · rw [if_neg h2, if_neg h2, ht5get_old q h1, ht1,
          get_piece_link_prev _ _ _ _ (by rw [ht4len]; omega)]
        by_cases h3 : q = t.pieces.length
        · rw [if_pos h3, if_pos h3]
        · rw [if_neg h3, if_neg h3, ht4get_old q h3]
  have hwf : WFc tF (A ++ t.pieces.length :: (t.pieces.length + 1) :: D) := by
    refine ⟨?_, ?_, ?_, ?_, ?_, ?_, ?_, ?_, ?_⟩
    · rw [hwlen]; omega
    · refine (seg_append tF SENTINEL SENTINEL t.pieces.length A
        ((t.pieces.length + 1) :: D)).mpr ⟨?_, ?_⟩
      · rcases List.eq_nil_or_concat A with hAnil | ⟨A2, la, hAeq⟩
        · subst hAnil
          refine And.intro ?_ ?_
          · rw [hnextF SENTINEL,
              if_neg (by have := h.arena_pos; simp only [SENTINEL]; omega),
              if_neg (by have := h.arena_pos; simp only [SENTINEL]; omega),
              if_pos (by simp [List.getLastD])]
          · rw [hprevF t.pieces.length, if_neg (by omega),
              if_neg (by have := hplt; omega), if_pos rfl]
            simp [List.getLastD]
        · rw [List.concat_eq_append] at hAeq
          subst hAeq
          have hla_mem : la ∈ A2 ++ [la] := by simp
          have hla_ne : la ≠ SENTINEL := hA_ne la hla_mem
          have hla_lt : la < t.pieces.length := hA_lt la hla_mem
          have hla_last : (A2 ++ [la]).getLastD SENTINEL = la :=
            List.getLastD_concat _ _ _
          have hla_nmem : la ∉ A2 := by
            rcases List.nodup_append.mp hndA with ⟨_, _, dA⟩
            intro hmem
            exact dA hmem (by simp)
          have hsegA2 := (seg_append t SENTINEL lp la A2 []).mp hsegA
          refine (seg_append tF SENTINEL t.pieces.length la A2 []).mpr
            ⟨?_, And.intro ?_ ?_⟩
          · refine seg_congr t tF A2 SENTINEL la ?_ ?_ hsegA2.1
            · intro x hx
              have hx_ne_la : x ≠ la := by
                rcases List.mem_cons.mp hx with rfl | hx2
                · exact fun hh => hla_ne hh.symm
                · intro hh; exact hla_nmem (hh ▸ hx2)
              have hx_lt : x < t.pieces.length := by
                rcases List.mem_cons.mp hx with rfl | hx2
                · show SENTINEL < _
                  have := h.arena_pos
                  simp only [SENTINEL]
                  omega
                · exact hA_lt x (List.mem_append.mpr (Or.inl hx2))
              rw [hnextF x, hla_last, if_neg (by omega), if_neg (by omega),
                if_neg hx_ne_la]
            · intro x hx
              have hxA : x ∈ A2 ++ [la] := by
                rcases List.mem_append.mp hx with hh | hh
                · exact List.mem_append.mpr (Or.inl hh)
                · have hxla : x = la := by simpa using hh
                  rw [hxla]; exact hla_mem
              have hx_lt : x < t.pieces.length := hA_lt x hxA
              have hx_ne : x ≠ D.headD SENTINEL := by
                rcases List.mem_cons.mp (headD_mem_cons D SENTINEL)
                  with hh | hh
                · rw [hh]; exact hA_ne x hxA
                · intro heq; exact hdisjAD hxA (heq ▸ hh)
              rw [hprevF x, if_neg (by omega), if_neg hx_ne,
                if_neg (by omega)]
          · rw [hnextF la, hla_last, if_neg (by omega), if_neg (by omega),
              if_pos rfl]
          · rw [hprevF t.pieces.length, if_neg (by omega),
              if_neg (by have := hplt; omega), if_pos rfl, hla_last]
      · refine And.intro ?_ (And.intro ?_ ?_)
        · rw [hnextF t.pieces.length, if_pos rfl]
        · rw [hprevF (t.pieces.length + 1), if_pos rfl]
        · cases D with
          | nil =>
            refine And.intro ?_ ?_
            · rw [hnextF (t.pieces.length + 1), if_neg (by omega), if_pos rfl]
              simp
            · rw [hprevF SENTINEL,
                if_neg (by have := h.arena_pos; simp only [SENTINEL]; omega),
                if_pos (by simp)]
          | cons d D2 =>
            have hd_mem : d ∈ d :: D2 := by simp
            have hd_lt : d < t.pieces.length := hD_lt d hd_mem
            have hd_ne : d ≠ SENTINEL := hD_ne d hd_mem
            have hhead : (d :: D2).headD SENTINEL = d := rfl
            refine And.intro ?_ (And.intro ?_ ?_)
            · rw [hnextF (t.pieces.length + 1), if_neg (by omega), if_pos rfl,
                hhead]
            · rw [hprevF d, if_neg (by omega), hhead, if_pos rfl]
            · have hsegD2 : seg t d D2 SENTINEL := hsegD.2.2
              refine seg_congr t tF D2 d SENTINEL ?_ ?_ hsegD2
              · intro y hy
                have hyD : y ∈ d :: D2 := hy
                have hy_lt : y < t.pieces.length := hD_lt y hyD
                have hy_ne_last : y ≠ A.getLastD SENTINEL := by
                  rcases List.mem_cons.mp (getLastD_mem_cons A SENTINEL)
                    with hh | hh
                  · rw [hh]; exact hD_ne y hyD
                  · intro heq; exact hdisjAD (heq ▸ hh) hyD
                rw [hnextF y, if_neg (by omega), if_neg (by omega),
                  if_neg hy_ne_last]
              · intro y hy
                have hy_lt : y < t.pieces.length := by
                  rcases List.mem_append.mp hy with hh | hh
                  · exact hD_lt y (List.mem_cons_of_mem _ hh)
                  · have hy0 : y = SENTINEL := by simpa using hh
                    rw [hy0]
                    show SENTINEL < _
                    have := h.arena_pos
                    simp only [SENTINEL]
                    omega
                have hy_ne_d : y ≠ d := by
                  rcases List.mem_append.mp hy with hh | hh
                  · intro heq
                    exact (List.nodup_cons.mp hndD).1 (heq ▸ hh)
                  · have hy0 : y = SENTINEL := by simpa using hh
                    rw [hy0]; exact fun heq => hd_ne heq.symm
                rw [hprevF y, if_neg (by omega), hhead, if_neg hy_ne_d,
                  if_neg (by omega)]
    · intro q hq
      rw [hwlen]
      rcases List.mem_append.mp hq with hh | hh
      · have := hA_lt q hh; omega
      · rcases List.mem_cons.mp hh with rfl | hh2
        · omega
        · rcases List.mem_cons.mp hh2 with rfl | hh3
          · omega
          · have := hD_lt q hh3; omega
    · intro q hq
      rcases List.mem_append.mp hq with hh | hh
      · exact hA_ne q hh
      · rcases List.mem_cons.mp hh with rfl | hh2
        · have := h.arena_pos; simp only [SENTINEL]; omega
        · rcases List.mem_cons.mp hh2 with rfl | hh3
          · have := h.arena_pos; simp only [SENTINEL]; omega
          · exact hD_ne q hh3
    · have hstep : (A ++ (t.pieces.length + 1) :: D).Nodup := by
        refine nodup_mid A D (t.pieces.length + 1)
          (List.nodup_append.mpr ⟨hndA, hndD, hdisjAD⟩) ?_ ?_
        · intro q hq; have := hA_lt q hq; omega
        · intro q hq; have := hD_lt q hq; omega
      refine nodup_mid A ((t.pieces.length + 1) :: D) t.pieces.length hstep
        ?_ ?_
      · intro q hq; have := hA_lt q hq; omega
      · intro q hq
        rcases List.mem_cons.mp hq with rfl | hh
        · omega
        · have := hD_lt q hh; omega
    · rw [hwlen]
      have hc := h.card
      have hlen2 : ps.length = A.length + (1 + (M.length + (1 + D.length))) := by
        rw [hps]; simp only [List.length_append, List.length_cons]; omega
      simp only [List.length_append, List.length_cons]
      omega
    · intro q hq
      rw [hspanF q, hbufF]
      rcases List.mem_append.mp hq with hh | hh
      · have := hA_lt q hh
        rw [if_neg (by omega), if_neg (by omega)]
        exact h.spans_ok q (by rw [hps]; exact List.mem_append.mpr (Or.inl hh))
      · rcases List.mem_cons.mp hh with rfl | hh2
        · rw [if_pos rfl, hls]
          refine ⟨?_, ?_⟩
          · show (t.get_piece lp).span.off1
              ≤ (t.get_piece lp).span.off1 + (off1 - sumLens t A)
            omega
          · show (t.get_piece lp).span.off1 + (off1 - sumLens t A)
              ≤ t.buffer.buf.length
            omega
        · rcases List.mem_cons.mp hh2 with rfl | hh3
          · rw [if_neg (by omega), if_pos rfl, hrs]
            refine ⟨?_, ?_⟩
            · show (t.get_piece rp).span.off1 + (off2 - (sumLens t A
                + (t.get_piece lp).span.len + sumLens t M))
                ≤ (t.get_piece rp).span.off2
              omega
            · show (t.get_piece rp).span.off2 ≤ t.buffer.buf.length
              omega
          · have := hD_lt q hh3
            rw [if_neg (by omega), if_neg (by omega)]
            exact h.spans_ok q (by rw [hps]; exact List.mem_append.mpr (Or.inr
              (List.mem_cons_of_mem _ (List.mem_append.mpr (Or.inr
                (List.mem_cons_of_mem _ hh3))))))
    · intro q hq
      rw [hspanF q]
      rcases List.mem_append.mp hq with hh | hh
      · have := hA_lt q hh
        rw [if_neg (by omega), if_neg (by omega)]
        exact h.spans_pos q (by rw [hps]; exact List.mem_append.mpr (Or.inl hh))
      · rcases List.mem_cons.mp hh with rfl | hh2
        · rw [if_pos rfl, hls]
          show 0 < Span.len ⟨(t.get_piece lp).span.off1,
            (t.get_piece lp).span.off1 + (off1 - sumLens t A)⟩
          simp only [Span.len]
          omega
        · rcases List.mem_cons.mp hh2 with rfl | hh3
          · rw [if_neg (by omega), if_pos rfl, hrs]
            show 0 < Span.len ⟨(t.get_piece rp).span.off1 + (off2
              - (sumLens t A + (t.get_piece lp).span.len + sumLens t M)),
              (t.get_piece rp).span.off2⟩
            simp only [Span.len]
            omega
          · have := hD_lt q hh3
            rw [if_neg (by omega), if_neg (by omega)]
            exact h.spans_pos q (by rw [hps]; exact List.mem_append.mpr (Or.inr
              (List.mem_cons_of_mem _ (List.mem_append.mpr (Or.inr
                (List.mem_cons_of_mem _ hh3))))))
    · rw [hlenF, sumLens_append]
      have e2 : sumLens tF (t.pieces.length :: (t.pieces.length + 1) :: D)
          = (tF.get_piece t.pieces.length).span.len
            + ((tF.get_piece (t.pieces.length + 1)).span.len
              + sumLens tF D) := rfl
      rw [e2]
      have eA : sumLens tF A = sumLens t A :=
        sumLens_congr t tF A (fun q hq => by
          have := hA_lt q hq
          rw [hspanF q, if_neg (by omega), if_neg (by omega)])
      have eD : sumLens tF D = sumLens t D :=
        sumLens_congr t tF D (fun q hq => by
          have := hD_lt q hq
          rw [hspanF q, if_neg (by omega), if_neg (by omega)])
      have ef0 : (tF.get_piece t.pieces.length).span.len
          = off1 - sumLens t A := by
        rw [hspanF, if_pos rfl, hls]
        simp only [Span.len]
        omega
      have ef1 : (tF.get_piece (t.pieces.length + 1)).span.len
          = (t.get_piece rp).span.len - (off2 - (sumLens t A
            + (t.get_piece lp).span.len + sumLens t M)) := by
        rw [hspanF, if_neg (by omega), if_pos rfl, hrs]
        simp only [Span.len]
        omega
      have hle : t.len = sumLens t A + ((t.get_piece lp).span.len
          + (sumLens t M + ((t.get_piece rp).span.len + sumLens t D))) := by
        rw [h.len_eq, hps, sumLens_append]
        have e3 : sumLens t (lp :: (M ++ rp :: D))
            = (t.get_piece lp).span.len + sumLens t (M ++ rp :: D) := rfl
        rw [e3, sumLens_append]
        have e4 : sumLens t (rp :: D)
            = (t.get_piece rp).span.len + sumLens t D := rfl
        rw [e4]
      rw [eA, eD, ef0, ef1]
      omega
  refine ⟨hwf, ?_, hlenF⟩
  rw [to_vec_eq tF _ hwf, to_vec_eq t ps h, hps]
  have hcA : A.map (contentOf tF) = A.map (contentOf t) :=
    List.map_congr_left (fun q hq => by
      have := hA_lt q hq
      rw [contentOf, contentOf, hspanF q, if_neg (by omega),
        if_neg (by omega), hbufF])
  have hcD : D.map (contentOf tF) = D.map (contentOf t) :=
    List.map_congr_left (fun q hq => by
      have := hD_lt q hq
      rw [contentOf, contentOf, hspanF q, if_neg (by omega),
        if_neg (by omega), hbufF])
  have hcf0 : contentOf tF t.pieces.length
      = (contentOf t lp).take (off1 - sumLens t A) := by
    rw [contentOf, hspanF _, if_pos rfl, hbufF, hls, contentOf]
    exact get_take_of_span t.buffer (t.get_piece lp).span _ (by omega)
  have hcf1 : contentOf tF (t.pieces.length + 1)
      = (contentOf t rp).drop (off2 - (sumLens t A
        + (t.get_piece lp).span.len + sumLens t M)) := by
    rw [contentOf, hspanF _, if_neg (by omega), if_pos rfl, hbufF, hrs,
      contentOf]
    exact get_drop_of_span t.buffer (t.get_piece rp).span _
  have hlenA : ((A.map (contentOf t)).flatten).length = sumLens t A :=
    flatten_map_content_length t A (fun q hq =>
      h.spans_ok q (by rw [hps]; exact List.mem_append.mpr (Or.inl hq)))
  have hlenM : ((M.map (contentOf t)).flatten).length = sumLens t M :=
    flatten_map_content_length t M (fun q hq =>
      h.spans_ok q (by rw [hps]; exact List.mem_append.mpr (Or.inr
        (List.mem_cons_of_mem _ (List.mem_append.mpr (Or.inl hq))))))
  have hlenClp : (contentOf t lp).length = (t.get_piece lp).span.len := by
    rw [contentOf]
    exact get_length_of_spanOk t.buffer _ ⟨hs1l, hs2l⟩
  have hlenCrp : (contentOf t rp).length = (t.get_piece rp).span.len := by
    rw [contentOf]
    exact get_length_of_spanOk t.buffer _ ⟨hs1r, hs2r⟩
  simp only [List.map_append, List.map_cons, List.flatten_append,
    List.flatten_cons]
  rw [hcA, hcD, hcf0, hcf1]
  have hoffsplit : off1 = (A.map (contentOf t)).flatten.length
      + (off1 - sumLens t A) := by
    rw [hlenA]; omega
  have hoff2split : off2 = ((A.map (contentOf t)).flatten
      ++ (contentOf t lp ++ (M.map (contentOf t)).flatten)).length
      + (off2 - (sumLens t A + (t.get_piece lp).span.len + sumLens t M)) := by
    simp only [List.length_append, hlenA, hlenM, hlenClp]
    omega
  conv_rhs => rw [hoffsplit]
  rw [take_append_add, List.take_append_of_le_length (by rw [hlenClp]; omega)]
  have hdroparr : ((A.map (contentOf t)).flatten ++ (contentOf t lp
      ++ ((M.map (contentOf t)).flatten ++ (contentOf t rp
        ++ (D.map (contentOf t)).flatten))))
      = (((A.map (contentOf t)).flatten ++ (contentOf t lp
        ++ (M.map (contentOf t)).flatten)) ++ (contentOf t rp
        ++ (D.map (contentOf t)).flatten)) := by
    simp only [List.append_assoc]
  conv_rhs => rw [hdroparr, hoff2split]
  rw [drop_append_add, List.drop_append_of_le_length (by rw [hlenCrp]; omega)]
  simp only [List.append_assoc]

theorem delete_ss_same (t : Text) (ps A D : List Nat) (lp off1 off2 : Nat)
    (h : WFc t ps) (h12 : off1 < off2)
    (hps : ps = A ++ lp :: D)
    (hlt1 : sumLens t A < off1)
    (hlt2 : off2 < sumLens t A + (t.get_piece lp).span.len)
    (hfind1 : t.find_piece off1 = (sumLens t A, lp))
    (hfind2 : t.find_piece off2 = (sumLens t A, lp)) :
    WFc (t.delete off1 off2)
      (A ++ t.pieces.length :: (t.pieces.length + 1) :: D) ∧
    (t.delete off1 off2).to_vec = t.to_vec.take off1 ++ t.to_vec.drop off2 ∧
    (t.delete off1 off2).len = t.len - (off2 - off1) := by
  have hl := h.links
  rw [hps] at hl
  have hsegAp := (seg_append t SENTINEL SENTINEL lp A D).mp hl
  have hsegA : seg t SENTINEL A lp := hsegAp.1
  have hsegD : seg t lp D SENTINEL := hsegAp.2
  have hprevv : (t.get_piece lp).prev = A.getLastD SENTINEL :=
    seg_last_prev t A SENTINEL lp hsegA
  have hnextv : (t.get_piece lp).next = D.headD SENTINEL :=
    seg_head_next t D lp SENTINEL hsegD
  have hA_lt : ∀ q ∈ A, q < t.pieces.length := fun q hq =>
    h.mem_lt q (by rw [hps]; exact List.mem_append.mpr (Or.inl hq))
  have hD_lt : ∀ q ∈ D, q < t.pieces.length := fun q hq =>
    h.mem_lt q (by rw [hps]; exact List.mem_append.mpr (Or.inr
      (List.mem_cons_of_mem _ hq)))
  have hA_ne : ∀ q ∈ A, q ≠ SENTINEL := fun q hq =>
    h.mem_ne q (by rw [hps]; exact List.mem_append.mpr (Or.inl hq))
  have hD_ne : ∀ q ∈ D, q ≠ SENTINEL := fun q hq =>
    h.mem_ne q (by rw [hps]; exact List.mem_append.mpr (Or.inr
      (List.mem_cons_of_mem _ hq)))
  have hlp_mem : lp ∈ ps := by
    rw [hps]; exact List.mem_append.mpr (Or.inr (by simp))
  have hlp_lt : lp < t.pieces.length := h.mem_lt lp hlp_mem
  have hlp_ne : lp ≠ SENTINEL := h.mem_ne lp hlp_mem
  have hnd : (A ++ lp :: D).Nodup := by rw [← hps]; exact h.nodup
  have hndA : A.Nodup := (List.nodup_append.mp hnd).1
  have hndD : D.Nodup :=
    (List.nodup_cons.mp ((List.nodup_append.mp hnd).2.1)).2
  have hdisjA : List.Disjoint A (lp :: D) := (List.nodup_append.mp hnd).2.2
  have hdisjAD : List.Disjoint A D := fun a ha hb =>
    hdisjA ha (List.mem_cons_of_mem _ hb)
  have hvlt : A.getLastD SENTINEL < t.pieces.length := by
    rcases List.mem_cons.mp (getLastD_mem_cons A SENTINEL) with h0 | hA2
    · rw [h0]; exact h.arena_pos
    · exact hA_lt _ hA2
  have hplt : D.headD SENTINEL < t.pieces.length := by
    rcases List.mem_cons.mp (headD_mem_cons D SENTINEL) with h0 | hB2
    · rw [h0]; exact h.arena_pos
    · exact hD_lt _ hB2
  have hlp_ne_la : lp ≠ A.getLastD SENTINEL := by
    rcases List.mem_cons.mp (getLastD_mem_cons A SENTINEL) with hh | hh
    · rw [hh]; exact hlp_ne
    · intro heq
      exact hdisjA (heq ▸ hh) (by simp)
  have hspokl := h.spans_ok lp hlp_mem
  obtain ⟨hs1l, hs2l⟩ := hspokl
  have hLl : (t.get_piece lp).span.len
    = (t.get_piece lp).span.off2 - (t.get_piece lp).span.off1 := rfl
  have hsplitl : (t.get_piece lp).span.split (off1 - sumLens t A)
      = some (⟨(t.get_piece lp).span.off1,
          (t.get_piece lp).span.off1 + (off1 - sumLens t A)⟩,
        ⟨(t.get_piece lp).span.off1 + (off1 - sumLens t A),
          (t.get_piece lp).span.off2⟩) :=
    Span.split_some _ _ (by omega) (by omega)
  have hsplitr : (t.get_piece lp).span.split (off2 - sumLens t A)
      = some (⟨(t.get_piece lp).span.off1,
          (t.get_piece lp).span.off1 + (off2 - sumLens t A)⟩,
        ⟨(t.get_piece lp).span.off1 + (off2 - sumLens t A),
          (t.get_piece lp).span.off2⟩) :=
    Span.split_some _ _ (by omega) (by omega)
  have hres : t.delete off1 off2 =
      ({ ((((t.add_piece ⟨(t.get_piece lp).span.off1, (t.get_piece lp).span.off1 + (off1 - sumLens t A)⟩).1.link (t.get_piece lp).prev t.pieces.length).add_piece ⟨(t.get_piece lp).span.off1 + (off2 - sumLens t A), (t.get_piece lp).span.off2⟩).1.link ((t.add_piece ⟨(t.get_piece lp).span.off1, (t.get_piece lp).span.off1 + (off1 - sumLens t A)⟩).1.link (t.get_piece lp).prev t.pieces.length).pieces.length (((t.add_piece ⟨(t.get_piece lp).span.off1, (t.get_piece lp).span.off1 + (off1 - sumLens t A)⟩).1.link (t.get_piece lp).prev t.pieces.length).get_piece lp).next) with len := t.len - (off2 - off1) } : Text).link t.pieces.length ((t.add_piece ⟨(t.get_piece lp).span.off1, (t.get_piece lp).span.off1 + (off1 - sumLens t A)⟩).1.link (t.get_piece lp).prev t.pieces.length).pieces.length := by
    simp only [Text.delete, if_neg (show ¬ off2 ≤ off1 by omega), hfind1,
      hfind2, hsplitl, hsplitr]
    rfl
  rw [hres, hprevv]
  set ls : Span := ⟨(t.get_piece lp).span.off1,
    (t.get_piece lp).span.off1 + (off1 - sumLens t A)⟩ with hls
  set rs : Span := ⟨(t.get_piece lp).span.off1 + (off2 - sumLens t A),
    (t.get_piece lp).span.off2⟩ with hrs
  set t4 : Text := (t.add_piece ls).1 with ht4
  set t1 : Text := t4.link (A.getLastD SENTINEL) t.pieces.length with ht1
  have ht4len : t4.pieces.length = t.pieces.length + 1 := by
    rw [ht4, add_piece_pieces_length]
  have ht4get_old : ∀ q, q ≠ t.pieces.length →
      t4.get_piece q = t.get_piece q := by
    intro q hq
    rw [ht4]
    by_cases hlt : q < t.pieces.length
    · exact get_piece_add_piece_old t ls q hlt
    · rw [get_piece_default _ _ (by rw [add_piece_pieces_length]; omega),
        get_piece_default t q (by omega)]
  have ht4get_new : t4.get_piece t.pieces.length
      = ⟨ls, SENTINEL, SENTINEL⟩ := by
    rw [ht4]
    exact get_piece_add_piece_new t ls
  have ht1len : t1.pieces.length = t.pieces.length + 1 := by
    rw [ht1, link_pieces_length, ht4len]
  have hnext_rp1 : (t1.get_piece lp).next = D.headD SENTINEL := by
    rw [ht1, get_piece_link_next _ _ _ _ (by rw [ht4len]; have := hvlt; omega),
      if_neg hlp_ne_la, ht4get_old lp (by have := hlp_lt; omega), hnextv]
  rw [ht1len, hnext_rp1]
  set t5 : Text := (t1.add_piece rs).1 with ht5
  have ht5len : t5.pieces.length = t.pieces.length + 2 := by
    rw [ht5, add_piece_pieces_length, ht1len]
  have ht5buf : t5.buffer = t.buffer := by
    rw [ht5, add_piece_buffer, ht1, link_buffer, ht4, add_piece_buffer]
  have ht5get_old : ∀ q, q ≠ t.pieces.length + 1 →
      t5.get_piece q = t1.get_piece q := by
    intro q hq
    rw [ht5]
    by_cases hlt : q < t1.pieces.length
    · exact get_piece_add_piece_old t1 rs q hlt
    · rw [ht1len] at hlt
      rw [get_piece_default _ q
          (by rw [add_piece_pieces_length, ht1len]; omega),
        get_piece_default t1 q (by rw [ht1len]; omega)]
  have ht5get_new : t5.get_piece (t.pieces.length + 1)
      = ⟨rs, SENTINEL, SENTINEL⟩ := by
    have e := get_piece_add_piece_new t1 rs
    rw [ht1len] at e
    rw [ht5]
    exact e
  set tF : Text := ({ t5.link (t.pieces.length + 1) (D.headD SENTINEL) with len := t.len - (off2 - off1) } : Text).link t.pieces.length (t.pieces.length + 1) with htF
  have hwlen : tF.pieces.length = t.pieces.length + 2 := by
    rw [htF, link_pieces_length]
    show (t5.link (t.pieces.length + 1) (D.headD SENTINEL)).pieces.length = _
    rw [link_pieces_length, ht5len]
  have hbufF : tF.buffer = t.buffer := by
    rw [htF, link_buffer]
    show (t5.link (t.pieces.length + 1) (D.headD SENTINEL)).buffer = t.buffer
    rw [link_buffer, ht5buf]
  have hlenF : tF.len = t.len - (off2 - off1) := by
    rw [htF, link_len]
  have hspanF : ∀ q, (tF.get_piece q).span =
      if q = t.pieces.length then ls
      else if q = t.pieces.length + 1 then rs
      else (t.get_piece q).span := by
    intro q
    rw [htF, get_piece_link_span]
    show ((t5.link (t.pieces.length + 1) (D.headD SENTINEL)).get_piece q).span
      = if q = t.pieces.length then ls
        else if q = t.pieces.length + 1 then rs
        else (t.get_piece q).span
    rw [get_piece_link_span]
    by_cases h2 : q = t.pieces.length + 1
    · rw [if_neg (by omega), if_pos h2, h2, ht5get_new]
    · rw [ht5get_old q h2]
      by_cases h1 : q = t.pieces.length
      · rw [if_pos h1, ht1, get_piece_link_span, h1, ht4get_new]
      · rw [if_neg h1, if_neg h2, ht1, get_piece_link_span, ht4get_old q h1]
  have hnextF : ∀ q, (tF.get_piece q).next =
      if q = t.pieces.length then t.pieces.length + 1
      else if q = t.pieces.length + 1 then D.headD SENTINEL
      else if q = A.getLastD SENTINEL then t.pieces.length
      else (t.get_piece q).next := by
    intro q
    rw [htF, get_piece_link_next _ _ _ _
      (show t.pieces.length < ({ t5.link (t.pieces.length + 1) (D.headD SENTINEL) with len := t.len - (off2 - off1) } : Text).pieces.length from by
        show t.pieces.length
          < (t5.link (t.pieces.length + 1) (D.headD SENTINEL)).pieces.length
        rw [link_pieces_length, ht5len]; omega)]
    by_cases h1 : q = t.pieces.length
    · rw [if_pos h1, if_pos h1]
    · rw [if_neg h1, if_neg h1]
      show ((t5.link (t.pieces.length + 1) (D.headD SENTINEL)).get_piece q).next
        = if q = t.pieces.length + 1 then D.headD SENTINEL
          else if q = A.getLastD SENTINEL then t.pieces.length
          else (t.get_piece q).next
      rw [get_piece_link_next _ _ _ _ (by rw [ht5len]; omega)]
      by_cases h2 : q = t.pieces.length + 1
      · rw [if_pos h2, if_pos h2]
      · rw [if_neg h2, if_neg h2, ht5get_old q h2, ht1,
          get_piece_link_next _ _ _ _ (by rw [ht4len]; have := hvlt; omega)]
        by_cases h3 : q = A.getLastD SENTINEL
        · rw [if_pos h3, if_pos h3]
        · rw [if_neg h3, if_neg h3, ht4get_old q h1]
  have hprevF : ∀ q, (tF.get_piece q).prev =
      if q = t.pieces.length + 1 then t.pieces.length
      else if q = D.headD SENTINEL then t.pieces.length + 1
      else if q = t.pieces.length then A.getLastD SENTINEL
      else (t.get_piece q).prev := by
    intro q
    rw [htF, get_piece_link_prev _ _ _ _
      (show t.pieces.length + 1 < ({ t5.link (t.pieces.length + 1) (D.headD SENTINEL) with len := t.len - (off2 - off1) } : Text).pieces.length from by
        show t.pieces.length + 1
          < (t5.link (t.pieces.length + 1) (D.headD SENTINEL)).pieces.length
        rw [link_pieces_length, ht5len]; omega)]
    by_cases h1 : q = t.pieces.length + 1
    · rw [if_pos h1, if_pos h1]
    · rw [if_neg h1, if_neg h1]
      show ((t5.link (t.pieces.length + 1) (D.headD SENTINEL)).get_piece q).prev
        = if q = D.headD SENTINEL then t.pieces.length + 1
          else if q = t.pieces.length then A.getLastD SENTINEL
          else (t.get_piece q).prev
      rw [get_piece_link_prev _ _ _ _ (by rw [ht5len]; have := hplt; omega)]
      by_cases h2 : q = D.headD SENTINEL
      · rw [if_pos h2, if_pos h2]
      · rw [if_neg h2, if_neg h2, ht5get_old q h1, ht1,
          get_piece_link_prev _ _ _ _ (by rw [ht4len]; omega)]
        by_cases h3 : q = t.pieces.length
        · rw [if_pos h3, if_pos h3]
        · rw [if_neg h3, if_neg h3, ht4get_old q h3]
  have hwf : WFc tF (A ++ t.pieces.length :: (t.pieces.length + 1) :: D) := by
    refine ⟨?_, ?_, ?_, ?_, ?_, ?_, ?_, ?_, ?_⟩
    · rw [hwlen]; omega
    · refine (seg_append tF SENTINEL SENTINEL t.pieces.length A
        ((t.pieces.length + 1) :: D)).mpr ⟨?_, ?_⟩
      · rcases List.eq_nil_or_concat A with hAnil | ⟨A2, la, hAeq⟩
        · subst hAnil
          refine And.intro ?_ ?_
          · rw [hnextF SENTINEL,
              if_neg (by have := h.arena_pos; simp only [SENTINEL]; omega),
              if_neg (by have := h.arena_pos; simp only [SENTINEL]; omega),
              if_pos (by simp [List.getLastD])]
          · rw [hprevF t.pieces.length, if_neg (by omega),
              if_neg (by have := hplt; omega), if_pos rfl]
            simp [List.getLastD]
        · rw [List.concat_eq_append] at hAeq
          subst hAeq
          have hla_mem : la ∈ A2 ++ [la] := by simp
          have hla_ne : la ≠ SENTINEL := hA_ne la hla_mem
          have hla_lt : la < t.pieces.length := hA_lt la hla_mem
          have hla_last : (A2 ++ [la]).getLastD SENTINEL = la :=
            List.getLastD_concat _ _ _
          have hla_nmem : la ∉ A2 := by
            rcases List.nodup_append.mp hndA with ⟨_, _, dA⟩
            intro hmem
            exact dA hmem (by simp)
          have hsegA2 := (seg_append t SENTINEL lp la A2 []).mp hsegA
          refine (seg_append tF SENTINEL t.pieces.length la A2 []).mpr
            ⟨?_, And.intro ?_ ?_⟩
          · refine seg_congr t tF A2 SENTINEL la ?_ ?_ hsegA2.1
            · intro x hx
              have hx_ne_la : x ≠ la := by
                rcases List.mem_cons.mp hx with rfl | hx2
                · exact fun hh => hla_ne hh.symm
                · intro hh; exact hla_nmem (hh ▸ hx2)
              have hx_lt : x < t.pieces.length := by
                rcases List.mem_cons.mp hx with rfl | hx2
                · show SENTINEL < _
                  have := h.arena_pos
                  simp only [SENTINEL]
                  omega
                · exact hA_lt x (List.mem_append.mpr (Or.inl hx2))
              rw [hnextF x, hla_last, if_neg (by omega), if_neg (by omega),
                if_neg hx_ne_la]
            · intro x hx
              have hxA : x ∈ A2 ++ [la] := by
                rcases List.mem_append.mp hx with hh | hh
                · exact List.mem_append.mpr (Or.inl hh)
                · have hxla : x = la := by simpa using hh
                  rw [hxla]; exact hla_mem
              have hx_lt : x < t.pieces.length := hA_lt x hxA
              have hx_ne : x ≠ D.headD SENTINEL := by
                rcases List.mem_cons.mp (headD_mem_cons D SENTINEL)
                  with hh | hh
                · rw [hh]; exact hA_ne x hxA
                · intro heq; exact hdisjAD hxA (heq ▸ hh)
              rw [hprevF x, if_neg (by omega), if_neg hx_ne,
                if_neg (by omega)]
          · rw [hnextF la, hla_last, if_neg (by omega), if_neg (by omega),
              if_pos rfl]
          · rw [hprevF t.pieces.length, if_neg (by omega),
              if_neg (by have := hplt; omega), if_pos rfl, hla_last]
      · refine And.intro ?_ (And.intro ?_ ?_)
        · rw [hnextF t.pieces.length, if_pos rfl]
        · rw [hprevF (t.pieces.length + 1), if_pos rfl]
        · cases D with
          | nil =>
            refine And.intro ?_ ?_
            · rw [hnextF (t.pieces.length + 1), if_neg (by omega), if_pos rfl]
              simp
            · rw [hprevF SENTINEL,
                if_neg (by have := h.arena_pos; simp only [SENTINEL]; omega),
                if_pos (by simp)]
          | cons d D2 =>
            have hd_mem : d ∈ d :: D2 := by simp
            have hd_lt : d < t.pieces.length := hD_lt d hd_mem
            have hd_ne : d ≠ SENTINEL := hD_ne d hd_mem
            have hhead : (d :: D2).headD SENTINEL = d := rfl
            refine And.intro ?_ (And.intro ?_ ?_)
            · rw [hnextF (t.pieces.length + 1), if_neg (by omega), if_pos rfl,
                hhead]
            · rw [hprevF d, if_neg (by omega), hhead, if_pos rfl]
            · have hsegD2 : seg t d D2 SENTINEL := hsegD.2.2
              refine seg_congr t tF D2 d SENTINEL ?_ ?_ hsegD2
              · intro y hy
                have hyD : y ∈ d :: D2 := hy
                have hy_lt : y < t.pieces.length := hD_lt y hyD
                have hy_ne_last : y ≠ A.getLastD SENTINEL := by
                  rcases List.mem_cons.mp (getLastD_mem_cons A SENTINEL)
                    with hh | hh
                  · rw [hh]; exact hD_ne y hyD
                  · intro heq; exact hdisjAD (heq ▸ hh) hyD
                rw [hnextF y, if_neg (by omega), if_neg (by omega),
                  if_neg hy_ne_last]
              · intro y hy
                have hy_lt : y < t.pieces.length := by
                  rcases List.mem_append.mp hy with hh | hh
                  · exact hD_lt y (List.mem_cons_of_mem _ hh)
                  · have hy0 : y = SENTINEL := by simpa using hh
                    rw [hy0]
                    show SENTINEL < _
                    have := h.arena_pos
                    simp only [SENTINEL]
                    omega
                have hy_ne_d : y ≠ d := by
                  rcases List.mem_append.mp hy with hh | hh
                  · intro heq
                    exact (List.nodup_cons.mp hndD).1 (heq ▸ hh)
                  · have hy0 : y = SENTINEL := by simpa using hh
                    rw [hy0]; exact fun heq => hd_ne heq.symm
                rw [hprevF y, if_neg (by omega), hhead, if_neg hy_ne_d,
                  if_neg (by omega)]
    · intro q hq
      rw [hwlen]
      rcases List.mem_append.mp hq with hh | hh
      · have := hA_lt q hh; omega
      · rcases List.mem_cons.mp hh with rfl | hh2
        · omega
        · rcases List.mem_cons.mp hh2 with rfl | hh3
          · omega
          · have := hD_lt q hh3; omega
    · intro q hq
      rcases List.mem_append.mp hq with hh | hh
      · exact hA_ne q hh
      · rcases List.mem_cons.mp hh with rfl | hh2
        · have := h.arena_pos; simp only [SENTINEL]; omega
        · rcases List.mem_cons.mp hh2 with rfl | hh3
          · have := h.arena_pos; simp only [SENTINEL]; omega
          · exact hD_ne q hh3
    · have hstep : (A ++ (t.pieces.length + 1) :: D).Nodup := by
        refine nodup_mid A D (t.pieces.length + 1)
          (List.nodup_append.mpr ⟨hndA, hndD, hdisjAD⟩) ?_ ?_
        · intro q hq; have := hA_lt q hq; omega
        · intro q hq; have := hD_lt q hq; omega
      refine nodup_mid A ((t.pieces.length + 1) :: D) t.pieces.length hstep
        ?_ ?_
      · intro q hq; have := hA_lt q hq; omega
      · intro q hq
        rcases List.mem_cons.mp hq with rfl | hh
        · omega
        · have := hD_lt q hh; omega
    · rw [hwlen]
      have hc := h.card
      have hlen2 : ps.length = A.length + (1 + D.length) := by
        rw [hps]; simp only [List.length_append, List.length_cons]; omega
      simp only [List.length_append, List.length_cons]
      omega
    · intro q hq
      rw [hspanF q, hbufF]
      rcases List.mem_append.mp hq with hh | hh
      · have := hA_lt q hh
        rw [if_neg (by omega), if_neg (by omega)]
        exact h.spans_ok q (by rw [hps]; exact List.mem_append.mpr (Or.inl hh))
      · rcases List.mem_cons.mp hh with rfl | hh2
        · rw [if_pos rfl, hls]
          refine ⟨?_, ?_⟩
          · show (t.get_piece lp).span.off1
              ≤ (t.get_piece lp).span.off1 + (off1 - sumLens t A)
            omega
          · show (t.get_piece lp).span.off1 + (off1 - sumLens t A)
              ≤ t.buffer.buf.length
            omega
        · rcases List.mem_cons.mp hh2 with rfl | hh3
          · rw [if_neg (by omega), if_pos rfl, hrs]
            refine ⟨?_, ?_⟩
            · show (t.get_piece lp).span.off1 + (off2 - sumLens t A)
                ≤ (t.get_piece lp).span.off2
              omega
            · show (t.get_piece lp).span.off2 ≤ t.buffer.buf.length
              omega
          · have := hD_lt q hh3
            rw [if_neg (by omega), if_neg (by omega)]
            exact h.spans_ok q (by rw [hps]; exact List.mem_append.mpr (Or.inr (List.mem_cons_of_mem _ hh3)))
    · intro q hq
      rw [hspanF q]
      rcases List.mem_append.mp hq with hh | hh
      · have := hA_lt q hh
        rw [if_neg (by omega), if_neg (by omega)]
        exact h.spans_pos q (by rw [hps]; exact List.mem_append.mpr (Or.inl hh))
      · rcases List.mem_cons.mp hh with rfl | hh2
        · rw [if_pos rfl, hls]
          show 0 < Span.len ⟨(t.get_piece lp).span.off1,
            (t.get_piece lp).span.off1 + (off1 - sumLens t A)⟩
          simp only [Span.len]
          omega
        · rcases List.mem_cons.mp hh2 with rfl | hh3
          · rw [if_neg (by omega), if_pos rfl, hrs]
            show 0 < Span.len ⟨(t.get_piece lp).span.off1
              + (off2 - sumLens t A), (t.get_piece lp).span.off2⟩
            simp only [Span.len]
            omega
          · have := hD_lt q hh3
            rw [if_neg (by omega), if_neg (by omega)]
            exact h.spans_pos q (by rw [hps]; exact List.mem_append.mpr (Or.inr (List.mem_cons_of_mem _ hh3)))
    · rw [hlenF, sumLens_append]
      have e2 : sumLens tF (t.pieces.length :: (t.pieces.length + 1) :: D)
          = (tF.get_piece t.pieces.length).span.len
            + ((tF.get_piece (t.pieces.length + 1)).span.len
              + sumLens tF D) := rfl
      rw [e2]
      have eA : sumLens tF A = sumLens t A :=
        sumLens_congr t tF A (fun q hq => by
          have := hA_lt q hq
          rw [hspanF q, if_neg (by omega), if_neg (by omega)])
      have eD : sumLens tF D = sumLens t D :=
        sumLens_congr t tF D (fun q hq => by
          have := hD_lt q hq
          rw [hspanF q, if_neg (by omega), if_neg (by omega)])
      have ef0 : (tF.get_piece t.pieces.length).span.len
          = off1 - sumLens t A := by
        rw [hspanF, if_pos rfl, hls]
        simp only [Span.len]
        omega
      have ef1 : (tF.get_piece (t.pieces.length + 1)).span.len
          = (t.get_piece lp).span.len - (off2 - sumLens t A) := by
        rw [hspanF, if_neg (by omega), if_pos rfl, hrs]
        simp only [Span.len]
        omega
      have hle : t.len = sumLens t A
          + ((t.get_piece lp).span.len + sumLens t D) := by
        rw [h.len_eq, hps, sumLens_append]
        have e3 : sumLens t (lp :: D)
            = (t.get_piece lp).span.len + sumLens t D := rfl
        rw [e3]
      rw [eA, eD, ef0, ef1]
      omega
  refine ⟨hwf, ?_, hlenF⟩
  rw [to_vec_eq tF _ hwf, to_vec_eq t ps h, hps]
  have hcA : A.map (contentOf tF) = A.map (contentOf t) :=
    List.map_congr_left (fun q hq => by
      have := hA_lt q hq
      rw [contentOf, contentOf, hspanF q, if_neg (by omega),
        if_neg (by omega), hbufF])
  have hcD : D.map (contentOf tF) = D.map (contentOf t) :=
    List.map_congr_left (fun q hq => by
      have := hD_lt q hq
      rw [contentOf, contentOf, hspanF q, if_neg (by omega),
        if_neg (by omega), hbufF])
  have hcf0 : contentOf tF t.pieces.length
      = (contentOf t lp).take (off1 - sumLens t A) := by
    rw [contentOf, hspanF _, if_pos rfl, hbufF, hls, contentOf]
    exact get_take_of_span t.buffer (t.get_piece lp).span _ (by omega)
  have hcf1 : contentOf tF (t.pieces.length + 1)
      = (contentOf t lp).drop (off2 - sumLens t A) := by
    rw [contentOf, hspanF _, if_neg (by omega), if_pos rfl, hbufF, hrs,
      contentOf]
    exact get_drop_of_span t.buffer (t.get_piece lp).span _
  have hlenA : ((A.map (contentOf t)).flatten).length = sumLens t A :=
    flatten_map_content_length t A (fun q hq =>
      h.spans_ok q (by rw [hps]; exact List.mem_append.mpr (Or.inl hq)))
  have hlenClp : (contentOf t lp).length = (t.get_piece lp).span.len := by
    rw [contentOf]
    exact get_length_of_spanOk t.buffer _ ⟨hs1l, hs2l⟩
  simp only [List.map_append, List.map_cons, List.flatten_append,
    List.flatten_cons]
  rw [hcA, hcD, hcf0, hcf1]
  have hoffsplit : off1 = (A.map (contentOf t)).flatten.length
      + (off1 - sumLens t A) := by
    rw [hlenA]; omega
  have hoff2split : off2 = (A.map (contentOf t)).flatten.length
      + (off2 - sumLens t A) := by
    rw [hlenA]; omega
  conv_rhs => rw [hoffsplit]
  rw [take_append_add, List.take_append_of_le_length (by rw [hlenClp]; omega)]
  conv_rhs => rw [hoff2split]
  rw [drop_append_add, List.drop_append_of_le_length (by rw [hlenClp]; omega)]
  simp only [List.append_assoc]

theorem delete_sim (t : Text) (ps : List Nat) (h : WFc t ps) (off1 off2 : Nat)
    (hle : off1 ≤ off2) (hoff2 : off2 ≤ t.len) :
    ∃ ps2, WFc (t.delete off1 off2) ps2 ∧
      (t.delete off1 off2).to_vec
        = t.to_vec.take off1 ++ t.to_vec.drop off2 ∧
      (t.delete off1 off2).len = t.len - (off2 - off1) := by
  by_cases heq : off2 ≤ off1
  · have hres : t.delete off1 off2 = t := by
      simp only [Text.delete, if_pos heq]
    have hoe : off1 = off2 := by omega
    subst hoe
    rw [hres]
    exact ⟨ps, h, by rw [List.take_append_drop], by omega⟩
  · have h12 : off1 < off2 := by omega
    have hlt1 : off1 < t.len := by omega
    obtain ⟨A1, lp, B1, hps1, hfind1, hge1, hlt1s⟩ :=
      find_piece_spec t ps h off1 hlt1
    by_cases h2e : off2 = t.len
    · have hfind2e : t.find_piece off2
          = (off2, ([] : List Nat).headD SENTINEL) := by
        rw [h2e]
        exact find_piece_at_len t
      by_cases hn1 : off1 = sumLens t A1
      · refine ⟨A1 ++ [], delete_nn t ps A1 (lp :: B1) [] off1 off2 h h12
          (by rw [hps1, List.append_nil]) hn1 ?_ (by rw [hfind1, hn1]; rfl)
          hfind2e⟩
        have hsum : t.len = sumLens t A1 + sumLens t (lp :: B1) := by
          rw [h.len_eq, hps1, sumLens_append]
        omega
      · have hsum : t.len = sumLens t A1 + sumLens t (lp :: B1) := by
          rw [h.len_eq, hps1, sumLens_append]
        have hcons : sumLens t (lp :: B1)
            = (t.get_piece lp).span.len + sumLens t B1 := rfl
        exact ⟨A1 ++ t.pieces.length :: [],
          delete_sn t ps A1 B1 [] lp off1 off2 h h12
            (by rw [hps1, List.append_nil]) (by omega) hlt1s (by omega)
            hfind1 hfind2e⟩
    · have hlt2 : off2 < t.len := by omega
      obtain ⟨C, rp, D, hps2, hfind2, hge2, hlt2s⟩ :=
        find_piece_spec t ps h off2 hlt2
      have heqd : A1 ++ lp :: B1 = C ++ rp :: D := by
        rw [← hps1, ← hps2]
      rcases two_decomps lp rp A1 C B1 D heqd with
        ⟨hAC, hpq, hBD⟩ | ⟨Mm, hC, hB⟩ | ⟨Mm, hA, hD2⟩
      · have hfind2s : t.find_piece off2 = (sumLens t A1, lp) := by
          rw [hfind2, hAC, hpq]
        have hge2s : sumLens t A1 ≤ off2 := by
          rw [hAC]; exact hge2
        have hlt2ss : off2 < sumLens t A1 + (t.get_piece lp).span.len := by
          rw [hAC, hpq]; exact hlt2s
        by_cases hn1 : off1 = sumLens t A1
        · refine ⟨A1 ++ t.pieces.length :: B1,
            delete_ns t ps A1 [] B1 lp off1 off2 h h12 (by rw [hps1]; rfl) hn1
              ?_ ?_ (by rw [hfind1, hn1]; rfl) hfind2s⟩
          · have h0 : sumLens t ([] : List Nat) = 0 := rfl
            omega
          · have h0 : sumLens t ([] : List Nat) = 0 := rfl
            omega
        · exact ⟨A1 ++ t.pieces.length :: (t.pieces.length + 1) :: B1,
            delete_ss_same t ps A1 B1 lp off1 off2 h h12 hps1 (by omega)
              hlt2ss hfind1 hfind2s⟩
      · have hsumC : sumLens t C = sumLens t A1
            + ((t.get_piece lp).span.len + sumLens t Mm) := by
          rw [hC, sumLens_append]; rfl
        have hconsM : sumLens t (lp :: Mm)
            = (t.get_piece lp).span.len + sumLens t Mm := rfl
        by_cases hn1 : off1 = sumLens t A1
        · by_cases hn2 : off2 = sumLens t C
          · exact ⟨A1 ++ (rp :: D),
              delete_nn t ps A1 (lp :: Mm) (rp :: D) off1 off2 h h12
                (by rw [hps1, hB]; rfl) hn1 (by omega)
                (by rw [hfind1, hn1]; rfl) (by rw [hfind2, hn2]; rfl)⟩
          · exact ⟨A1 ++ t.pieces.length :: D,
              delete_ns t ps A1 (lp :: Mm) D rp off1 off2 h h12
                (by rw [hps1, hB]; rfl) hn1 (by omega) (by omega)
                (by rw [hfind1, hn1]; rfl) (by rw [hfind2, hsumC]; rfl)⟩
        · by_cases hn2 : off2 = sumLens t C
          · exact ⟨A1 ++ t.pieces.length :: (rp :: D),
              delete_sn t ps A1 Mm (rp :: D) lp off1 off2 h h12
                (by rw [hps1, hB]) (by omega) hlt1s (by omega)
                hfind1 (by rw [hfind2, hn2]; rfl)⟩
          · exact ⟨A1 ++ t.pieces.length :: (t.pieces.length + 1) :: D,
              delete_ss_distinct t ps A1 Mm D lp rp off1 off2 h h12
                (by rw [hps1, hB]) (by omega) hlt1s (by omega) (by omega)
                hfind1 (by rw [hfind2, hsumC, ← Nat.add_assoc])⟩
      · exfalso
        have hsumA : sumLens t A1 = sumLens t C
            + ((t.get_piece rp).span.len + sumLens t Mm) := by
          rw [hA, sumLens_append]; rfl
        omega

theorem refStep_ins_length (l bytes : List Nat) (off : Nat)
    (h : off ≤ l.length) :
    (l.take off ++ bytes ++ l.drop off).length = l.length + bytes.length := by
  simp only [List.length_append, List.length_take, List.length_drop]
  omega

theorem refStep_del_length (l : List Nat) (off1 off2 : Nat) (h1 : off1 ≤ off2)
    (h2 : off2 ≤ l.length) :
    (l.take off1 ++ l.drop off2).length = l.length - (off2 - off1) := by
  simp only [List.length_append, List.length_take, List.length_drop]
  omega

theorem validFrom_take (ops : List Op) :
    ∀ n i, validFrom n ops = true → validFrom n (ops.take i) = true := by
  induction ops with
  | nil =>
    intro n i _
    rw [List.take_nil]
    rfl
  | cons op rest ih =>
    intro n i hv
    cases i with
    | zero => rfl
    | succ i =>
      rw [List.take_succ_cons]
      cases op with
      | ins off bytes =>
        simp only [validFrom, Bool.and_eq_true] at hv ⊢
        exact ⟨hv.1, ih _ _ hv.2⟩
      | del o1 o2 =>
        simp only [validFrom, Bool.and_eq_true] at hv ⊢
        exact ⟨hv.1, ih _ _ hv.2⟩

theorem sim_run (ops : List Op) :
    ∀ (t : Text) (ps l : List Nat), WFc t ps → t.to_vec = l →
    t.len = l.length → validFrom l.length ops = true →
    ∃ ps2, WFc (ops.foldl applyOp t) ps2 ∧
      (ops.foldl applyOp t).to_vec = ops.foldl refStep l ∧
      (ops.foldl applyOp t).len = (ops.foldl refStep l).length := by
  induction ops with
  | nil =>
    intro t ps l hwf hv hl _
    exact ⟨ps, hwf, by simpa using hv, by simpa using hl⟩
  | cons op rest ih =>
    intro t ps l hwf hv hl hval
    cases op with
    | ins off bytes =>
      simp only [validFrom, Bool.and_eq_true, decide_eq_true_eq] at hval
      obtain ⟨hoff, hval2⟩ := hval
      have hofft : off ≤ t.len := by omega
      obtain ⟨ps2, h2, hv2, hl2⟩ := insert_sim t ps hwf off bytes hofft
      have hlen2 : (refStep l (Op.ins off bytes)).length
          = l.length + bytes.length := refStep_ins_length l bytes off hoff
      rw [List.foldl_cons, List.foldl_cons]
      refine ih (t.insert off bytes) ps2 (refStep l (Op.ins off bytes)) h2
        ?_ ?_ ?_
      · rw [hv2, hv]
        rfl
      · rw [hl2, hl, hlen2]
      · rw [hlen2]
        exact hval2
    | del off1 off2 =>
      simp only [validFrom, Bool.and_eq_true, decide_eq_true_eq] at hval
      obtain ⟨⟨h12, h2n⟩, hval2⟩ := hval
      have h2t : off2 ≤ t.len := by omega
      obtain ⟨ps2, h2, hv2, hl2⟩ := delete_sim t ps hwf off1 off2 h12 h2t
      have hlen2 : (refStep l (Op.del off1 off2)).length
          = l.length - (off2 - off1) := refStep_del_length l off1 off2 h12 h2n
      rw [List.foldl_cons, List.foldl_cons]
      refine ih (t.delete off1 off2) ps2 (refStep l (Op.del off1 off2)) h2
        ?_ ?_ ?_
      · rw [hv2, hv]
        rfl
      · rw [hl2, hl, hlen2]
      · rw [hlen2]
        exact hval2

theorem WF_of_reachable {t : Text} (h : Reachable t) : WF t := by
  induction h with
  | new => exact ⟨[], WF_new⟩
  | @ins t0 off bytes hr hoff ih =>
    obtain ⟨ps, hwf⟩ := ih
    obtain ⟨ps2, h2, _, _⟩ := insert_sim t0 ps hwf off bytes hoff
    exact ⟨ps2, h2⟩
  | @del t0 off1 off2 hr hoff ih =>
    obtain ⟨ps, hwf⟩ := ih
    by_cases hle : off2 ≤ off1
    · have hres : t0.delete off1 off2 = t0 := by
        simp only [Text.delete, if_pos hle]
      rw [hres]
      exact ⟨ps, hwf⟩
    · obtain ⟨ps2, h2, _, _⟩ := delete_sim t0 ps hwf off1 off2 (by omega)
        (hoff (by omega))
      exact ⟨ps2, h2⟩

theorem offsetsOf_mem_of_decomp (t : Text) (A : List Nat) :
    ∀ acc p B, (acc + sumLens t A, p) ∈ offsetsOf t acc (A ++ p :: B) := by
  induction A with
  | nil =>
    intro acc p B
    rw [List.nil_append]
    have h0 : acc + sumLens t [] = acc := by
      show acc + 0 = acc
      omega
    rw [h0]
    show (acc, p) ∈ (acc, p) :: offsetsOf t (acc + (t.get_piece p).span.len) B
    exact List.mem_cons_self _ _
  | cons x A ih =>
    intro acc p B
    rw [List.cons_append]
    show (acc + sumLens t (x :: A), p)
      ∈ (acc, x) :: offsetsOf t (acc + (t.get_piece x).span.len) (A ++ p :: B)
    refine List.mem_cons_of_mem _ ?_
    have h1 : acc + sumLens t (x :: A)
        = (acc + (t.get_piece x).span.len) + sumLens t A := by
      show acc + ((t.get_piece x).span.len + sumLens t A) = _
      omega
    rw [h1]
    exact ih _ p B

theorem decomp_unique (t : Text) (ps A B A2 B2 : List Nat) (p p2 off : Nat)
    (h1 : ps = A ++ p :: B) (h2 : ps = A2 ++ p2 :: B2)
    (k1 : sumLens t A ≤ off)
    (k2 : off < sumLens t A + (t.get_piece p).span.len)
    (k3 : sumLens t A2 ≤ off)
    (k4 : off < sumLens t A2 + (t.get_piece p2).span.len) :
    A = A2 ∧ p = p2 := by
  have heq : A ++ p :: B = A2 ++ p2 :: B2 := by rw [← h1, ← h2]
  rcases two_decomps p p2 A A2 B B2 heq with
    ⟨hA, hp, _⟩ | ⟨M, hC, _⟩ | ⟨M, hA2, _⟩
  · exact ⟨hA, hp⟩
  · exfalso
    have hs : sumLens t A2
        = sumLens t A + ((t.get_piece p).span.len + sumLens t M) := by
      rw [hC, sumLens_append]; rfl
    omega
  · exfalso
    have hs : sumLens t A
        = sumLens t A2 + ((t.get_piece p2).span.len + sumLens t M) := by
      rw [hA2, sumLens_append]; rfl
    omega

theorem sumLens_reverse (t : Text) (l : List Nat) :
    sumLens t l.reverse = sumLens t l := by
  induction l with
  | nil => rfl
  | cons x l ih =>
    rw [List.reverse_cons, sumLens_append, ih]
    have e1 : sumLens t [x] = (t.get_piece x).span.len + 0 := rfl
    have e2 : sumLens t (x :: l)
        = (t.get_piece x).span.len + sumLens t l := rfl
    rw [e1, e2]
    omega

theorem Invariants_of_WFc (t : Text) (ps : List Nat) (h : WFc t ps) :
    Invariants t := by
  have hfwd : t.fwdChain = ps := by
    rw [Text.fwdChain]
    exact walkFrom_next_of_seg t ps SENTINEL t.pieces.length h.links
      h.mem_ne h.card
  have hlastprev : (t.get_piece SENTINEL).prev = ps.getLastD SENTINEL :=
    seg_last_prev t ps SENTINEL SENTINEL h.links
  have hbwd : t.bwdChain = ps.reverse := by
    rw [Text.bwdChain, hlastprev]
    exact walkFrom_prev_of_seg t ps SENTINEL t.pieces.length h.links
      h.mem_ne h.card
  refine ⟨?_, ?_, ?_, ?_⟩
  · rw [hfwd]
    exact h.spans_pos
  · rw [hfwd]
    exact h.len_eq.symm
  · rw [hbwd, sumLens_reverse]
    exact h.len_eq.symm
  · intro p hp
    rw [hfwd] at hp
    rcases List.mem_cons.mp hp with rfl | hpp
    · constructor
      · rw [hlastprev]
        exact seg_getLast_next t ps SENTINEL SENTINEL h.links
      · rw [seg_head_next t ps SENTINEL SENTINEL h.links]
        exact seg_headD_prev t SENTINEL SENTINEL ps h.links
    · obtain ⟨A, B, hdec⟩ := List.append_of_mem hpp
      have hl := h.links
      rw [hdec] at hl
      have hparts := (seg_append t SENTINEL SENTINEL p A B).mp hl
      constructor
      · rw [seg_last_prev t A SENTINEL p hparts.1]
        exact seg_getLast_next t A SENTINEL p hparts.1
      · rw [seg_head_next t B p SENTINEL hparts.2]
        exact seg_headD_prev t p SENTINEL B hparts.2

/-- Arena extension: the arena only grows and old entries keep their
spans. -/
def Ext (t u : Text) : Prop :=
  t.pieces.length ≤ u.pieces.length ∧
  ∀ q, q < t.pieces.length → (u.get_piece q).span = (t.get_piece q).span

theorem Ext_rfl (t : Text) : Ext t t := ⟨Nat.le_refl _, fun _ _ => rfl⟩

theorem Ext_trans {a b c : Text} (h1 : Ext a b) (h2 : Ext b c) : Ext a c :=
  ⟨Nat.le_trans h1.1 h2.1, fun q hq =>
    (h2.2 q (Nat.lt_of_lt_of_le hq h1.1)).trans (h1.2 q hq)⟩

theorem Ext_link (t : Text) (p1 p2 : Nat) : Ext t (t.link p1 p2) :=
  ⟨Nat.le_of_eq (link_pieces_length t p1 p2).symm,
    fun q _ => get_piece_link_span t p1 p2 q⟩

theorem Ext_add (t : Text) (s : Span) : Ext t (t.add_piece s).1 :=
  ⟨by rw [add_piece_pieces_length]; omega,
    fun q hq => by rw [get_piece_add_piece_old t s q hq]⟩

theorem Ext_set_len (t : Text) (n : Nat) :
    Ext t ({ t with len := n } : Text) :=
  ⟨Nat.le_refl _, fun _ _ => rfl⟩

theorem Ext_set_buffer (t : Text) (b : AppendOnlyBuffer) :
    Ext t ({ t with buffer := b } : Text) :=
  ⟨Nat.le_refl _, fun _ _ => rfl⟩

theorem set_len_buffer (t : Text) (n : Nat) :
    (({ t with len := n } : Text)).buffer = t.buffer := rfl

theorem delete_ext (t : Text) (off1 off2 : Nat) :
    Ext t (t.delete off1 off2) := by
  by_cases h0 : off2 ≤ off1
  · rw [Text.delete, if_pos h0]
    exact Ext_rfl t
  · rcases hsl : (t.get_piece (t.find_piece off1).2).span.split
        (off1 - (t.find_piece off1).1) with _ | ⟨⟨a1, a2⟩⟩ <;>
      rcases hsr : (t.get_piece (t.find_piece off2).2).span.split
        (off2 - (t.find_piece off2).1) with _ | ⟨⟨b1, b2⟩⟩ <;>
      simp only [Text.delete, if_neg h0, hsl, hsr]
    · exact Ext_trans (Ext_set_len t _) (Ext_link _ _ _)
    · exact Ext_trans (Ext_add t _) (Ext_trans (Ext_link _ _ _)
        (Ext_trans (Ext_set_len _ _) (Ext_link _ _ _)))
    · exact Ext_trans (Ext_add t _) (Ext_trans (Ext_link _ _ _)
        (Ext_trans (Ext_set_len _ _) (Ext_link _ _ _)))
    · exact Ext_trans (Ext_add t _) (Ext_trans (Ext_link _ _ _)
        (Ext_trans (Ext_add _ _) (Ext_trans (Ext_link _ _ _)
          (Ext_trans (Ext_set_len _ _) (Ext_link _ _ _)))))

theorem insert_ext (t : Text) (off : Nat) (bytes : List Nat) :
    Ext t (t.insert off bytes) := by
  by_cases h0 : bytes.length = 0
  · rw [Text.insert, if_pos h0]
    exact Ext_rfl t
  · rcases hs : (t.get_piece (t.find_piece off).2).span.split
        (off - (t.find_piece off).1) with _ | ⟨⟨a1, a2⟩⟩ <;>
      simp only [Text.insert, if_neg h0, hs]
    · exact Ext_trans (Ext_set_buffer t _) (Ext_trans (Ext_add _ _)
        (Ext_trans (Ext_link _ _ _) (Ext_trans (Ext_link _ _ _)
          (Ext_set_len _ _))))
    · exact Ext_trans (Ext_add t _) (Ext_trans (Ext_set_buffer _ _)
        (Ext_trans (Ext_add _ _) (Ext_trans (Ext_add _ _)
          (Ext_trans (Ext_link _ _ _) (Ext_trans (Ext_link _ _ _)
            (Ext_trans (Ext_link _ _ _) (Ext_trans (Ext_link _ _ _)
              (Ext_set_len _ _))))))))

theorem delete_buffer (t : Text) (off1 off2 : Nat) :
    (t.delete off1 off2).buffer = t.buffer := by
  by_cases h0 : off2 ≤ off1
  · rw [Text.delete, if_pos h0]
  · rcases hsl : (t.get_piece (t.find_piece off1).2).span.split
        (off1 - (t.find_piece off1).1) with _ | ⟨⟨a1, a2⟩⟩ <;>
      rcases hsr : (t.get_piece (t.find_piece off2).2).span.split
        (off2 - (t.find_piece off2).1) with _ | ⟨⟨b1, b2⟩⟩ <;>
      simp only [Text.delete, if_neg h0, hsl, hsr, link_buffer,
        set_len_buffer, add_piece_buffer]

theorem drop_cons_getD (l : List Nat) :
    ∀ n, n < l.length → l.drop n = l.getD n 0 :: l.drop (n + 1) := by
  induction l with
  | nil =>
    intro n h
    simp at h
  | cons x xs ih =>
    intro n h
    cases n with
    | zero => rfl
    | succ n =>
      show xs.drop n = xs.getD n 0 :: xs.drop (n + 1)
      exact ih n (by simpa using h)

theorem get_byte_cons (b : AppendOnlyBuffer) (o1 o2 : Nat) (h1 : o1 < o2)
    (h2 : o2 ≤ b.buf.length) :
    b.get ⟨o1, o2⟩ = b.get_byte o1 :: b.get ⟨o1 + 1, o2⟩ := by
  rw [AppendOnlyBuffer.get, AppendOnlyBuffer.get, AppendOnlyBuffer.get_byte]
  show (b.buf.drop o1).take (o2 - o1)
    = b.buf.getD o1 0 :: (b.buf.drop (o1 + 1)).take (o2 - (o1 + 1))
  rw [drop_cons_getD b.buf o1 (by omega)]
  have he : o2 - o1 = (o2 - (o1 + 1)) + 1 := by omega
  rw [he, List.take_succ_cons]

theorem contentOf_cons (t : Text) (p k : Nat)
    (hok : spanOk t.buffer (t.get_piece p).span)
    (hk : k < (t.get_piece p).span.len) :
    (contentOf t p).drop k
      = t.buffer.get_byte ((t.get_piece p).span.off1 + k)
        :: (contentOf t p).drop (k + 1) := by
  obtain ⟨hs1, hs2⟩ := hok
  have hL : (t.get_piece p).span.len
      = (t.get_piece p).span.off2 - (t.get_piece p).span.off1 := rfl
  rw [contentOf, ← get_drop_of_span t.buffer (t.get_piece p).span k,
    ← get_drop_of_span t.buffer (t.get_piece p).span (k + 1)]
  have he : (t.get_piece p).span.off1 + (k + 1)
      = ((t.get_piece p).span.off1 + k) + 1 := by omega
  rw [he]
  exact get_byte_cons t.buffer _ _ (by omega) hs2

theorem bytesStep_none (t : Text) (F : Nat) (ps2 : PiecesSt) (k : Nat) :
    bytesStep t (F + 1) ⟨ps2, none, k⟩ = none := by
  simp only [bytesStep]

theorem bytesStep_emit (t : Text) (F : Nat) (ps2 : PiecesSt) (pd : PieceData)
    (k : Nat) (h : ¬ pd.span.len ≤ k) :
    bytesStep t (F + 1) ⟨ps2, some pd, k⟩
      = some (t.buffer.get_byte (pd.span.off1 + k), ⟨ps2, some pd, k + 1⟩) := by
  simp only [bytesStep]
  rw [if_neg h]

theorem bytesStep_exhaust_last (t : Text) (F : Nat) (off0 k : Nat)
    (pd : PieceData) (h : pd.span.len ≤ k) :
    bytesStep t (F + 1) ⟨⟨SENTINEL, off0⟩, some pd, k⟩ = none := by
  have hps : piecesStep t (⟨SENTINEL, off0⟩ : PiecesSt) = none := by
    rw [piecesStep, if_pos rfl]
  simp only [bytesStep]
  rw [if_pos h, hps]
  cases F with
  | zero => rfl
  | succ F2 => exact bytesStep_none t F2 _ _

theorem bytesStep_advance (t : Text) (F : Nat) (off0 k b1 : Nat)
    (pd : PieceData) (h : pd.span.len ≤ k) (hb1 : b1 ≠ SENTINEL)
    (hpos : 0 < (t.get_piece b1).span.len) :
    bytesStep t (F + 1 + 1) ⟨⟨b1, off0⟩, some pd, k⟩
      = some (t.buffer.get_byte ((t.get_piece b1).span.off1),
          ⟨⟨(t.get_piece b1).next, off0 + (t.get_piece b1).span.len⟩,
            some (t.get_piece b1), 1⟩) := by
  have hps : piecesStep t (⟨b1, off0⟩ : PiecesSt)
      = some ((off0, b1), ⟨(t.get_piece b1).next,
          off0 + (t.get_piece b1).span.len⟩) := by
    rw [piecesStep, if_neg hb1]
  simp only [bytesStep]
  rw [if_pos h, hps]
  simp only []
  rw [if_neg (show ¬ (t.get_piece b1).span.len ≤ 0 by omega)]
  rfl

theorem bytesRun_eq (t : Text) :
    ∀ (fuel k p off0 : Nat) (B : List Nat),
    0 < t.pieces.length →
    seg t p B SENTINEL →
    (∀ q ∈ B, q ≠ SENTINEL) →
    spanOk t.buffer (t.get_piece p).span →
    (∀ q ∈ B, spanOk t.buffer (t.get_piece q).span) →
    (∀ q ∈ B, 0 < (t.get_piece q).span.len) →
    k ≤ (t.get_piece p).span.len →
    ((t.get_piece p).span.len - k) + sumLens t B < fuel →
    bytesRun t fuel ⟨⟨(t.get_piece p).next, off0⟩, some (t.get_piece p), k⟩
      = (contentOf t p).drop k ++ (B.map (contentOf t)).flatten := by
  intro fuel
  induction fuel with
  | zero =>
    intro k p off0 B _ _ _ _ _ _ _ hf
    exact absurd hf (by omega)
  | succ fuel ih =>
    intro k p off0 B harena hseg hne hok hokB hposB hk hf
    by_cases hkl : k < (t.get_piece p).span.len
    · have hstep := bytesStep_emit t t.pieces.length
        ⟨(t.get_piece p).next, off0⟩ (t.get_piece p) k (by omega)
      simp only [bytesRun, hstep]
      rw [ih (k + 1) p off0 B harena hseg hne hok hokB hposB (by omega)
        (by omega)]
      rw [contentOf_cons t p k hok hkl, List.cons_append]
    · have hke : k = (t.get_piece p).span.len := by omega
      have hlenc : (contentOf t p).length = (t.get_piece p).span.len := by
        rw [contentOf]
        exact get_length_of_spanOk t.buffer _ hok
      cases B with
      | nil =>
        have hnext : (t.get_piece p).next = SENTINEL := hseg.1
        have hstep := bytesStep_exhaust_last t t.pieces.length off0 k
          (t.get_piece p) (by omega)
        simp only [bytesRun, hnext, hstep]
        rw [List.drop_eq_nil_of_le (by omega)]
        rfl
      | cons b1 B2 =>
        have hnext : (t.get_piece p).next = b1 := hseg.1
        have hb1ne : b1 ≠ SENTINEL := hne b1 (by simp)
        have hb1pos : 0 < (t.get_piece b1).span.len := hposB b1 (by simp)
        have hb1ok : spanOk t.buffer (t.get_piece b1).span := hokB b1 (by simp)
        have hconsS : sumLens t (b1 :: B2)
            = (t.get_piece b1).span.len + sumLens t B2 := rfl
        obtain ⟨F, hF⟩ : ∃ F, t.pieces.length = F + 1 :=
          ⟨t.pieces.length - 1, by omega⟩
        have hstep := bytesStep_advance t F off0 k b1 (t.get_piece p)
          (by omega) hb1ne hb1pos
        rw [← hF] at hstep
        simp only [bytesRun, hnext, hstep]
        rw [ih 1 b1 (off0 + (t.get_piece b1).span.len) B2 harena hseg.2.2
          (fun q hq => hne q (List.mem_cons_of_mem _ hq)) hb1ok
          (fun q hq => hokB q (List.mem_cons_of_mem _ hq))
          (fun q hq => hposB q (List.mem_cons_of_mem _ hq)) (by omega)
          (by omega)]
        have hcc := contentOf_cons t b1 0 hb1ok hb1pos
        rw [List.drop_zero] at hcc
        have he0 : (t.get_piece b1).span.off1 + 0
            = (t.get_piece b1).span.off1 := by omega
        rw [he0] at hcc
        have he1 : (0 : Nat) + 1 = 1 := rfl
        rw [he1] at hcc
        conv_rhs => rw [show (contentOf t p).drop k = ([] : List Nat) from
          List.drop_eq_nil_of_le (by omega), List.nil_append, List.map_cons,
          List.flatten_cons, hcc, List.cons_append]

end Piece

/-- C5: `Span::split` with `0 < n < L` returns the two adjacent spans
`[off1, off1+n)` and `[off1+n, off2)`; their lengths sum to `L` and the
boundary offsets are contiguous; `split 0` and `split L` return `none`. -/
theorem C5_span_split (s : Piece.Span) (n : Nat)
    (h1 : 0 < n) (h2 : n < s.len) :
    s.split n = some (⟨s.off1, s.off1 + n⟩, ⟨s.off1 + n, s.off2⟩) ∧
    (Piece.Span.len ⟨s.off1, s.off1 + n⟩) + (Piece.Span.len ⟨s.off1 + n, s.off2⟩)
      = s.len ∧
    (Piece.Span.mk s.off1 (s.off1 + n)).off2 = (Piece.Span.mk (s.off1 + n) s.off2).off1 ∧
    s.split 0 = none ∧ s.split s.len = none := by
  refine ⟨?_, ?_, rfl, ?_, ?_⟩
  · rw [Piece.Span.split, if_neg (by omega)]
  · simp only [Piece.Span.len] at h2 ⊢
    omega
  · simp [Piece.Span.split]
  · simp [Piece.Span.split]

theorem C5_span_split_witness :
    (0 < 2 ∧ 2 < (Piece.Span.mk 3 7).len) ∧
    ((Piece.Span.mk 3 7).split 2 = some (⟨3, 5⟩, ⟨5, 7⟩) ∧
      (Piece.Span.len ⟨3, 5⟩) + (Piece.Span.len ⟨5, 7⟩) = (Piece.Span.mk 3 7).len ∧
      (Piece.Span.mk 3 5).off2 = (Piece.Span.mk 5 7).off1 ∧
      (Piece.Span.mk 3 7).split 0 = none ∧
      (Piece.Span.mk 3 7).split (Piece.Span.mk 3 7).len = none) :=
  ⟨⟨by decide, by decide⟩, C5_span_split ⟨3, 7⟩ 2 (by decide) (by decide)⟩

/-- C4: `AppendOnlyBuffer::append` returns a span whose length is
`bytes.length` and reading it back yields exactly `bytes`; any span
returned by an earlier append still reads back the same bytes after
arbitrarily many later appends. -/
theorem C4_buffer_append (b : Piece.AppendOnlyBuffer) (bytes : List Nat)
    (later : List (List Nat)) :
    (b.append bytes).2.len = bytes.length ∧
    (b.append bytes).1.get (b.append bytes).2 = bytes ∧
    (Piece.appendAll (b.append bytes).1 later).get (b.append bytes).2 = bytes := by
  refine ⟨Piece.append_span_len b bytes, Piece.append_get_self b bytes, ?_⟩
  rw [Piece.get_appendAll_of_spanOk later _ _ (Piece.append_spanOk b bytes)]
  exact Piece.append_get_self b bytes

/-- C1: starting from `Text::new`, any sequence of insert/delete operations
whose offsets are in range (judged against the running reference length)
satisfies: after each operation the materialized bytes `to_vec` equal the
result of the same edits on a plain contiguous byte sequence, and `len`
equals that reference sequence's length. -/
theorem C1_refines_reference_model (ops : List Piece.Op) (i : Nat)
    (hv : Piece.validFrom 0 ops = true) (hi : i ≤ ops.length) :
    (Piece.applyOps (ops.take i)).to_vec = Piece.refRun (ops.take i) ∧
    (Piece.applyOps (ops.take i)).len = (Piece.refRun (ops.take i)).length := by
  have hvi : Piece.validFrom 0 (ops.take i) = true :=
    Piece.validFrom_take ops 0 i hv
  obtain ⟨ps2, _, hv2, hl2⟩ := Piece.sim_run (ops.take i) Piece.Text.new []
    [] Piece.WF_new rfl rfl hvi
  exact ⟨hv2, hl2⟩

theorem C1_refines_reference_model_witness :
    (Piece.validFrom 0 [Piece.Op.ins 0 [104, 105], Piece.Op.del 0 1] = true ∧
      2 ≤ ([Piece.Op.ins 0 [104, 105], Piece.Op.del 0 1] : List Piece.Op).length) ∧
    ((Piece.applyOps (([Piece.Op.ins 0 [104, 105], Piece.Op.del 0 1] : List Piece.Op).take 2)).to_vec
        = Piece.refRun (([Piece.Op.ins 0 [104, 105], Piece.Op.del 0 1] : List Piece.Op).take 2) ∧
      (Piece.applyOps (([Piece.Op.ins 0 [104, 105], Piece.Op.del 0 1] : List Piece.Op).take 2)).len
        = (Piece.refRun (([Piece.Op.ins 0 [104, 105], Piece.Op.del 0 1] : List Piece.Op).take 2)).length) :=
  ⟨⟨by decide, by decide⟩,
    C1_refines_reference_model [Piece.Op.ins 0 [104, 105], Piece.Op.del 0 1] 2
      (by decide) (by decide)⟩

/-- C2: for every reachable `Text` and offset `off ≤ len`, `find_piece`
returns `(len, sentinel)` exactly when `off = len`; for `off < len` it
returns a pair `(start, piece)` from the piece sequence whose span covers
`off` with `start` the piece's starting offset; and when `off` lies on a
piece boundary the piece starting at `off` (the right-hand piece) is
returned. -/
theorem C2_find_piece_contract (t : Piece.Text) (ht : Piece.Reachable t)
    (off : Nat) (hoff : off ≤ t.len) :
    (t.find_piece off = (t.len, Piece.SENTINEL) ↔ off = t.len) ∧
    (off < t.len →
      (t.find_piece off).1 ≤ off ∧
      off < (t.find_piece off).1
        + (t.get_piece (t.find_piece off).2).span.len ∧
      t.find_piece off ∈ t.piecesList) ∧
    (∀ s p, (s, p) ∈ t.piecesList → s = off →
      t.find_piece off = (off, p)) := by
  obtain ⟨ps, h⟩ := Piece.WF_of_reachable ht
  refine ⟨⟨?_, ?_⟩, ?_, ?_⟩
  · intro hf
    by_contra hne
    have hofflt : off < t.len := by omega
    obtain ⟨A, p, B, hps1, hfind, hge, hltp⟩ :=
      Piece.find_piece_spec t ps h off hofflt
    have hpmem : p ∈ ps := by
      rw [hps1]
      exact List.mem_append.mpr (Or.inr (by simp))
    have hpne := h.mem_ne p hpmem
    rw [hfind] at hf
    exact hpne (congrArg Prod.snd hf)
  · intro he
    rw [he]
    exact Piece.find_piece_at_len t
  · intro hlt
    obtain ⟨A, p, B, hps1, hfind, hge, hltp⟩ :=
      Piece.find_piece_spec t ps h off hlt
    have hmem0 := Piece.offsetsOf_mem_of_decomp t A 0 p B
    rw [Nat.zero_add] at hmem0
    refine ⟨?_, ?_, ?_⟩
    · rw [hfind]
      exact hge
    · rw [hfind]
      exact hltp
    · rw [hfind, Piece.piecesList_eq t ps h, hps1]
      exact hmem0
  · intro s p hmem hs
    rw [Piece.piecesList_eq t ps h] at hmem
    obtain ⟨A, B, hdec, hsum⟩ := Piece.mem_offsetsOf t ps 0 s p hmem
    rw [Nat.zero_add] at hsum
    have hpmem : p ∈ ps := by
      rw [hdec]
      exact List.mem_append.mpr (Or.inr (by simp))
    have hppos := h.spans_pos p hpmem
    have hsum2 : Piece.sumLens t ps = Piece.sumLens t A
        + ((t.get_piece p).span.len + Piece.sumLens t B) := by
      rw [hdec, Piece.sumLens_append]; rfl
    have hofflt : off < t.len := by
      rw [h.len_eq]
      omega
    obtain ⟨A2, p2, B2, hps2, hfind2, hge2, hlt2⟩ :=
      Piece.find_piece_spec t ps h off hofflt
    obtain ⟨hAeq, hpeq⟩ := Piece.decomp_unique t ps A B A2 B2 p p2 off
      hdec hps2 (by omega) (by omega) hge2 hlt2
    rw [hfind2, ← hAeq, ← hpeq]
    have hAoff : Piece.sumLens t A = off := by omega
    rw [hAoff]

theorem C2_find_piece_contract_witness :
    (Piece.Reachable ((Piece.Text.new.insert 0 [104]).insert 1 [105]) ∧
      1 ≤ ((Piece.Text.new.insert 0 [104]).insert 1 [105]).len) ∧
    ((((Piece.Text.new.insert 0 [104]).insert 1 [105]).find_piece 1
        = (((Piece.Text.new.insert 0 [104]).insert 1 [105]).len,
          Piece.SENTINEL)
      ↔ 1 = ((Piece.Text.new.insert 0 [104]).insert 1 [105]).len) ∧
    (1 < ((Piece.Text.new.insert 0 [104]).insert 1 [105]).len →
      (((Piece.Text.new.insert 0 [104]).insert 1 [105]).find_piece 1).1 ≤ 1 ∧
      1 < (((Piece.Text.new.insert 0 [104]).insert 1 [105]).find_piece 1).1
        + (((Piece.Text.new.insert 0 [104]).insert 1 [105]).get_piece
            (((Piece.Text.new.insert 0 [104]).insert 1 [105]).find_piece 1).2).span.len ∧
      ((Piece.Text.new.insert 0 [104]).insert 1 [105]).find_piece 1
        ∈ ((Piece.Text.new.insert 0 [104]).insert 1 [105]).piecesList) ∧
    (∀ s p, (s, p) ∈ ((Piece.Text.new.insert 0 [104]).insert 1 [105]).piecesList →
      s = 1 →
      ((Piece.Text.new.insert 0 [104]).insert 1 [105]).find_piece 1
        = (1, p))) := by
  have hr : Piece.Reachable ((Piece.Text.new.insert 0 [104]).insert 1 [105]) :=
    Piece.Reachable.ins (Piece.Reachable.ins Piece.Reachable.new (by decide))
      (by decide)
  exact ⟨⟨hr, by decide⟩, C2_find_piece_contract _ hr 1 (by decide)⟩

/-- C3: after every insert with an in-range offset and every delete with
in-range arguments on a reachable text, the §3 consistency invariants
hold: positive spans along the forward chain, forward and backward chain
length sums equal to `len`, and `next`/`prev` mutually inverse at every
chain piece including the sentinel. -/
theorem C3_invariants_preserved (t : Piece.Text) (ht : Piece.Reachable t)
    (off off1 off2 : Nat) (bytes : List Nat) (hoff : off ≤ t.len)
    (hd : off1 < off2 → off2 ≤ t.len) :
    Piece.Invariants (t.insert off bytes) ∧
    Piece.Invariants (t.delete off1 off2) := by
  obtain ⟨ps, h⟩ := Piece.WF_of_reachable ht
  constructor
  · obtain ⟨ps2, h2, _, _⟩ := Piece.insert_sim t ps h off bytes hoff
    exact Piece.Invariants_of_WFc _ ps2 h2
  · by_cases hle : off2 ≤ off1
    · have hres : t.delete off1 off2 = t := by
        rw [Piece.Text.delete, if_pos hle]
      rw [hres]
      exact Piece.Invariants_of_WFc t ps h
    · obtain ⟨ps2, h2, _, _⟩ := Piece.delete_sim t ps h off1 off2 (by omega)
        (hd (by omega))
      exact Piece.Invariants_of_WFc _ ps2 h2

theorem C3_invariants_preserved_witness :
    (Piece.Reachable (Piece.Text.new.insert 0 [104, 105]) ∧
      1 ≤ (Piece.Text.new.insert 0 [104, 105]).len ∧
      (0 < 1 → 1 ≤ (Piece.Text.new.insert 0 [104, 105]).len)) ∧
    (Piece.Invariants ((Piece.Text.new.insert 0 [104, 105]).insert 1 [106]) ∧
      Piece.Invariants ((Piece.Text.new.insert 0 [104, 105]).delete 0 1)) := by
  have hr : Piece.Reachable (Piece.Text.new.insert 0 [104, 105]) :=
    Piece.Reachable.ins Piece.Reachable.new (by decide)
  exact ⟨⟨hr, by decide, by decide⟩,
    C3_invariants_preserved _ hr 1 0 1 [106] (by decide) (by decide)⟩

/-- C6: degenerate edits are complete no-ops: inserting the empty byte
sequence at a valid offset returns the state unchanged, and deleting an
empty or inverted range (`off2 ≤ off1`) returns the state unchanged. -/
theorem C6_degenerate_noops (t : Piece.Text) (off off1 off2 : Nat)
    (hoff : off ≤ t.len) (hdeg : off2 ≤ off1) :
    t.insert off [] = t ∧ t.delete off1 off2 = t := by
  constructor
  · rw [Piece.Text.insert,
      if_pos (show ([] : List Nat).length = 0 from rfl)]
  · rw [Piece.Text.delete, if_pos hdeg]

theorem C6_degenerate_noops_witness :
    (1 ≤ (Piece.Text.new.insert 0 [104, 105]).len ∧ 2 ≤ 2) ∧
    ((Piece.Text.new.insert 0 [104, 105]).insert 1 []
        = Piece.Text.new.insert 0 [104, 105] ∧
      (Piece.Text.new.insert 0 [104, 105]).delete 2 2
        = Piece.Text.new.insert 0 [104, 105]) :=
  ⟨⟨by decide, by decide⟩,
    C6_degenerate_noops (Piece.Text.new.insert 0 [104, 105]) 1 2 2
      (by decide) (by decide)⟩

/-- C10: mutations never rewrite existing storage: `delete` leaves the
backing buffer unchanged, every pre-existing arena entry keeps its span
across `insert` and `delete`, and the arena only grows. -/
theorem C10_mutations_preserve_storage (t : Piece.Text)
    (off off1 off2 q : Nat) (bytes : List Nat)
    (hq : q < t.pieces.length) :
    (t.delete off1 off2).buffer = t.buffer ∧
    ((t.insert off bytes).get_piece q).span = (t.get_piece q).span ∧
    ((t.delete off1 off2).get_piece q).span = (t.get_piece q).span ∧
    t.pieces.length ≤ (t.insert off bytes).pieces.length ∧
    t.pieces.length ≤ (t.delete off1 off2).pieces.length :=
  ⟨Piece.delete_buffer t off1 off2,
    (Piece.insert_ext t off bytes).2 q hq,
    (Piece.delete_ext t off1 off2).2 q hq,
    (Piece.insert_ext t off bytes).1,
    (Piece.delete_ext t off1 off2).1⟩

theorem C10_mutations_preserve_storage_witness :
    (1 < (Piece.Text.new.insert 0 [104, 105]).pieces.length) ∧
    (((Piece.Text.new.insert 0 [104, 105]).delete 0 1).buffer
        = (Piece.Text.new.insert 0 [104, 105]).buffer ∧
      (((Piece.Text.new.insert 0 [104, 105]).insert 1 [106]).get_piece 1).span
        = ((Piece.Text.new.insert 0 [104, 105]).get_piece 1).span ∧
      (((Piece.Text.new.insert 0 [104, 105]).delete 0 1).get_piece 1).span
        = ((Piece.Text.new.insert 0 [104, 105]).get_piece 1).span ∧
      (Piece.Text.new.insert 0 [104, 105]).pieces.length
        ≤ ((Piece.Text.new.insert 0 [104, 105]).insert 1 [106]).pieces.length ∧
      (Piece.Text.new.insert 0 [104, 105]).pieces.length
        ≤ ((Piece.Text.new.insert 0 [104, 105]).delete 0 1).pieces.length) :=
  ⟨by decide,
    C10_mutations_preserve_storage (Piece.Text.new.insert 0 [104, 105])
      1 0 1 1 [106] (by decide)⟩

/-- C7: for every reachable text, draining the lazy byte sequence of
`Text::bytes()` yields exactly the bytes of `to_vec`, in order: the
per-piece cursor emits each piece's bytes and advances to the next piece
when the current span is exhausted, ending when the piece sequence is
exhausted. -/
theorem C7_bytes_iterator_equals_to_vec (t : Piece.Text)
    (ht : Piece.Reachable t) : t.bytesList = t.to_vec := by
  obtain ⟨ps, h⟩ := Piece.WF_of_reachable ht
  cases ps with
  | nil =>
    have hnext : (t.get_piece Piece.SENTINEL).next = Piece.SENTINEL :=
      h.links.1
    have hinit : Piece.piecesStep t ⟨(t.get_piece Piece.SENTINEL).next, 0⟩
        = none := by
      rw [hnext, Piece.piecesStep, if_pos rfl]
    rw [Piece.to_vec_eq t [] h, Piece.Text.bytesList, Piece.Text.bytesInit]
    simp only [hinit]
    simp only [Piece.bytesRun, Piece.bytesStep_none]
    rfl
  | cons p0 rest =>
    have hnext : (t.get_piece Piece.SENTINEL).next = p0 := h.links.1
    have hp0ne : p0 ≠ Piece.SENTINEL := h.mem_ne p0 (by simp)
    have hinit : Piece.piecesStep t ⟨(t.get_piece Piece.SENTINEL).next, 0⟩
        = some ((0, p0), ⟨(t.get_piece p0).next,
            0 + (t.get_piece p0).span.len⟩) := by
      rw [hnext, Piece.piecesStep, if_neg hp0ne]
    have hlen : t.len = Piece.sumLens t (p0 :: rest) := h.len_eq
    have hconsS : Piece.sumLens t (p0 :: rest)
        = (t.get_piece p0).span.len + Piece.sumLens t rest := rfl
    rw [Piece.Text.bytesList, Piece.Text.bytesInit]
    simp only [hinit]
    rw [Piece.bytesRun_eq t (t.len + 1) 0 p0 (0 + (t.get_piece p0).span.len)
      rest h.arena_pos h.links.2.2
      (fun q hq => h.mem_ne q (List.mem_cons_of_mem _ hq))
      (h.spans_ok p0 (by simp))
      (fun q hq => h.spans_ok q (List.mem_cons_of_mem _ hq))
      (fun q hq => h.spans_pos q (List.mem_cons_of_mem _ hq))
      (by omega) (by omega)]
    rw [Piece.to_vec_eq t (p0 :: rest) h, List.drop_zero, List.map_cons,
      List.flatten_cons]

theorem C7_bytes_iterator_equals_to_vec_witness :
    Piece.Reachable (Piece.Text.new.insert 0 [104, 105]) ∧
    (Piece.Text.new.insert 0 [104, 105]).bytesList
      = (Piece.Text.new.insert 0 [104, 105]).to_vec := by
  have hr : Piece.Reachable (Piece.Text.new.insert 0 [104, 105]) :=
    Piece.Reachable.ins Piece.Reachable.new (by decide)
  exact ⟨hr, C7_bytes_iterator_equals_to_vec _ hr⟩

/-- C8 (amended): `to_utf8_string` returns the error value `none` exactly
when the materialized bytes are not valid UTF-8, and returns the decoded
bytes when they are valid.  The claim's "in particular" sentence is
refuted: byte `0x00` is valid UTF-8, so a text holding it decodes
successfully rather than reporting a decoding error (see the
counterexample theorem). -/
theorem C8_to_utf8_string_error_iff (t : Piece.Text) :
    (t.to_utf8_string = none ↔ Piece.validUtf8 t.to_vec = false) ∧
    (Piece.validUtf8 t.to_vec = true → t.to_utf8_string = some t.to_vec) := by
  rw [Piece.Text.to_utf8_string]
  cases hv : Piece.validUtf8 t.to_vec with
  | false =>
    rw [if_neg Bool.false_ne_true]
    exact ⟨by simp, by simp⟩
  | true =>
    rw [if_pos rfl]
    exact ⟨by simp, fun _ => rfl⟩

/-- C8 counterexample: a text holding byte `0x00` round-trips its bytes
through `to_vec`, yet `to_utf8_string` succeeds (`0x00` is valid UTF-8),
refuting the claim that it reports a decoding error on NUL. -/
theorem C8_nul_byte_decodes :
    (Piece.Text.new.insert 0 [0, 65]).to_vec = [0, 65] ∧
    Piece.validUtf8 [0, 65] = true ∧
    (Piece.Text.new.insert 0 [0, 65]).to_utf8_string = some [0, 65] :=
  ⟨by decide, by decide, by decide⟩

/-- C9: `Text::append(bytes)` behaves as `insert(len, bytes)` on every
text and byte sequence. -/
theorem C9_append_is_insert_at_len (t : Piece.Text) (bytes : List Nat) :
    t.append bytes = t.insert t.len bytes := rfl
